import Mathlib

/-!
# bsdiff `BZ2Compressor` (bz2_compressor.cc)

A shallow embedding of the streaming compressor of `bz2_compressor.cc` and
theorems about its session lifecycle and output accumulation.

The bzip2 library is an external collaborator.  It is represented by a record
of three functions (`Codec`) over an arbitrary internal state `σ`; theorems
quantify over every such record, so nothing is assumed about what the library
answers unless a hypothesis says so.

Every operation returns, next to its C++ return value and the object after the
call, the list of library calls it made, in order (`Outcome.calls`).  That list
is how "the codec is (not) invoked" is stated.

The two loops of the source (`while (bz_strm_.avail_in)` and
`while (bz_err == BZ_FINISH_OK)`) run for as long as the library keeps
answering so; they take a bound on the number of iterations and give `none`
when it is used up.
-/

namespace bsdiff

/-! ## Constants -/

/-- The BZ2 compression level used (bz2_compressor.cc, line 17). -/
def kCompressionLevel : Int := 9

/-- Action code `BZ_RUN` of bzlib.h. -/
def BZ_RUN : Int := 0
/-- Action code `BZ_FINISH` of bzlib.h. -/
def BZ_FINISH : Int := 2
/-- Status `BZ_OK` of bzlib.h. -/
def BZ_OK : Int := 0
/-- Status `BZ_RUN_OK` of bzlib.h. -/
def BZ_RUN_OK : Int := 1
/-- Status `BZ_FINISH_OK` of bzlib.h ("finish ok, call again"). -/
def BZ_FINISH_OK : Int := 3
/-- Status `BZ_STREAM_END` of bzlib.h (the stream is terminated). -/
def BZ_STREAM_END : Int := 4
/-- Status `BZ_SEQUENCE_ERROR` of bzlib.h, one of the error statuses. -/
def BZ_SEQUENCE_ERROR : Int := -1

/-! ## The library interface -/

/-- The fields of bzlib.h's `bz_stream` that the compressor reads or writes.
`next_in` is the input the pointer designates; `avail_in` and `avail_out` are
`unsigned int`; `state` is the library's private part, `none` after the
constructor's `memset`.  `next_out` always designates the start of
`comp_buffer_` when the library is called and is never read back, so it is not
a field: the bytes stored through it are `CompressResult.written`. -/
structure bz_stream (σ : Type) where
  next_in : List UInt8
  avail_in : Nat
  avail_out : Nat
  state : Option σ

/-- What one `BZ2_bzCompress` call gives back: its status, the stream record
as the library left it, and the bytes it stored from `next_out` onwards. -/
structure CompressResult (σ : Type) where
  status : Int
  strm : bz_stream σ
  written : List UInt8

/-- The bzip2 library: the three entry points bz2_compressor.cc calls. -/
structure Codec (σ : Type) where
  BZ2_bzCompressInit : bz_stream σ → Int → Int → Int → Int × bz_stream σ
  BZ2_bzCompress : bz_stream σ → Int → CompressResult σ
  BZ2_bzCompressEnd : bz_stream σ → Int × bz_stream σ

/-- One call into the library, as observed from the compressor: for a compress
call the action, the `avail_in` handed over, the status answered and the bytes
the library stored in the scratch buffer. -/
inductive CodecCall where
  | init (level : Int) (status : Int)
  | compress (action : Int) (avail_in : Nat) (status : Int) (written : List UInt8)
  | compressEnd (status : Int)
  deriving DecidableEq, Repr

/-- The status the library answered in a call. -/
def CodecCall.status : CodecCall → Int
  | CodecCall.init _ st => st
  | CodecCall.compress _ _ st _ => st
  | CodecCall.compressEnd st => st

/-- The bytes the library emitted into the scratch buffer in a call. -/
def CodecCall.emitted : CodecCall → List UInt8
  | CodecCall.compress _ _ _ written => written
  | _ => []

/-- The output accounting of `BZ2_bzCompress` as bzlib documents it: a call
lowers `avail_out` by the number of bytes it stored. -/
def Conforms {σ : Type} (c : Codec σ) : Prop :=
  ∀ (strm : bz_stream σ) (action : Int),
    (c.BZ2_bzCompress strm action).written.length + (c.BZ2_bzCompress strm action).strm.avail_out
      = strm.avail_out

/-! ## The object -/

/-- The data members of `BZ2Compressor`. -/
structure BZ2Compressor (σ : Type) where
  bz_strm_ : bz_stream σ
  bz_strm_initialized_ : Bool
  comp_buffer_ : List UInt8
  comp_chunks_ : List (List UInt8)
  comp_data_ : List UInt8

/-- The result of a `bool` member function: the value returned, the object
after the call and the library calls made during it. -/
structure Outcome (σ : Type) where
  ret : Bool
  obj : BZ2Compressor σ
  calls : List CodecCall

/-- Modelled from the spec: the class declaration (bz2_compressor.h) is not
among the sources, so the members' values on entry to the constructor body are
taken from the spec: the session flag is unset ("Initial state is Ready if
codec initialization succeeds, otherwise Failed"), and the scratch buffer, the
chunk list and the result buffer are empty. -/
def declaredMembers (σ : Type) : BZ2Compressor σ :=
  { bz_strm_ := { next_in := [], avail_in := 0, avail_out := 0, state := none }
    bz_strm_initialized_ := false
    comp_buffer_ := []
    comp_chunks_ := []
    comp_data_ := [] }

/-- The effect of `comp_buffer_.resize(n)` on a vector of bytes. -/
def resize (v : List UInt8) (n : Nat) : List UInt8 :=
  v.take n ++ List.replicate (n - v.length) 0

/-- The scratch buffer after the library stored `written` from its start: the
vector keeps its size. -/
def store (buffer written : List UInt8) : List UInt8 :=
  (written ++ buffer.drop written.length).take buffer.length

/-- The C++ expression `comp_buffer_.size() - bz_strm_.avail_out` as a
`uint64_t`: unsigned subtraction modulo 2^64. -/
def output_bytes (size avail_out : Nat) : Nat :=
  (((size : Int) - (avail_out : Int)) % (2 ^ 64 : Int)).toNat

/-- `BZ2Compressor::BZ2Compressor()` (lines 23-33). -/
def construct {σ : Type} (c : Codec σ) : BZ2Compressor σ × List CodecCall :=
  let m := declaredMembers σ
  let strm0 : bz_stream σ := { next_in := [], avail_in := 0, avail_out := 0, state := none }
  let r := c.BZ2_bzCompressInit strm0 kCompressionLevel 0 0
  let m1 : BZ2Compressor σ :=
    if r.1 ≠ BZ_OK then { m with bz_strm_ := r.2 }
    else { m with bz_strm_ := r.2, bz_strm_initialized_ := true }
  ({ m1 with comp_buffer_ := resize m1.comp_buffer_ (1024 * 1024) },
   [CodecCall.init kCompressionLevel r.1])

/-- `BZ2Compressor::~BZ2Compressor()` (lines 35-42): the library calls made. -/
def destruct {σ : Type} (c : Codec σ) (s : BZ2Compressor σ) : List CodecCall :=
  if !s.bz_strm_initialized_ then []
  else [CodecCall.compressEnd (c.BZ2_bzCompressEnd s.bz_strm_).1]

/-- The `emplace_back` of lines 63-66 and 84-87: append the first
`output_bytes` bytes of the scratch buffer as a new chunk when that count is
not zero. -/
def appendChunk {σ : Type} (s : BZ2Compressor σ) : BZ2Compressor σ :=
  let n := output_bytes s.comp_buffer_.length s.bz_strm_.avail_out
  if n ≠ 0 then { s with comp_chunks_ := s.comp_chunks_ ++ [s.comp_buffer_.take n] }
  else s

/-- One `BZ2_bzCompress(&bz_strm_, action)` call with the output pointer and
`avail_out` set up as in lines 54-56 and 79-81: the status, the object after
the call and the call as observed. -/
def callCompress {σ : Type} (c : Codec σ) (s : BZ2Compressor σ) (action : Int) :
    Int × BZ2Compressor σ × CodecCall :=
  let strm := { s.bz_strm_ with avail_out := s.comp_buffer_.length % 2 ^ 32 }
  let r := c.BZ2_bzCompress strm action
  (r.status,
   { s with bz_strm_ := r.strm, comp_buffer_ := store s.comp_buffer_ r.written },
   CodecCall.compress action strm.avail_in r.status r.written)

/-- The loop `while (bz_strm_.avail_in) { ... }` of `Write` (lines 53-68),
with at most `fuel` iterations. -/
def WriteLoop {σ : Type} (c : Codec σ) : Nat → BZ2Compressor σ → Option (Outcome σ)
  | 0, s => if s.bz_strm_.avail_in = 0 then some ⟨true, s, []⟩ else none
  | fuel + 1, s =>
    if s.bz_strm_.avail_in = 0 then some ⟨true, s, []⟩
    else
      let r := callCompress c s BZ_RUN
      if r.1 ≠ BZ_RUN_OK then some ⟨false, r.2.1, [r.2.2]⟩
      else
        match WriteLoop c fuel (appendChunk r.2.1) with
        | none => none
        | some o => some ⟨o.ret, o.obj, r.2.2 :: o.calls⟩

/-- `BZ2Compressor::Write(buf, size)` (lines 44-69).  `size` is a `size_t`;
the assignment to the `unsigned int` field `avail_in` keeps its low 32 bits. -/
def Write {σ : Type} (c : Codec σ) (fuel : Nat) (s : BZ2Compressor σ)
    (buf : List UInt8) (size : Nat) : Option (Outcome σ) :=
  if !s.bz_strm_initialized_ then some ⟨false, s, []⟩
  else
    WriteLoop c fuel
      { s with bz_strm_ := { s.bz_strm_ with next_in := buf, avail_in := size % 2 ^ 32 } }

/-- The loop `while (bz_err == BZ_FINISH_OK) { ... }` of `Finish`
(lines 78-88), with at most `fuel` iterations: the status that ends the loop,
the object and the calls made. -/
def FinishLoop {σ : Type} (c : Codec σ) :
    Nat → Int → BZ2Compressor σ → Option (Int × BZ2Compressor σ × List CodecCall)
  | 0, bz_err, s => if bz_err = BZ_FINISH_OK then none else some (bz_err, s, [])
  | fuel + 1, bz_err, s =>
    if bz_err = BZ_FINISH_OK then
      let r := callCompress c s BZ_FINISH
      match FinishLoop c fuel r.1 (appendChunk r.2.1) with
      | none => none
      | some (e, s2, calls) => some (e, s2, r.2.2 :: calls)
    else some (bz_err, s, [])

/-- `BZ2Compressor::Finish()` (lines 71-100). -/
def Finish {σ : Type} (c : Codec σ) (fuel : Nat) (s : BZ2Compressor σ) :
    Option (Outcome σ) :=
  if !s.bz_strm_initialized_ then some ⟨false, s, []⟩
  else
    match FinishLoop c fuel BZ_FINISH_OK
        { s with bz_strm_ := { s.bz_strm_ with next_in := [], avail_in := 0 } } with
    | none => none
    | some (bz_err, s2, calls) =>
      if bz_err ≠ BZ_STREAM_END then some ⟨false, s2, calls⟩
      else
        let r := c.BZ2_bzCompressEnd s2.bz_strm_
        let s3 := { s2 with bz_strm_ := r.2, bz_strm_initialized_ := false }
        if r.1 ≠ BZ_OK then some ⟨false, s3, calls ++ [CodecCall.compressEnd r.1]⟩
        else some ⟨true, s3, calls ++ [CodecCall.compressEnd r.1]⟩

/-- `BZ2Compressor::GetCompressedData()` (lines 102-114): the vector returned
and the object after the call.  It makes no library call. -/
def GetCompressedData {σ : Type} (s : BZ2Compressor σ) : List UInt8 × BZ2Compressor σ :=
  if !s.comp_chunks_.isEmpty then
    let data := s.comp_chunks_.foldl (fun d chunk => d ++ chunk) s.comp_data_
    (data, { s with comp_data_ := data, comp_chunks_ := [] })
  else (s.comp_data_, s)

/-! ## Sequences of calls -/

/-- The compressed stream an object holds: the result buffer followed by the
chunks not yet flattened into it. -/
def stream {σ : Type} (s : BZ2Compressor σ) : List UInt8 :=
  s.comp_data_ ++ s.comp_chunks_.flatten

/-- A call of one of the three public member functions. -/
inductive Op where
  | write (buf : List UInt8) (size : Nat)
  | finish
  | getData
  deriving DecidableEq, Repr

/-- What a public member function returned. -/
inductive Ret where
  | bool (b : Bool)
  | data (d : List UInt8)
  deriving DecidableEq, Repr

/-- One call: the value returned, the object after it, the library calls made. -/
def step {σ : Type} (c : Codec σ) (fuel : Nat) (s : BZ2Compressor σ) :
    Op → Option (Ret × BZ2Compressor σ × List CodecCall)
  | Op.write buf size => (Write c fuel s buf size).map fun o => (Ret.bool o.ret, o.obj, o.calls)
  | Op.finish => (Finish c fuel s).map fun o => (Ret.bool o.ret, o.obj, o.calls)
  | Op.getData => some (Ret.data (GetCompressedData s).1, (GetCompressedData s).2, [])

/-- A sequence of calls on one object, in order: the values returned, the
object at the end and all library calls made. -/
def run {σ : Type} (c : Codec σ) (fuel : Nat) :
    BZ2Compressor σ → List Op → Option (List Ret × BZ2Compressor σ × List CodecCall)
  | s, [] => some ([], s, [])
  | s, op :: ops =>
    match step c fuel s op with
    | none => none
    | some (r, s1, k1) =>
      match run c fuel s1 ops with
      | none => none
      | some (rs, s2, k2) => some (r :: rs, s2, k1 ++ k2)

/-- What a call returns on an object whose session flag is unset and whose
stream is `d`: failure for `Write` and `Finish`, `d` for `GetCompressedData`. -/
def inertRet (d : List UInt8) : Op → Ret
  | Op.getData => Ret.data d
  | _ => Ret.bool false

/-! ## Example libraries

Small stand-ins for the library, used to run the operations on concrete
inputs. -/

/-- A library whose initialization fails. -/
def noInitCodec : Codec Nat :=
  { BZ2_bzCompressInit := fun strm _ _ _ => (-3, strm)
    BZ2_bzCompress := fun strm _ => ⟨BZ_SEQUENCE_ERROR, strm, []⟩
    BZ2_bzCompressEnd := fun strm => (-2, strm) }

/-- A library that answers `BZ_SEQUENCE_ERROR` to its first compress call and
works from then on: it takes all the input offered and keeps it inside
(storing nothing in the scratch buffer), and ends the stream at once on
`BZ_FINISH`. -/
def flakyCodec : Codec Nat :=
  { BZ2_bzCompressInit := fun strm _ _ _ => (BZ_OK, { strm with state := some 0 })
    BZ2_bzCompress := fun strm action =>
      match strm.state with
      | some 0 => ⟨BZ_SEQUENCE_ERROR, { strm with state := some 1 }, []⟩
      | _ =>
        if action = BZ_FINISH then ⟨BZ_STREAM_END, strm, []⟩
        else ⟨BZ_RUN_OK, { strm with avail_in := 0 }, []⟩
    BZ2_bzCompressEnd := fun strm => (BZ_OK, { strm with state := none }) }

/-- A library that copies its input to the output: on `BZ_RUN` it moves as many
bytes as fit; on `BZ_FINISH` it stores the one-byte trailer 255 and ends the
stream, or answers `BZ_FINISH_OK` when there is no room for it.  Its state
counts the calls. -/
def copyCodec : Codec Nat :=
  { BZ2_bzCompressInit := fun strm _ _ _ => (BZ_OK, { strm with state := some 0 })
    BZ2_bzCompress := fun strm action =>
      let n := strm.state.getD 0 + 1
      if action = BZ_FINISH then
        if strm.avail_out = 0 then ⟨BZ_FINISH_OK, { strm with state := some n }, []⟩
        else ⟨BZ_STREAM_END, { strm with avail_out := strm.avail_out - 1, state := some n }, [255]⟩
      else
        let k := min (min strm.avail_in strm.avail_out) strm.next_in.length
        ⟨BZ_RUN_OK,
         { next_in := strm.next_in.drop k, avail_in := strm.avail_in - k,
           avail_out := strm.avail_out - k, state := some n },
         strm.next_in.take k⟩
    BZ2_bzCompressEnd := fun strm => (BZ_OK, { strm with state := none }) }

/-- A Ready object with a two-byte scratch buffer and nothing produced yet. -/
def smallReady : BZ2Compressor Nat :=
  { bz_strm_ := { next_in := [], avail_in := 0, avail_out := 0, state := some 0 }
    bz_strm_initialized_ := true
    comp_buffer_ := [0, 0]
    comp_chunks_ := []
    comp_data_ := [] }

/-- What `Finish` gives on `smallReady` with `copyCodec`: success, the trailer
as the only chunk, the session released. -/
def smallFinished : Outcome Nat :=
  { ret := true
    obj :=
      { bz_strm_ := { next_in := [], avail_in := 0, avail_out := 1, state := none }
        bz_strm_initialized_ := false
        comp_buffer_ := [255, 0]
        comp_chunks_ := [[255]]
        comp_data_ := [] }
    calls := [CodecCall.compress BZ_FINISH 0 BZ_STREAM_END [255], CodecCall.compressEnd BZ_OK] }

/-- What `Write` of three bytes gives on `smallReady` with `flakyCodec`: the
first library call answers an error and `Write` returns failure. -/
def smallFailedWrite : Outcome Nat :=
  { ret := false
    obj :=
      { bz_strm_ := { next_in := [1, 2, 3], avail_in := 3, avail_out := 2, state := some 1 }
        bz_strm_initialized_ := true
        comp_buffer_ := [0, 0]
        comp_chunks_ := []
        comp_data_ := [] }
    calls := [CodecCall.compress BZ_RUN 3 BZ_SEQUENCE_ERROR []] }

/-- A library that needs two finalizing calls: the first stores two bytes and
answers `BZ_FINISH_OK`, the second stores one byte and answers
`BZ_STREAM_END`.  On `BZ_RUN` it takes all the input and stores nothing. -/
def drainCodec : Codec Nat :=
  { BZ2_bzCompressInit := fun strm _ _ _ => (BZ_OK, { strm with state := some 0 })
    BZ2_bzCompress := fun strm action =>
      if action = BZ_FINISH then
        match strm.state with
        | some 0 =>
          ⟨BZ_FINISH_OK, { strm with avail_out := strm.avail_out - 2, state := some 1 }, [1, 2]⟩
        | _ => ⟨BZ_STREAM_END, { strm with avail_out := strm.avail_out - 1 }, [3]⟩
      else ⟨BZ_RUN_OK, { strm with avail_in := 0 }, []⟩
    BZ2_bzCompressEnd := fun strm => (BZ_OK, { strm with state := none }) }

/-- What `Finish` gives on `smallReady` with `drainCodec`: two finalizing
calls, two chunks, then the release. -/
def smallDrained : Outcome Nat :=
  { ret := true
    obj :=
      { bz_strm_ := { next_in := [], avail_in := 0, avail_out := 1, state := none }
        bz_strm_initialized_ := false
        comp_buffer_ := [3, 2]
        comp_chunks_ := [[1, 2], [3]]
        comp_data_ := [] }
    calls := [CodecCall.compress BZ_FINISH 0 BZ_FINISH_OK [1, 2],
              CodecCall.compress BZ_FINISH 0 BZ_STREAM_END [3],
              CodecCall.compressEnd BZ_OK] }

/-- What writing `[1, 2, 3]` and `[4]` and finishing gives on `smallReady` with
`copyCodec`: the values returned, the object at the end, the library calls. -/
def smallCopied : List Ret × BZ2Compressor Nat × List CodecCall :=
  ([Ret.bool true, Ret.bool true, Ret.bool true],
   { bz_strm_ := { next_in := [], avail_in := 0, avail_out := 1, state := none }
     bz_strm_initialized_ := false
     comp_buffer_ := [255, 2]
     comp_chunks_ := [[1, 2], [3], [4], [255]]
     comp_data_ := [] },
   [CodecCall.compress BZ_RUN 3 BZ_RUN_OK [1, 2],
    CodecCall.compress BZ_RUN 1 BZ_RUN_OK [3],
    CodecCall.compress BZ_RUN 1 BZ_RUN_OK [4],
    CodecCall.compress BZ_FINISH 0 BZ_STREAM_END [255],
    CodecCall.compressEnd BZ_OK])

/-- What `Finish` gives on `smallReady` with `flakyCodec`: the finalizing call
answers an error and `Finish` returns failure without releasing the session. -/
def smallFailedFinish : Outcome Nat :=
  { ret := false
    obj :=
      { bz_strm_ := { next_in := [], avail_in := 0, avail_out := 2, state := some 1 }
        bz_strm_initialized_ := true
        comp_buffer_ := [0, 0]
        comp_chunks_ := []
        comp_data_ := [] }
    calls := [CodecCall.compress BZ_FINISH 0 BZ_SEQUENCE_ERROR []] }

/-! ## Counting releases, and comparing objects -/

/-- Whether a library call is a `BZ2_bzCompressEnd` call. -/
def CodecCall.isEnd : CodecCall → Bool
  | CodecCall.compressEnd _ => true
  | _ => false

/-- The number of `BZ2_bzCompressEnd` calls among library calls. -/
def releases (calls : List CodecCall) : Nat :=
  calls.countP CodecCall.isEnd

/-- The number of releases an object still owes: one while its session flag is
set. -/
def owed {σ : Type} (s : BZ2Compressor σ) : Nat :=
  if s.bz_strm_initialized_ then 1 else 0

/-- A library that never reports more free output space than it was handed. -/
def NoOverreport {σ : Type} (c : Codec σ) : Prop :=
  ∀ (strm : bz_stream σ) (action : Int),
    (c.BZ2_bzCompress strm action).strm.avail_out ≤ strm.avail_out

/-- Whether a call is a `GetCompressedData` call. -/
def Op.isGet : Op → Bool
  | Op.getData => true
  | _ => false

/-- Whether a returned value is the vector of `GetCompressedData`. -/
def Ret.isData : Ret → Bool
  | Ret.data _ => true
  | _ => false

/-- A sequence of calls without its `GetCompressedData` calls. -/
def dropGets (ops : List Op) : List Op :=
  ops.filter fun op => !op.isGet

/-- The values returned by the `Write` and `Finish` calls of a sequence. -/
def boolRets (rs : List Ret) : List Ret :=
  rs.filter fun r => !r.isData

/-- An object with its chunks flattened into the result buffer. -/
def flat {σ : Type} (s : BZ2Compressor σ) : BZ2Compressor σ :=
  { s with comp_data_ := stream s, comp_chunks_ := [] }

/-- What is observed of a sequence of calls apart from the vectors returned
along the way: the values returned by `Write` and `Finish`, the library calls
made, and the vector a final `GetCompressedData` returns. -/
def observed {σ : Type} (r : List Ret × BZ2Compressor σ × List CodecCall) :
    List Ret × List CodecCall × List UInt8 :=
  (boolRets r.1, r.2.2, (GetCompressedData r.2.1).1)

/-- A library that fails every compress call, after storing the byte 9 when
there is room for it. -/
def leakyCodec : Codec Nat :=
  { BZ2_bzCompressInit := fun strm _ _ _ => (BZ_OK, { strm with state := some 0 })
    BZ2_bzCompress := fun strm _ =>
      if strm.avail_out = 0 then ⟨BZ_SEQUENCE_ERROR, strm, []⟩
      else ⟨BZ_SEQUENCE_ERROR, { strm with avail_out := strm.avail_out - 1 }, [9]⟩
    BZ2_bzCompressEnd := fun strm => (BZ_OK, { strm with state := none }) }

/-- A library whose output tells only whether it was given any input: on
`BZ_RUN` it takes all the input offered, counting the bytes in its state, and
stores nothing; on `BZ_FINISH` it stores one byte, 0 when it has seen no input
and 1 otherwise, and ends the stream (or answers `BZ_FINISH_OK` when there is
no room).  Its output depends on the whole input only, not on how the input
was cut into calls. -/
def countCodec : Codec Nat :=
  { BZ2_bzCompressInit := fun strm _ _ _ => (BZ_OK, { strm with state := some 0 })
    BZ2_bzCompress := fun strm action =>
      if action = BZ_FINISH then
        if strm.avail_out = 0 then ⟨BZ_FINISH_OK, strm, []⟩
        else ⟨BZ_STREAM_END, { strm with avail_out := strm.avail_out - 1 },
          [if strm.state.getD 0 = 0 then 0 else 1]⟩
      else
        ⟨BZ_RUN_OK,
         { strm with next_in := strm.next_in.drop strm.avail_in, avail_in := 0,
                     state := some (strm.state.getD 0 + strm.avail_in) },
         []⟩
    BZ2_bzCompressEnd := fun strm => (BZ_OK, { strm with state := none }) }

/-- What writing `[1, 2, 3]`, reading the data and finishing gives on the
object constructed with `copyCodec`: the values returned, the object at the
end, the library calls. -/
def constructedCopied : List Ret × BZ2Compressor Nat × List CodecCall :=
  ([Ret.bool true, Ret.data [1, 2, 3], Ret.bool true],
   { bz_strm_ := { next_in := [], avail_in := 0, avail_out := 1048575, state := none }
     bz_strm_initialized_ := false
     comp_buffer_ := store (store (resize [] (1024 * 1024)) [1, 2, 3]) [255]
     comp_chunks_ := [[255]]
     comp_data_ := [1, 2, 3] },
   [CodecCall.compress BZ_RUN 3 BZ_RUN_OK [1, 2, 3],
    CodecCall.compress BZ_FINISH 0 BZ_STREAM_END [255],
    CodecCall.compressEnd BZ_OK])

/-- The scratch buffer of an object has `n` bytes, and every chunk of its
chunk list is non-empty and at most `n` bytes long. -/
def ChunksWithin {σ : Type} (n : Nat) (s : BZ2Compressor σ) : Prop :=
  s.comp_buffer_.length = n ∧ ∀ chunk ∈ s.comp_chunks_, chunk ≠ [] ∧ chunk.length ≤ n

/-- What `Write` of one byte gives on `smallReady` with `leakyCodec`: the call
stored the byte 9 in the scratch buffer and failed; no chunk was appended. -/
def smallLeakedWrite : Outcome Nat :=
  { ret := false
    obj :=
      { bz_strm_ := { next_in := [1], avail_in := 1, avail_out := 1, state := some 0 }
        bz_strm_initialized_ := true
        comp_buffer_ := [9, 0]
        comp_chunks_ := []
        comp_data_ := [] }
    calls := [CodecCall.compress BZ_RUN 1 BZ_SEQUENCE_ERROR [9]] }

/-- What `Finish` gives on `smallReady` with `leakyCodec`: the call stored the
byte 9 in the scratch buffer and failed; the byte was appended as a chunk. -/
def smallLeakedFinish : Outcome Nat :=
  { ret := false
    obj :=
      { bz_strm_ := { next_in := [], avail_in := 0, avail_out := 1, state := some 0 }
        bz_strm_initialized_ := true
        comp_buffer_ := [9, 0]
        comp_chunks_ := [[9]]
        comp_data_ := [] }
    calls := [CodecCall.compress BZ_FINISH 0 BZ_SEQUENCE_ERROR [9]] }

/-- What two `Write` calls of size zero and a `Finish` give on the object
constructed with `copyCodec`: the values returned, the object at the end, the
library calls. -/
def constructedEmpty : List Ret × BZ2Compressor Nat × List CodecCall :=
  ([Ret.bool true, Ret.bool true, Ret.bool true],
   { bz_strm_ := { next_in := [], avail_in := 0, avail_out := 1048575, state := none }
     bz_strm_initialized_ := false
     comp_buffer_ := store (resize [] (1024 * 1024)) [255]
     comp_chunks_ := [[255]]
     comp_data_ := [] },
   [CodecCall.compress BZ_FINISH 0 BZ_STREAM_END [255], CodecCall.compressEnd BZ_OK])

/-- The decoder that goes with `copyCodec`: the data without its trailer. -/
def copyDecode (data : List UInt8) : List UInt8 :=
  data.dropLast

/-- A library that encodes a stream with the function `enc`.  `R st i p` reads:
in the private state `st` the library has taken the input `i` and emitted
the output `p` so far.  A successful `BZ_RUN` call takes some first `k` of the
`avail_in` bytes offered and emits some bytes; a `BZ_FINISH` call (made with no
input pending) emits some bytes; and when the library answers `BZ_STREAM_END`
all it has emitted is `enc` of all it has taken.  How the input was cut into
calls is not part of `R`. -/
structure Streams {σ : Type} (c : Codec σ) (enc : List UInt8 → List UInt8)
    (R : Option σ → List UInt8 → List UInt8 → Prop) : Prop where
  init : ∀ (strm : bz_stream σ) (a b d : Int),
    (c.BZ2_bzCompressInit strm a b d).1 = BZ_OK →
    R (c.BZ2_bzCompressInit strm a b d).2.state [] []
  run : ∀ (strm : bz_stream σ) (i p : List UInt8), R strm.state i p →
    (c.BZ2_bzCompress strm BZ_RUN).status = BZ_RUN_OK →
    ∃ k, k ≤ strm.avail_in ∧
      (c.BZ2_bzCompress strm BZ_RUN).strm.avail_in = strm.avail_in - k ∧
      (c.BZ2_bzCompress strm BZ_RUN).strm.next_in = strm.next_in.drop k ∧
      R (c.BZ2_bzCompress strm BZ_RUN).strm.state (i ++ strm.next_in.take k)
        (p ++ (c.BZ2_bzCompress strm BZ_RUN).written)
  finish_ok : ∀ (strm : bz_stream σ) (i p : List UInt8), R strm.state i p →
    strm.avail_in = 0 →
    (c.BZ2_bzCompress strm BZ_FINISH).status = BZ_FINISH_OK →
    (c.BZ2_bzCompress strm BZ_FINISH).strm.avail_in = 0 ∧
    R (c.BZ2_bzCompress strm BZ_FINISH).strm.state i
      (p ++ (c.BZ2_bzCompress strm BZ_FINISH).written)
  finish_end : ∀ (strm : bz_stream σ) (i p : List UInt8), R strm.state i p →
    strm.avail_in = 0 →
    (c.BZ2_bzCompress strm BZ_FINISH).status = BZ_STREAM_END →
    p ++ (c.BZ2_bzCompress strm BZ_FINISH).written = enc i

/-- What writing the pieces `[1, 2, 3]` and `[4]` and finishing gives on the
object constructed with `copyCodec`: the values returned, the object at the
end, the library calls. -/
def constructedPieces : List Ret × BZ2Compressor Nat × List CodecCall :=
  ([Ret.bool true, Ret.bool true, Ret.bool true],
   { bz_strm_ := { next_in := [], avail_in := 0, avail_out := 1048575, state := none }
     bz_strm_initialized_ := false
     comp_buffer_ := store (store (store (resize [] (1024 * 1024)) [1, 2, 3]) [4]) [255]
     comp_chunks_ := [[1, 2, 3], [4], [255]]
     comp_data_ := [] },
   [CodecCall.compress BZ_RUN 3 BZ_RUN_OK [1, 2, 3],
    CodecCall.compress BZ_RUN 1 BZ_RUN_OK [4],
    CodecCall.compress BZ_FINISH 0 BZ_STREAM_END [255],
    CodecCall.compressEnd BZ_OK])

/-! ## The rounds of the two loops -/

/-- Status `BZ_PARAM_ERROR` of bzlib.h, one of the error statuses. -/
def BZ_PARAM_ERROR : Int := -2

/-- The object on entry to the loop of `Write` (after lines 50-51). -/
def writeEntry {σ : Type} (s : BZ2Compressor σ) (buf : List UInt8) (size : Nat) :
    BZ2Compressor σ :=
  { s with bz_strm_ := { s.bz_strm_ with next_in := buf, avail_in := size % 2 ^ 32 } }

/-- The object on entry to the loop of `Finish` (after lines 74-75). -/
def finishEntry {σ : Type} (s : BZ2Compressor σ) : BZ2Compressor σ :=
  { s with bz_strm_ := { s.bz_strm_ with next_in := [], avail_in := 0 } }

/-- The object after `k` full rounds of a loop body with the given action: a
library call (lines 54-56, 79-81) followed by the `emplace_back` (lines 62-66,
83-87). -/
def afterRounds {σ : Type} (c : Codec σ) (action : Int) :
    Nat → BZ2Compressor σ → BZ2Compressor σ
  | 0, s => s
  | k + 1, s => afterRounds c action k (appendChunk (callCompress c s action).2.1)

/-- The library calls of the first `k` rounds, in order. -/
def roundCalls {σ : Type} (c : Codec σ) (action : Int) :
    Nat → BZ2Compressor σ → List CodecCall
  | 0, _ => []
  | k + 1, s =>
    (callCompress c s action).2.2 ::
      roundCalls c action k (appendChunk (callCompress c s action).2.1)

/-- The status the library answers in round `k` (counted from 0), the rounds
before it having been completed. -/
def answer {σ : Type} (c : Codec σ) (action : Int) (k : Nat) (s : BZ2Compressor σ) : Int :=
  (callCompress c (afterRounds c action k s) action).1

/-- A library whose first compress call takes one byte and copies it, and
whose later compress calls answer `BZ_PARAM_ERROR`. -/
def secondCallFailsCodec : Codec Nat :=
  { BZ2_bzCompressInit := fun strm _ _ _ => (BZ_OK, { strm with state := some 0 })
    BZ2_bzCompress := fun strm _ =>
      match strm.state with
      | some 0 =>
        ⟨BZ_RUN_OK,
         { next_in := strm.next_in.drop 1, avail_in := strm.avail_in - 1,
           avail_out := strm.avail_out - 1, state := some 1 },
         strm.next_in.take 1⟩
      | _ => ⟨BZ_PARAM_ERROR, strm, []⟩
    BZ2_bzCompressEnd := fun strm => (BZ_OK, { strm with state := none }) }

/-- What `Write` of three bytes gives on `smallReady` with
`secondCallFailsCodec`: one round that copies a byte, then a call that answers
`BZ_PARAM_ERROR`. -/
def smallSecondFailed : Outcome Nat :=
  { ret := false
    obj :=
      { bz_strm_ := { next_in := [2, 3], avail_in := 2, avail_out := 2, state := some 1 }
        bz_strm_initialized_ := true
        comp_buffer_ := [1, 0]
        comp_chunks_ := [[1]]
        comp_data_ := [] }
    calls := [CodecCall.compress BZ_RUN 3 BZ_RUN_OK [1],
              CodecCall.compress BZ_RUN 2 BZ_PARAM_ERROR []] }

/-- A library like `copyCodec` whose release answers `BZ_PARAM_ERROR`. -/
def badEndCodec : Codec Nat :=
  { copyCodec with
    BZ2_bzCompressEnd := fun strm => (BZ_PARAM_ERROR, { strm with state := none }) }

/-- What a `Write` of three bytes and a `Finish` give on the object constructed
with `badEndCodec`: the drain ends with `BZ_STREAM_END`, the release answers
`BZ_PARAM_ERROR` and `Finish` returns failure. -/
def constructedBadEnd : List Ret × BZ2Compressor Nat × List CodecCall :=
  ([Ret.bool true, Ret.bool false],
   { bz_strm_ := { next_in := [], avail_in := 0, avail_out := 1048575, state := none }
     bz_strm_initialized_ := false
     comp_buffer_ := store (store (resize [] (1024 * 1024)) [1, 2, 3]) [255]
     comp_chunks_ := [[1, 2, 3], [255]]
     comp_data_ := [] },
   [CodecCall.compress BZ_RUN 3 BZ_RUN_OK [1, 2, 3],
    CodecCall.compress BZ_FINISH 0 BZ_STREAM_END [255],
    CodecCall.compressEnd BZ_PARAM_ERROR])

/-- What `Finish` gives on the object of `smallSecondFailed` with
`secondCallFailsCodec`: the finalizing call answers `BZ_PARAM_ERROR` and
`Finish` returns failure without releasing the session. -/
def smallParamFailedFinish : Outcome Nat :=
  { ret := false
    obj :=
      { bz_strm_ := { next_in := [], avail_in := 0, avail_out := 2, state := some 1 }
        bz_strm_initialized_ := true
        comp_buffer_ := [1, 0]
        comp_chunks_ := [[1]]
        comp_data_ := [] }
    calls := [CodecCall.compress BZ_FINISH 0 BZ_PARAM_ERROR []] }

end bsdiff

/-! # Theorems -/

namespace bsdiff

/-! ## Basic facts -/

theorem foldl_append_chunks (chunks : List (List UInt8)) (d : List UInt8) :
    chunks.foldl (fun d chunk => d ++ chunk) d = d ++ chunks.flatten := by
  induction chunks generalizing d with
  | nil => simp
  | cons ch rest ih => simp [List.foldl_cons, ih, List.append_assoc]

theorem GetCompressedData_fst {σ : Type} (s : BZ2Compressor σ) :
    (GetCompressedData s).1 = stream s := by
  unfold GetCompressedData stream
  cases h : s.comp_chunks_ with
  | nil => simp
  | cons ch rest => simp [foldl_append_chunks]

theorem GetCompressedData_snd {σ : Type} (s : BZ2Compressor σ) :
    (GetCompressedData s).2 = { s with comp_data_ := stream s, comp_chunks_ := [] } := by
  unfold GetCompressedData stream
  cases h : s.comp_chunks_ with
  | nil =>
    cases s
    simp_all
  | cons ch rest => simp [foldl_append_chunks]

theorem stream_GetCompressedData {σ : Type} (s : BZ2Compressor σ) :
    stream (GetCompressedData s).2 = stream s := by
  rw [GetCompressedData_snd]
  simp [stream]

theorem flag_GetCompressedData {σ : Type} (s : BZ2Compressor σ) :
    (GetCompressedData s).2.bz_strm_initialized_ = s.bz_strm_initialized_ := by
  rw [GetCompressedData_snd]

theorem Write_unset {σ : Type} (c : Codec σ) (fuel : Nat) (s : BZ2Compressor σ)
    (buf : List UInt8) (size : Nat) (h : s.bz_strm_initialized_ = false) :
    Write c fuel s buf size = some ⟨false, s, []⟩ := by
  simp [Write, h]

theorem Finish_unset {σ : Type} (c : Codec σ) (fuel : Nat) (s : BZ2Compressor σ)
    (h : s.bz_strm_initialized_ = false) :
    Finish c fuel s = some ⟨false, s, []⟩ := by
  simp [Finish, h]

/-- On an object whose session flag is unset, every sequence of calls returns
failure from each `Write` and `Finish`, the current stream from each
`GetCompressedData`, and makes no library call; the flag stays unset and the
stream stays the same. -/
theorem run_unset {σ : Type} (c : Codec σ) (fuel : Nat) (ops : List Op) :
    ∀ s : BZ2Compressor σ, s.bz_strm_initialized_ = false →
      ∃ s2, run c fuel s ops = some (ops.map (inertRet (stream s)), s2, []) ∧
        s2.bz_strm_initialized_ = false ∧ stream s2 = stream s := by
  induction ops with
  | nil => intro s h; exact ⟨s, rfl, h, rfl⟩
  | cons op ops ih =>
    intro s h
    cases op with
    | write buf size =>
      obtain ⟨s2, hrun, hflag, hstream⟩ := ih s h
      exact ⟨s2, by simp [run, step, Write_unset c fuel s buf size h, hrun, inertRet],
        hflag, hstream⟩
    | finish =>
      obtain ⟨s2, hrun, hflag, hstream⟩ := ih s h
      exact ⟨s2, by simp [run, step, Finish_unset c fuel s h, hrun, inertRet], hflag, hstream⟩
    | getData =>
      obtain ⟨s2, hrun, hflag, hstream⟩ :=
        ih (GetCompressedData s).2 (by rw [flag_GetCompressedData]; exact h)
      rw [stream_GetCompressedData] at hrun hstream
      exact ⟨s2, by simp [run, step, hrun, inertRet, GetCompressedData_fst], hflag, hstream⟩

/-- A `Finish` that returns success leaves the session flag unset. -/
theorem Finish_success_flag {σ : Type} (c : Codec σ) (fuel : Nat) (s : BZ2Compressor σ)
    (o : Outcome σ) (hF : Finish c fuel s = some o) (hret : o.ret = true) :
    o.obj.bz_strm_initialized_ = false := by
  unfold Finish at hF
  split at hF
  · simp at hF; subst hF; simp at hret
  · split at hF
    · simp at hF
    · split at hF
      · simp at hF; subst hF; simp at hret
      · dsimp only at hF
        split at hF <;> (simp at hF; subst hF; simp_all)

/-! ## The stream only grows -/

theorem stream_appendChunk {σ : Type} (s : BZ2Compressor σ) :
    stream s <+: stream (appendChunk s) := by
  unfold appendChunk
  dsimp only
  split
  · simp [stream, List.append_assoc]
  · exact List.prefix_refl _

theorem stream_callCompress {σ : Type} (c : Codec σ) (s : BZ2Compressor σ) (action : Int) :
    stream (callCompress c s action).2.1 = stream s := rfl

theorem flag_callCompress {σ : Type} (c : Codec σ) (s : BZ2Compressor σ) (action : Int) :
    (callCompress c s action).2.1.bz_strm_initialized_ = s.bz_strm_initialized_ := rfl

theorem flag_appendChunk {σ : Type} (s : BZ2Compressor σ) :
    (appendChunk s).bz_strm_initialized_ = s.bz_strm_initialized_ := by
  unfold appendChunk
  dsimp only
  split <;> rfl

theorem stream_WriteLoop {σ : Type} (c : Codec σ) (fuel : Nat) :
    ∀ (s : BZ2Compressor σ) (o : Outcome σ), WriteLoop c fuel s = some o →
      stream s <+: stream o.obj := by
  induction fuel with
  | zero =>
    intro s o h
    unfold WriteLoop at h
    split at h
    · simp at h; subst h; exact List.prefix_refl _
    · simp at h
  | succ n ih =>
    intro s o h
    unfold WriteLoop at h
    split at h
    · simp at h; subst h; exact List.prefix_refl _
    · dsimp only at h
      split at h
      · simp at h; subst h; rw [stream_callCompress]
      · split at h
        · simp at h
        · rename_i o2 heq
          simp at h; subst h
          have h1 := ih _ _ heq
          have h2 := stream_appendChunk (callCompress c s BZ_RUN).2.1
          rw [stream_callCompress] at h2
          exact h2.trans h1

theorem stream_FinishLoop {σ : Type} (c : Codec σ) (fuel : Nat) :
    ∀ (bz_err : Int) (s : BZ2Compressor σ) (e : Int) (s2 : BZ2Compressor σ)
      (calls : List CodecCall), FinishLoop c fuel bz_err s = some (e, s2, calls) →
      stream s <+: stream s2 := by
  induction fuel with
  | zero =>
    intro bz_err s e s2 calls h
    unfold FinishLoop at h
    split at h
    · simp at h
    · simp at h; rw [h.2.1]
  | succ n ih =>
    intro bz_err s e s2 calls h
    unfold FinishLoop at h
    split at h
    · dsimp only at h
      split at h
      · simp at h
      · rename_i e1 s3 calls1 heq
        simp at h
        have h1 := ih _ _ _ _ _ heq
        have h2 := stream_appendChunk (callCompress c s BZ_FINISH).2.1
        rw [stream_callCompress] at h2
        rw [← h.2.1]
        exact h2.trans h1
    · simp at h; rw [h.2.1]

theorem stream_Write {σ : Type} (c : Codec σ) (fuel : Nat) (s : BZ2Compressor σ)
    (buf : List UInt8) (size : Nat) (o : Outcome σ) (h : Write c fuel s buf size = some o) :
    stream s <+: stream o.obj := by
  unfold Write at h
  split at h
  · simp at h; subst h; exact List.prefix_refl _
  · have h1 := stream_WriteLoop c fuel _ o h
    exact h1

theorem stream_Finish {σ : Type} (c : Codec σ) (fuel : Nat) (s : BZ2Compressor σ)
    (o : Outcome σ) (h : Finish c fuel s = some o) :
    stream s <+: stream o.obj := by
  unfold Finish at h
  split at h
  · simp at h; subst h; exact List.prefix_refl _
  · split at h
    · simp at h
    · rename_i e s2 calls heq
      have h0 := stream_FinishLoop c fuel _ _ _ _ _ heq
      have h1 : stream s <+: stream s2 := h0
      split at h
      · simp at h; subst h; exact h1
      · dsimp only at h
        split at h <;> (simp at h; subst h; exact h1)

theorem stream_step {σ : Type} (c : Codec σ) (fuel : Nat) (s : BZ2Compressor σ) (op : Op)
    (r : Ret) (s2 : BZ2Compressor σ) (calls : List CodecCall)
    (h : step c fuel s op = some (r, s2, calls)) :
    stream s <+: stream s2 := by
  cases op with
  | write buf size =>
    simp only [step, Option.map_eq_some'] at h
    obtain ⟨o, ho, heq⟩ := h
    simp at heq
    rw [← heq.2.1]
    exact stream_Write c fuel s buf size o ho
  | finish =>
    simp only [step, Option.map_eq_some'] at h
    obtain ⟨o, ho, heq⟩ := h
    simp at heq
    rw [← heq.2.1]
    exact stream_Finish c fuel s o ho
  | getData =>
    simp [step] at h
    rw [← h.2.1, stream_GetCompressedData]

theorem stream_run {σ : Type} (c : Codec σ) (fuel : Nat) (ops : List Op) :
    ∀ (s : BZ2Compressor σ) (rs : List Ret) (s2 : BZ2Compressor σ) (calls : List CodecCall),
      run c fuel s ops = some (rs, s2, calls) → stream s <+: stream s2 := by
  induction ops with
  | nil =>
    intro s rs s2 calls h
    simp [run] at h
    rw [h.2.1]
  | cons op ops ih =>
    intro s rs s2 calls h
    unfold run at h
    split at h
    · simp at h
    · rename_i r s1 k1 hstep
      split at h
      · simp at h
      · rename_i rs2 s3 k2 hrun
        simp at h
        rw [← h.2.1]
        exact (stream_step c fuel s op r s1 k1 hstep).trans (ih _ _ _ _ hrun)

theorem flag_construct_failed {σ : Type} (c : Codec σ)
    (hinit : (c.BZ2_bzCompressInit { next_in := [], avail_in := 0, avail_out := 0, state := none }
      kCompressionLevel 0 0).1 ≠ BZ_OK) :
    (construct c).1.bz_strm_initialized_ = false ∧ stream (construct c).1 = [] := by
  unfold construct
  dsimp only
  rw [if_pos hinit]
  exact ⟨rfl, rfl⟩

/-! ## The loops -/

theorem WriteLoop_succ {σ : Type} (c : Codec σ) (fuel : Nat) :
    ∀ (s : BZ2Compressor σ) (o : Outcome σ), WriteLoop c fuel s = some o →
      WriteLoop c (fuel + 1) s = some o := by
  induction fuel with
  | zero =>
    intro s o h
    unfold WriteLoop at h
    split at h
    · rename_i h0
      unfold WriteLoop
      rw [if_pos h0]; exact h
    · simp at h
  | succ n ih =>
    intro s o h
    unfold WriteLoop at h
    unfold WriteLoop
    split at h
    · rename_i h0
      rw [if_pos h0]; exact h
    · rename_i h0
      rw [if_neg h0]
      dsimp only at h ⊢
      split at h
      · rename_i h1
        rw [if_pos h1]; exact h
      · rename_i h1
        rw [if_neg h1]
        split at h
        · simp at h
        · rename_i o2 heq
          rw [ih _ _ heq]
          exact h

theorem WriteLoop_mono {σ : Type} (c : Codec σ) (fuel fuel2 : Nat) (hle : fuel ≤ fuel2)
    (s : BZ2Compressor σ) (o : Outcome σ) (h : WriteLoop c fuel s = some o) :
    WriteLoop c fuel2 s = some o := by
  induction hle with
  | refl => exact h
  | step _ ih => exact WriteLoop_succ c _ s o ih

theorem Write_mono {σ : Type} (c : Codec σ) (fuel fuel2 : Nat) (hle : fuel ≤ fuel2)
    (s : BZ2Compressor σ) (buf : List UInt8) (size : Nat) (o : Outcome σ)
    (h : Write c fuel s buf size = some o) : Write c fuel2 s buf size = some o := by
  unfold Write at h ⊢
  split at h
  · rename_i h0
    rw [if_pos h0]; exact h
  · rename_i h0
    rw [if_neg h0]
    exact WriteLoop_mono c fuel fuel2 hle _ o h

theorem FinishLoop_succ {σ : Type} (c : Codec σ) (fuel : Nat) :
    ∀ (bz_err : Int) (s : BZ2Compressor σ) (res : Int × BZ2Compressor σ × List CodecCall),
      FinishLoop c fuel bz_err s = some res → FinishLoop c (fuel + 1) bz_err s = some res := by
  induction fuel with
  | zero =>
    intro bz_err s res h
    unfold FinishLoop at h
    split at h
    · simp at h
    · rename_i h0
      unfold FinishLoop
      rw [if_neg h0]; exact h
  | succ n ih =>
    intro bz_err s res h
    unfold FinishLoop at h
    unfold FinishLoop
    split at h
    · rename_i h0
      rw [if_pos h0]
      dsimp only at h ⊢
      split at h
      · simp at h
      · rename_i e s2 calls heq
        rw [ih _ _ _ heq]
        exact h
    · rename_i h0
      rw [if_neg h0]; exact h

theorem FinishLoop_mono {σ : Type} (c : Codec σ) (fuel fuel2 : Nat) (hle : fuel ≤ fuel2)
    (bz_err : Int) (s : BZ2Compressor σ) (res : Int × BZ2Compressor σ × List CodecCall)
    (h : FinishLoop c fuel bz_err s = some res) : FinishLoop c fuel2 bz_err s = some res := by
  induction hle with
  | refl => exact h
  | step _ ih => exact FinishLoop_succ c _ bz_err s res ih

theorem Finish_mono {σ : Type} (c : Codec σ) (fuel fuel2 : Nat) (hle : fuel ≤ fuel2)
    (s : BZ2Compressor σ) (o : Outcome σ)
    (h : Finish c fuel s = some o) : Finish c fuel2 s = some o := by
  unfold Finish at h ⊢
  split at h
  · rename_i h0
    rw [if_pos h0]; exact h
  · rename_i h0
    rw [if_neg h0]
    split at h
    · simp at h
    · rename_i e s2 calls heq
      rw [FinishLoop_mono c fuel fuel2 hle _ _ _ heq]
      exact h

theorem status_callCompress {σ : Type} (c : Codec σ) (s : BZ2Compressor σ) (action : Int) :
    (callCompress c s action).2.2.status = (callCompress c s action).1 := rfl

/-- What a `Write` loop that returns has done: the session flag is as before;
on success the input counter is zero and every library call answered
`BZ_RUN_OK`; on failure the last call answered another status and all calls
before it answered `BZ_RUN_OK`. -/
theorem WriteLoop_spec {σ : Type} (c : Codec σ) (fuel : Nat) :
    ∀ (s : BZ2Compressor σ) (o : Outcome σ), WriteLoop c fuel s = some o →
      o.obj.bz_strm_initialized_ = s.bz_strm_initialized_ ∧
      (o.ret = true → o.obj.bz_strm_.avail_in = 0 ∧
        ∀ call ∈ o.calls, call.status = BZ_RUN_OK) ∧
      (o.ret = false → ∃ pre last, o.calls = pre ++ [last] ∧ last.status ≠ BZ_RUN_OK ∧
        ∀ call ∈ pre, call.status = BZ_RUN_OK) := by
  induction fuel with
  | zero =>
    intro s o h
    unfold WriteLoop at h
    split at h
    · rename_i h0
      simp at h; subst h
      simp [h0]
    · simp at h
  | succ n ih =>
    intro s o h
    unfold WriteLoop at h
    split at h
    · rename_i h0
      simp at h; subst h
      simp [h0]
    · dsimp only at h
      split at h
      · rename_i h1
        simp at h; subst h
        refine ⟨rfl, by simp, fun _ => ⟨[], (callCompress c s BZ_RUN).2.2, rfl, ?_, by simp⟩⟩
        rw [status_callCompress]; exact h1
      · rename_i h1
        split at h
        · simp at h
        · rename_i o2 heq
          simp at h; subst h
          obtain ⟨hflag, hok, hbad⟩ := ih _ _ heq
          rw [flag_appendChunk, flag_callCompress] at hflag
          have hst : (callCompress c s BZ_RUN).2.2.status = BZ_RUN_OK := by
            rw [status_callCompress]; exact not_not.mp h1
          refine ⟨hflag, ?_, ?_⟩
          · intro hret
            obtain ⟨h1, h2⟩ := hok hret
            refine ⟨h1, ?_⟩
            intro call hcall
            rcases List.mem_cons.mp hcall with hc | hc
            · rw [hc]; exact hst
            · exact h2 call hc
          · intro hret
            obtain ⟨pre, last, hcalls, hlast, hpre⟩ := hbad hret
            refine ⟨(callCompress c s BZ_RUN).2.2 :: pre, last, ?_, hlast, ?_⟩
            · simp [hcalls]
            · intro call hcall
              rcases List.mem_cons.mp hcall with hc | hc
              · rw [hc]; exact hst
              · exact hpre call hc

/-- What a `Finish` loop entered with `BZ_FINISH_OK` has done when it returns:
the session flag is as before, the status that ended the loop is not
`BZ_FINISH_OK`, it is the status of the last finalizing call, and every call
before that one answered `BZ_FINISH_OK`. -/
theorem FinishLoop_spec {σ : Type} (c : Codec σ) (fuel : Nat) :
    ∀ (s : BZ2Compressor σ) (e : Int) (s2 : BZ2Compressor σ) (calls : List CodecCall),
      FinishLoop c fuel BZ_FINISH_OK s = some (e, s2, calls) →
      s2.bz_strm_initialized_ = s.bz_strm_initialized_ ∧ e ≠ BZ_FINISH_OK ∧
      ∃ pre ai w, calls = pre ++ [CodecCall.compress BZ_FINISH ai e w] ∧
        ∀ call ∈ pre, ∃ ai2 w2, call = CodecCall.compress BZ_FINISH ai2 BZ_FINISH_OK w2 := by
  induction fuel with
  | zero =>
    intro s e s2 calls h
    simp [FinishLoop] at h
  | succ n ih =>
    intro s e s2 calls h
    unfold FinishLoop at h
    rw [if_pos rfl] at h
    dsimp only at h
    split at h
    · simp at h
    · rename_i e1 s3 calls1 heq
      simp at h
      obtain ⟨he, hs, hcalls⟩ := h
      subst he hs hcalls
      by_cases hst : (callCompress c s BZ_FINISH).1 = BZ_FINISH_OK
      · rw [hst] at heq
        obtain ⟨hflag, hne, pre, ai, w, hcalls, hpre⟩ := ih _ _ _ _ heq
        rw [flag_appendChunk, flag_callCompress] at hflag
        refine ⟨hflag, hne, (callCompress c s BZ_FINISH).2.2 :: pre, ai, w, by simp [hcalls], ?_⟩
        intro call hcall
        rcases List.mem_cons.mp hcall with hc | hc
        · refine ⟨s.bz_strm_.avail_in, (c.BZ2_bzCompress
            { s.bz_strm_ with avail_out := s.comp_buffer_.length % 2 ^ 32 } BZ_FINISH).written, ?_⟩
          have hshape : (callCompress c s BZ_FINISH).2.2 =
              CodecCall.compress BZ_FINISH s.bz_strm_.avail_in (callCompress c s BZ_FINISH).1
                (c.BZ2_bzCompress
                  { s.bz_strm_ with avail_out := s.comp_buffer_.length % 2 ^ 32 }
                  BZ_FINISH).written := rfl
          rw [hc, hshape, hst]
        · exact hpre call hc
      · cases n with
        | zero =>
          simp [FinishLoop, hst] at heq
          obtain ⟨he, hs, hcalls⟩ := heq
          subst he hs hcalls
          refine ⟨by rw [flag_appendChunk, flag_callCompress], hst, [], s.bz_strm_.avail_in, _,
            rfl, by simp⟩
        | succ m =>
          unfold FinishLoop at heq
          rw [if_neg hst] at heq
          simp at heq
          obtain ⟨he, hs, hcalls⟩ := heq
          subst he hs hcalls
          refine ⟨by rw [flag_appendChunk, flag_callCompress], hst, [], s.bz_strm_.avail_in, _,
            rfl, by simp⟩

/-- What `Finish` on an object whose session flag is set has done when it
returns: finalizing calls that answered `BZ_FINISH_OK`, then one that answered
another status `e`; when `e` is `BZ_STREAM_END` the session is released, the
flag is cleared and the value returned tells whether the release answered
`BZ_OK`; otherwise nothing more is called, the flag stays set and the value
returned is failure. -/
theorem Finish_spec {σ : Type} (c : Codec σ) (fuel : Nat) (s : BZ2Compressor σ)
    (o : Outcome σ) (hready : s.bz_strm_initialized_ = true) (hF : Finish c fuel s = some o) :
    ∃ pre ai e w,
      (∀ call ∈ pre, ∃ ai2 w2, call = CodecCall.compress BZ_FINISH ai2 BZ_FINISH_OK w2) ∧
      e ≠ BZ_FINISH_OK ∧
      ((e = BZ_STREAM_END ∧ ∃ st,
          o.calls = pre ++ [CodecCall.compress BZ_FINISH ai e w, CodecCall.compressEnd st] ∧
          (o.ret = true ↔ st = BZ_OK) ∧ o.obj.bz_strm_initialized_ = false) ∨
       (e ≠ BZ_STREAM_END ∧ o.calls = pre ++ [CodecCall.compress BZ_FINISH ai e w] ∧
          o.ret = false ∧ o.obj.bz_strm_initialized_ = true)) := by
  unfold Finish at hF
  simp only [hready, Bool.not_true, Bool.false_eq_true, if_false] at hF
  split at hF
  · simp at hF
  · rename_i e s2 calls heq
    obtain ⟨hflag, hne, pre, ai, w, hcalls, hpre⟩ := FinishLoop_spec c fuel _ _ _ _ heq
    refine ⟨pre, ai, e, w, hpre, hne, ?_⟩
    split at hF
    · rename_i hend
      simp at hF; subst hF
      exact Or.inr ⟨hend, hcalls, rfl, hflag⟩
    · rename_i hend
      refine Or.inl ⟨not_not.mp hend, (c.BZ2_bzCompressEnd s2.bz_strm_).1, ?_⟩
      split at hF
      · rename_i hrel
        simp at hF; subst hF
        exact ⟨by simp [hcalls], by simp [hrel], rfl⟩
      · rename_i hrel
        simp at hF; subst hF
        exact ⟨by simp [hcalls], by simp [not_not.mp hrel], rfl⟩

theorem WriteLoop_head {σ : Type} (c : Codec σ) (fuel : Nat) (s : BZ2Compressor σ)
    (o : Outcome σ) (h : WriteLoop c fuel s = some o) :
    (s.bz_strm_.avail_in = 0 → o = ⟨true, s, []⟩) ∧
    (s.bz_strm_.avail_in ≠ 0 → ∃ st w rest,
      o.calls = CodecCall.compress BZ_RUN s.bz_strm_.avail_in st w :: rest) := by
  cases fuel with
  | zero =>
    unfold WriteLoop at h
    split at h
    · rename_i h0
      simp at h; subst h
      exact ⟨fun _ => rfl, fun hne => absurd h0 hne⟩
    · simp at h
  | succ n =>
    unfold WriteLoop at h
    split at h
    · rename_i h0
      simp at h; subst h
      exact ⟨fun _ => rfl, fun hne => absurd h0 hne⟩
    · rename_i h0
      refine ⟨fun h1 => absurd h1 h0, fun _ => ?_⟩
      dsimp only at h
      split at h
      · simp at h; subst h
        exact ⟨_, _, [], rfl⟩
      · split at h
        · simp at h
        · rename_i o2 heq
          simp at h; subst h
          exact ⟨_, _, o2.calls, rfl⟩

theorem Write_calls_codec {σ : Type} (c : Codec σ) (fuel : Nat) (s : BZ2Compressor σ)
    (buf : List UInt8) (size : Nat) (o : Outcome σ)
    (hready : s.bz_strm_initialized_ = true) (hsize : size % 2 ^ 32 ≠ 0)
    (h : Write c fuel s buf size = some o) : o.calls ≠ [] := by
  unfold Write at h
  simp only [hready, Bool.not_true, Bool.false_eq_true, if_false] at h
  obtain ⟨st, w, rest, hcalls⟩ := (WriteLoop_head c fuel _ o h).2 hsize
  rw [hcalls]
  exact List.cons_ne_nil _ _

theorem Finish_calls_codec {σ : Type} (c : Codec σ) (fuel : Nat) (s : BZ2Compressor σ)
    (o : Outcome σ) (hready : s.bz_strm_initialized_ = true)
    (h : Finish c fuel s = some o) : o.calls ≠ [] := by
  obtain ⟨pre, ai, e, w, _, _, hcase⟩ := Finish_spec c fuel s o hready h
  rcases hcase with ⟨_, st, hcalls, _, _⟩ | ⟨_, hcalls, _, _⟩ <;>
    (rw [hcalls]; simp)

theorem length_store (b w : List UInt8) : (store b w).length = b.length := by
  simp [store]
  omega

theorem length_resize (v : List UInt8) (n : Nat) : (resize v n).length = n := by
  simp [resize]
  omega

/-- The object the constructor builds with `flakyCodec`. -/
theorem construct_flaky :
    (construct flakyCodec).1 =
      { bz_strm_ := { next_in := [], avail_in := 0, avail_out := 0, state := some 0 }
        bz_strm_initialized_ := true
        comp_buffer_ := resize [] (1024 * 1024)
        comp_chunks_ := []
        comp_data_ := [] } := by
  rfl

theorem run_flaky_write_write_finish (b : List UInt8) (hb : b.length = 1024 * 1024) :
    (run flakyCodec 1
        { bz_strm_ := { next_in := [], avail_in := 0, avail_out := 0, state := some 0 }
          bz_strm_initialized_ := true
          comp_buffer_ := b
          comp_chunks_ := []
          comp_data_ := [] }
        [Op.write [1, 2, 3] 3, Op.write [1, 2, 3] 3, Op.finish]).map (fun r => (r.1, r.2.2)) =
      some ([Ret.bool false, Ret.bool true, Ret.bool true],
        [CodecCall.compress BZ_RUN 3 BZ_SEQUENCE_ERROR [],
         CodecCall.compress BZ_RUN 3 BZ_RUN_OK [],
         CodecCall.compress BZ_FINISH 0 BZ_STREAM_END [],
         CodecCall.compressEnd BZ_OK]) := by
  simp [run, step, Write, WriteLoop, Finish, FinishLoop, callCompress, appendChunk, flakyCodec,
    length_store, hb, output_bytes, BZ_RUN, BZ_RUN_OK, BZ_FINISH, BZ_FINISH_OK,
    BZ_STREAM_END, BZ_OK, BZ_SEQUENCE_ERROR]

theorem run_flaky_finish_write_finish (b : List UInt8) (hb : b.length = 1024 * 1024) :
    (run flakyCodec 1
        { bz_strm_ := { next_in := [], avail_in := 0, avail_out := 0, state := some 0 }
          bz_strm_initialized_ := true
          comp_buffer_ := b
          comp_chunks_ := []
          comp_data_ := [] }
        [Op.finish, Op.write [1, 2, 3] 3, Op.finish]).map (fun r => (r.1, r.2.2)) =
      some ([Ret.bool false, Ret.bool true, Ret.bool true],
        [CodecCall.compress BZ_FINISH 0 BZ_SEQUENCE_ERROR [],
         CodecCall.compress BZ_RUN 3 BZ_RUN_OK [],
         CodecCall.compress BZ_FINISH 0 BZ_STREAM_END [],
         CodecCall.compressEnd BZ_OK]) := by
  simp [run, step, Write, WriteLoop, Finish, FinishLoop, callCompress, appendChunk, flakyCodec,
    length_store, hb, output_bytes, BZ_RUN, BZ_RUN_OK, BZ_FINISH, BZ_FINISH_OK,
    BZ_STREAM_END, BZ_OK, BZ_SEQUENCE_ERROR]

/-! ## What the chunks hold -/

theorem output_bytes_eq (len a : Nat) (h : a ≤ len) (hlen : len < 2 ^ 64) :
    output_bytes len a = len - a := by
  unfold output_bytes
  have h2 : ((len : Int) - (a : Int)) % (2 ^ 64 : Int) = (len : Int) - (a : Int) := by
    apply Int.emod_eq_of_lt <;> omega
  rw [h2]
  omega

theorem conforms_copyCodec : Conforms copyCodec := by
  intro strm action
  simp only [copyCodec]
  split
  · split
    · simp
    · simp
      omega
  · simp

theorem take_store (b w : List UInt8) (h : w.length ≤ b.length) :
    (store b w).take w.length = w := by
  unfold store
  rw [List.take_take, Nat.min_eq_left h, List.take_left]

theorem length_callCompress {σ : Type} (c : Codec σ) (s : BZ2Compressor σ) (action : Int) :
    (callCompress c s action).2.1.comp_buffer_.length = s.comp_buffer_.length := by
  simp [callCompress, length_store]

theorem length_appendChunk {σ : Type} (s : BZ2Compressor σ) :
    (appendChunk s).comp_buffer_.length = s.comp_buffer_.length := by
  unfold appendChunk
  dsimp only
  split <;> rfl

/-- With a library that accounts for its output, one library call followed by
the `emplace_back` adds to the stream exactly the bytes the call emitted. -/
theorem stream_appendChunk_callCompress {σ : Type} (c : Codec σ) (hc : Conforms c)
    (s : BZ2Compressor σ) (hbuf : s.comp_buffer_.length < 2 ^ 32) (action : Int) :
    stream (appendChunk (callCompress c s action).2.1)
      = stream s ++ (callCompress c s action).2.2.emitted := by
  have hmod : s.comp_buffer_.length % 2 ^ 32 = s.comp_buffer_.length := Nat.mod_eq_of_lt hbuf
  have hacc := hc { s.bz_strm_ with avail_out := s.comp_buffer_.length % 2 ^ 32 } action
  simp only [hmod] at hacc
  unfold appendChunk callCompress
  simp only [hmod, length_store, CodecCall.emitted]
  generalize c.BZ2_bzCompress
    { s.bz_strm_ with avail_out := s.comp_buffer_.length } action = r at hacc ⊢
  have hn : output_bytes s.comp_buffer_.length r.strm.avail_out = r.written.length := by
    rw [output_bytes_eq _ _ (by omega) (by omega)]
    omega
  rw [hn]
  split
  · simp only [stream]
    rw [take_store _ _ (by omega)]
    simp [List.append_assoc]
  · rename_i h0
    have hw : r.written = [] := List.eq_nil_of_length_eq_zero (not_not.mp h0)
    simp [stream, hw]

theorem WriteLoop_length {σ : Type} (c : Codec σ) (fuel : Nat) :
    ∀ (s : BZ2Compressor σ) (o : Outcome σ), WriteLoop c fuel s = some o →
      o.obj.comp_buffer_.length = s.comp_buffer_.length := by
  induction fuel with
  | zero =>
    intro s o h
    unfold WriteLoop at h
    split at h
    · simp at h; subst h; rfl
    · simp at h
  | succ n ih =>
    intro s o h
    unfold WriteLoop at h
    split at h
    · simp at h; subst h; rfl
    · dsimp only at h
      split at h
      · simp at h; subst h; exact length_callCompress c s BZ_RUN
      · split at h
        · simp at h
        · rename_i o2 heq
          simp at h; subst h
          have h1 := ih _ _ heq
          rw [length_appendChunk, length_callCompress] at h1
          exact h1

/-- With a library that accounts for its output, a `Write` loop that returns
success has added to the stream the bytes emitted in its library calls, in the
order of the calls. -/
theorem WriteLoop_emitted {σ : Type} (c : Codec σ) (hc : Conforms c) (fuel : Nat) :
    ∀ (s : BZ2Compressor σ) (o : Outcome σ), s.comp_buffer_.length < 2 ^ 32 →
      WriteLoop c fuel s = some o → o.ret = true →
      stream o.obj = stream s ++ (o.calls.map CodecCall.emitted).flatten := by
  induction fuel with
  | zero =>
    intro s o _ h _
    unfold WriteLoop at h
    split at h
    · simp at h; subst h; simp
    · simp at h
  | succ n ih =>
    intro s o hbuf h hret
    unfold WriteLoop at h
    split at h
    · simp at h; subst h; simp
    · dsimp only at h
      split at h
      · simp at h; subst h; simp at hret
      · split at h
        · simp at h
        · rename_i o2 heq
          simp at h; subst h
          have hlen : (appendChunk (callCompress c s BZ_RUN).2.1).comp_buffer_.length < 2 ^ 32 := by
            rw [length_appendChunk, length_callCompress]; exact hbuf
          have h1 := ih _ _ hlen heq hret
          rw [stream_appendChunk_callCompress c hc s hbuf] at h1
          simp [h1, List.append_assoc]

theorem FinishLoop_length {σ : Type} (c : Codec σ) (fuel : Nat) :
    ∀ (bz_err : Int) (s : BZ2Compressor σ) (e : Int) (s2 : BZ2Compressor σ)
      (calls : List CodecCall), FinishLoop c fuel bz_err s = some (e, s2, calls) →
      s2.comp_buffer_.length = s.comp_buffer_.length := by
  induction fuel with
  | zero =>
    intro bz_err s e s2 calls h
    unfold FinishLoop at h
    split at h
    · simp at h
    · simp at h; rw [h.2.1]
  | succ n ih =>
    intro bz_err s e s2 calls h
    unfold FinishLoop at h
    split at h
    · dsimp only at h
      split at h
      · simp at h
      · rename_i e1 s3 calls1 heq
        simp at h
        have h1 := ih _ _ _ _ _ heq
        rw [length_appendChunk, length_callCompress] at h1
        rw [← h.2.1]
        exact h1
    · simp at h; rw [h.2.1]

/-- With a library that accounts for its output, a `Finish` loop that returns
has added to the stream the bytes emitted in its library calls, in the order
of the calls. -/
theorem FinishLoop_emitted {σ : Type} (c : Codec σ) (hc : Conforms c) (fuel : Nat) :
    ∀ (bz_err : Int) (s : BZ2Compressor σ) (e : Int) (s2 : BZ2Compressor σ)
      (calls : List CodecCall), s.comp_buffer_.length < 2 ^ 32 →
      FinishLoop c fuel bz_err s = some (e, s2, calls) →
      stream s2 = stream s ++ (calls.map CodecCall.emitted).flatten := by
  induction fuel with
  | zero =>
    intro bz_err s e s2 calls _ h
    unfold FinishLoop at h
    split at h
    · simp at h
    · simp at h; rw [← h.2.1, h.2.2]; simp
  | succ n ih =>
    intro bz_err s e s2 calls hbuf h
    unfold FinishLoop at h
    split at h
    · dsimp only at h
      split at h
      · simp at h
      · rename_i e1 s3 calls1 heq
        simp at h
        have hlen :
            (appendChunk (callCompress c s BZ_FINISH).2.1).comp_buffer_.length < 2 ^ 32 := by
          rw [length_appendChunk, length_callCompress]; exact hbuf
        have h1 := ih _ _ _ _ _ hlen heq
        rw [stream_appendChunk_callCompress c hc s hbuf] at h1
        rw [← h.2.1, ← h.2.2, h1]
        simp [List.append_assoc]
    · simp at h; rw [← h.2.1, h.2.2]; simp

/-- With a library that accounts for its output, a `Write` that returns
success has added to the stream the bytes emitted in its library calls. -/
theorem Write_emitted {σ : Type} (c : Codec σ) (hc : Conforms c) (fuel : Nat)
    (s : BZ2Compressor σ) (buf : List UInt8) (size : Nat) (o : Outcome σ)
    (hbuf : s.comp_buffer_.length < 2 ^ 32)
    (h : Write c fuel s buf size = some o) (hret : o.ret = true) :
    stream o.obj = stream s ++ (o.calls.map CodecCall.emitted).flatten ∧
    o.obj.comp_buffer_.length = s.comp_buffer_.length ∧
    o.obj.bz_strm_initialized_ = s.bz_strm_initialized_ := by
  unfold Write at h
  split at h
  · simp at h; subst h; simp at hret
  · have h1 := WriteLoop_emitted c hc fuel _ o (by exact hbuf) h hret
    have h2 := WriteLoop_length c fuel _ o h
    have h3 := (WriteLoop_spec c fuel _ o h).1
    exact ⟨h1, h2, h3⟩

/-- With a library that accounts for its output, a `Finish` that returns has
added to the stream the bytes emitted in its library calls. -/
theorem Finish_emitted {σ : Type} (c : Codec σ) (hc : Conforms c) (fuel : Nat)
    (s : BZ2Compressor σ) (o : Outcome σ) (hbuf : s.comp_buffer_.length < 2 ^ 32)
    (h : Finish c fuel s = some o) :
    stream o.obj = stream s ++ (o.calls.map CodecCall.emitted).flatten := by
  unfold Finish at h
  split at h
  · simp at h; subst h; simp
  · split at h
    · simp at h
    · rename_i e s2 calls heq
      have h1 := FinishLoop_emitted c hc fuel _ _ _ _ _ (by exact hbuf) heq
      have h2 : stream s2 = stream s ++ (calls.map CodecCall.emitted).flatten := h1
      split at h
      · simp at h; subst h; exact h2
      · dsimp only at h
        split at h <;>
          (simp at h; subst h; simp [CodecCall.emitted]; exact h2)

/-- With a library that accounts for its output: when a sequence of `Write`
calls followed by one `Finish` returns success from every call, the stream at
the end is the stream at the start followed by the bytes emitted in all the
library calls made, in the order of the calls. -/
theorem run_writes_finish_emitted {σ : Type} (c : Codec σ) (hc : Conforms c) (fuel : Nat)
    (writes : List (List UInt8 × Nat)) :
    ∀ (s : BZ2Compressor σ) (rs : List Ret) (s2 : BZ2Compressor σ) (calls : List CodecCall),
      s.comp_buffer_.length < 2 ^ 32 →
      run c fuel s (writes.map (fun w => Op.write w.1 w.2) ++ [Op.finish])
        = some (rs, s2, calls) →
      (∀ r ∈ rs, r = Ret.bool true) →
      stream s2 = stream s ++ (calls.map CodecCall.emitted).flatten := by
  induction writes with
  | nil =>
    intro s rs s2 calls hbuf hrun _
    simp only [List.map_nil, List.nil_append, run, step] at hrun
    cases hF : Finish c fuel s with
    | none => simp [hF] at hrun
    | some o =>
      simp [hF] at hrun
      obtain ⟨_, hs, hcalls⟩ := hrun
      rw [← hs, ← hcalls]
      exact Finish_emitted c hc fuel s o hbuf hF
  | cons w writes ih =>
    intro s rs s2 calls hbuf hrun hok
    simp only [List.map_cons, List.cons_append, run, step] at hrun
    cases hW : Write c fuel s w.1 w.2 with
    | none => simp [hW] at hrun
    | some o =>
      simp only [hW, Option.map_some'] at hrun
      cases hrest : run c fuel o.obj (writes.map (fun w => Op.write w.1 w.2) ++ [Op.finish]) with
      | none => simp [hrest] at hrun
      | some res =>
        obtain ⟨rs3, s3, calls3⟩ := res
        simp [hrest] at hrun
        obtain ⟨hrs, hs, hcalls⟩ := hrun
        subst hrs hs hcalls
        have hret : o.ret = true := by
          have := hok (Ret.bool o.ret) (List.mem_cons_self _ _)
          simpa using this
        obtain ⟨h1, h2, _⟩ := Write_emitted c hc fuel s w.1 w.2 o hbuf hW hret
        have h3 := ih o.obj rs3 s3 calls3 (by rw [h2]; exact hbuf) hrest
          (fun r hr => hok r (List.mem_cons_of_mem _ hr))
        rw [h3, h1]
        simp [List.append_assoc]

/-- A `Write` that returns success leaves `avail_in` at zero, and every library
call it made answered `BZ_RUN_OK`. -/
theorem Write_success_consumed {σ : Type} (c : Codec σ) (fuel : Nat) (s : BZ2Compressor σ)
    (buf : List UInt8) (size : Nat) (o : Outcome σ)
    (h : Write c fuel s buf size = some o) (hret : o.ret = true) :
    o.obj.bz_strm_.avail_in = 0 ∧ ∀ call ∈ o.calls, call.status = BZ_RUN_OK := by
  unfold Write at h
  split at h
  · simp at h; subst h; simp at hret
  · exact (WriteLoop_spec c fuel _ o h).2.1 hret

/-- The object the constructor builds when the library's initialization
answers `BZ_OK`: the session flag is set, the scratch buffer has 1048576 bytes
and the stream is empty. -/
theorem construct_ok {σ : Type} (c : Codec σ)
    (hinit : (c.BZ2_bzCompressInit { next_in := [], avail_in := 0, avail_out := 0, state := none }
      kCompressionLevel 0 0).1 = BZ_OK) :
    (construct c).1.bz_strm_initialized_ = true ∧
    (construct c).1.comp_buffer_.length = 1048576 ∧
    stream (construct c).1 = [] := by
  unfold construct
  dsimp only
  rw [if_neg (not_not.mpr hinit)]
  exact ⟨rfl, length_resize _ _, rfl⟩

/-! ## Claims -/

/-- C1: after a `Finish` that returned success, every later `Write` (any
buffer, any size, whatever the library) and every later `Finish` returns
failure, makes no library call and leaves the object as it was; over any
sequence of later calls no library call is made, each `Write` and `Finish`
returns failure, and `GetCompressedData` returns, during and after the
sequence, the bytes it returned right after the successful `Finish`. -/
theorem C1_after_successful_Finish {σ : Type} (c : Codec σ) (fuel : Nat)
    (s : BZ2Compressor σ) (o : Outcome σ)
    (hF : Finish c fuel s = some o) (hret : o.ret = true) :
    (∀ (c2 : Codec σ) (fuel2 : Nat) (buf : List UInt8) (size : Nat),
        Write c2 fuel2 o.obj buf size = some ⟨false, o.obj, []⟩) ∧
    (∀ (c2 : Codec σ) (fuel2 : Nat), Finish c2 fuel2 o.obj = some ⟨false, o.obj, []⟩) ∧
    (∀ (c2 : Codec σ) (fuel2 : Nat) (ops : List Op), ∃ s2,
        run c2 fuel2 o.obj ops
          = some (ops.map (inertRet (GetCompressedData o.obj).1), s2, []) ∧
        (GetCompressedData s2).1 = (GetCompressedData o.obj).1) := by
  have hflag := Finish_success_flag c fuel s o hF hret
  refine ⟨fun c2 fuel2 buf size => Write_unset c2 fuel2 o.obj buf size hflag,
    fun c2 fuel2 => Finish_unset c2 fuel2 o.obj hflag, ?_⟩
  intro c2 fuel2 ops
  obtain ⟨s2, hrun, _, hstream⟩ := run_unset c2 fuel2 ops o.obj hflag
  refine ⟨s2, ?_, ?_⟩
  · rw [GetCompressedData_fst]; exact hrun
  · rw [GetCompressedData_fst, GetCompressedData_fst]; exact hstream

/-- Witness for C1: `Finish` on `smallReady` with `copyCodec` returns success,
and the conclusion of C1 holds for the object it leaves. -/
theorem C1_after_successful_Finish_witness :
    Finish copyCodec 5 smallReady = some smallFinished ∧ smallFinished.ret = true ∧
    ((∀ (c2 : Codec Nat) (fuel2 : Nat) (buf : List UInt8) (size : Nat),
        Write c2 fuel2 smallFinished.obj buf size = some ⟨false, smallFinished.obj, []⟩) ∧
    (∀ (c2 : Codec Nat) (fuel2 : Nat),
        Finish c2 fuel2 smallFinished.obj = some ⟨false, smallFinished.obj, []⟩) ∧
    (∀ (c2 : Codec Nat) (fuel2 : Nat) (ops : List Op), ∃ s2,
        run c2 fuel2 smallFinished.obj ops
          = some (ops.map (inertRet (GetCompressedData smallFinished.obj).1), s2, []) ∧
        (GetCompressedData s2).1 = (GetCompressedData smallFinished.obj).1)) :=
  ⟨rfl, rfl, C1_after_successful_Finish copyCodec 5 smallReady smallFinished rfl rfl⟩

/-- C4: when the library's initialization fails in the constructor, then over
every sequence of `Write`, `Finish` and `GetCompressedData` calls made
afterwards (whatever the library would answer) every `Write` and every `Finish`
returns failure, `GetCompressedData` returns the empty byte sequence, no
library call is made, and the destructor makes none either. -/
theorem C4_failed_initialization_is_inert {σ : Type} (c : Codec σ)
    (hinit : (c.BZ2_bzCompressInit { next_in := [], avail_in := 0, avail_out := 0, state := none }
      kCompressionLevel 0 0).1 ≠ BZ_OK) :
    ∀ (c2 : Codec σ) (fuel : Nat) (ops : List Op), ∃ s2,
      run c2 fuel (construct c).1 ops = some (ops.map (inertRet []), s2, []) ∧
      (GetCompressedData s2).1 = [] ∧ destruct c2 s2 = [] := by
  intro c2 fuel ops
  obtain ⟨hflag, hstream⟩ := flag_construct_failed c hinit
  obtain ⟨s2, hrun, hflag2, hstream2⟩ := run_unset c2 fuel ops (construct c).1 hflag
  rw [hstream] at hrun hstream2
  refine ⟨s2, hrun, ?_, ?_⟩
  · rw [GetCompressedData_fst]; exact hstream2
  · simp [destruct, hflag2]

/-- Witness for C4: the initialization of `noInitCodec` fails, and the
conclusion of C4 holds for the object constructed with it. -/
theorem C4_failed_initialization_is_inert_witness :
    (noInitCodec.BZ2_bzCompressInit { next_in := [], avail_in := 0, avail_out := 0, state := none }
      kCompressionLevel 0 0).1 ≠ BZ_OK ∧
    ∀ (c2 : Codec Nat) (fuel : Nat) (ops : List Op), ∃ s2,
      run c2 fuel (construct noInitCodec).1 ops = some (ops.map (inertRet []), s2, []) ∧
      (GetCompressedData s2).1 = [] ∧ destruct c2 s2 = [] :=
  ⟨by decide, C4_failed_initialization_is_inert noInitCodec (by decide)⟩

/-- C5: in every state `GetCompressedData` returns the previous result buffer
followed by the chunks of the chunk list concatenated in insertion order,
stores that as the new result buffer and leaves the chunk list empty (the
other members are untouched); and whatever calls follow (further `Write`
calls in particular), the next `GetCompressedData` returns a sequence of which
the one returned now is a prefix. -/
theorem C5_GetCompressedData_flattens {σ : Type} (s : BZ2Compressor σ) :
    (GetCompressedData s).1 = s.comp_data_ ++ s.comp_chunks_.flatten ∧
    (GetCompressedData s).2 =
      { s with comp_data_ := s.comp_data_ ++ s.comp_chunks_.flatten, comp_chunks_ := [] } ∧
    (∀ (c : Codec σ) (fuel : Nat) (ops : List Op) (rs : List Ret) (s2 : BZ2Compressor σ)
        (calls : List CodecCall),
        run c fuel (GetCompressedData s).2 ops = some (rs, s2, calls) →
        (GetCompressedData s).1 <+: (GetCompressedData s2).1) := by
  refine ⟨GetCompressedData_fst s, GetCompressedData_snd s, ?_⟩
  intro c fuel ops rs s2 calls hrun
  have h := stream_run c fuel ops _ rs s2 calls hrun
  rw [stream_GetCompressedData] at h
  rw [GetCompressedData_fst, GetCompressedData_fst]
  exact h

/-- C6: `GetCompressedData` is idempotent: a second call right after a first
returns the same bytes and leaves the whole object as the first call left
it. -/
theorem C6_GetCompressedData_idempotent {σ : Type} (s : BZ2Compressor σ) :
    (GetCompressedData (GetCompressedData s).2).1 = (GetCompressedData s).1 ∧
    (GetCompressedData (GetCompressedData s).2).2 = (GetCompressedData s).2 := by
  constructor
  · rw [GetCompressedData_fst, GetCompressedData_fst, stream_GetCompressedData]
  · rw [GetCompressedData_snd (GetCompressedData s).2, stream_GetCompressedData,
      GetCompressedData_snd]

/-- C7: the stream `comp_data_ ++ concatenation of comp_chunks_` is
append-only: for every state and every call that returns (`Write`, `Finish` or
`GetCompressedData`, with success or failure) the stream before is a prefix of
the stream after; `GetCompressedData` leaves it equal; and after a `Finish`
that returned success no sequence of calls changes it. -/
theorem C7_stream_append_only {σ : Type} (c : Codec σ) (fuel : Nat) (s : BZ2Compressor σ) :
    (∀ (op : Op) (r : Ret) (s2 : BZ2Compressor σ) (calls : List CodecCall),
        step c fuel s op = some (r, s2, calls) → stream s <+: stream s2) ∧
    stream (GetCompressedData s).2 = stream s ∧
    (∀ (o : Outcome σ), Finish c fuel s = some o → o.ret = true →
      ∀ (c2 : Codec σ) (fuel2 : Nat) (ops : List Op) (rs : List Ret) (s2 : BZ2Compressor σ)
        (calls : List CodecCall),
        run c2 fuel2 o.obj ops = some (rs, s2, calls) → stream s2 = stream o.obj) := by
  refine ⟨fun op r s2 calls h => stream_step c fuel s op r s2 calls h,
    stream_GetCompressedData s, ?_⟩
  intro o hF hret c2 fuel2 ops rs s2 calls hrun
  obtain ⟨s3, hrun3, _, hstream⟩ :=
    run_unset c2 fuel2 ops o.obj (Finish_success_flag c fuel s o hF hret)
  rw [hrun3] at hrun
  simp at hrun
  rw [← hrun.2.1]
  exact hstream

/-- C2, as stated, fails: on the object constructed with `flakyCodec` (session
flag set) the first `Write` meets a library error and returns failure, and yet
the next `Write` and the `Finish` after it call the library again and return
success. -/
theorem C2_later_calls_succeed_after_Write_error :
    (construct flakyCodec).1.bz_strm_initialized_ = true ∧
    (run flakyCodec 1 (construct flakyCodec).1
        [Op.write [1, 2, 3] 3, Op.write [1, 2, 3] 3, Op.finish]).map (fun r => (r.1, r.2.2)) =
      some ([Ret.bool false, Ret.bool true, Ret.bool true],
        [CodecCall.compress BZ_RUN 3 BZ_SEQUENCE_ERROR [],
         CodecCall.compress BZ_RUN 3 BZ_RUN_OK [],
         CodecCall.compress BZ_FINISH 0 BZ_STREAM_END [],
         CodecCall.compressEnd BZ_OK]) := by
  rw [construct_flaky]
  exact ⟨rfl, run_flaky_write_write_finish _ (length_resize _ _)⟩



/-- C3, as stated, fails: on the object constructed with `flakyCodec` (session
flag set) `Finish` meets a library error in its finalizing call and returns
failure, and yet the `Write` and the `Finish` that follow call the library
again and return success. -/
theorem C3_later_calls_succeed_after_Finish_error :
    (construct flakyCodec).1.bz_strm_initialized_ = true ∧
    (run flakyCodec 1 (construct flakyCodec).1
        [Op.finish, Op.write [1, 2, 3] 3, Op.finish]).map (fun r => (r.1, r.2.2)) =
      some ([Ret.bool false, Ret.bool true, Ret.bool true],
        [CodecCall.compress BZ_FINISH 0 BZ_SEQUENCE_ERROR [],
         CodecCall.compress BZ_RUN 3 BZ_RUN_OK [],
         CodecCall.compress BZ_FINISH 0 BZ_STREAM_END [],
         CodecCall.compressEnd BZ_OK]) := by
  rw [construct_flaky]
  exact ⟨rfl, run_flaky_finish_write_finish _ (length_resize _ _)⟩

/-- C3, amended: for every object whose session flag is set, a `Finish` that
returns failure (it does so with any larger iteration bound too) did one of
two things.  Either the drain ended with `BZ_STREAM_END` and the release of
the session answered a status other than `BZ_OK`: then the session flag is
cleared, and over every sequence of later calls each `Write` and `Finish`
returns failure and no library call is made.  Or the drain ended with a status
that is neither `BZ_FINISH_OK` nor `BZ_STREAM_END`: then the session is not
released and the session flag stays set, so that a later `Finish`, or a later
`Write` of a size whose low 32 bits are not zero, calls the library again. -/
theorem C3_Finish_failure_release_error_inert_drain_error_not {σ : Type} (c : Codec σ)
    (fuel : Nat) (s : BZ2Compressor σ) (o : Outcome σ)
    (hready : s.bz_strm_initialized_ = true)
    (hF : Finish c fuel s = some o) (hret : o.ret = false) :
    (∀ fuel2, fuel ≤ fuel2 → Finish c fuel2 s = some o) ∧
    ((∃ pre st, o.calls = pre ++ [CodecCall.compressEnd st] ∧ st ≠ BZ_OK ∧
        o.obj.bz_strm_initialized_ = false ∧
        ∀ (c2 : Codec σ) (fuel2 : Nat) (ops : List Op), ∃ s2,
          run c2 fuel2 o.obj ops = some (ops.map (inertRet (stream o.obj)), s2, [])) ∨
     (∃ pre ai e w, o.calls = pre ++ [CodecCall.compress BZ_FINISH ai e w] ∧
        e ≠ BZ_FINISH_OK ∧ e ≠ BZ_STREAM_END ∧
        o.obj.bz_strm_initialized_ = true ∧
        (∀ (c2 : Codec σ) (fuel2 : Nat) (o2 : Outcome σ),
          Finish c2 fuel2 o.obj = some o2 → o2.calls ≠ []) ∧
        (∀ (c2 : Codec σ) (fuel2 : Nat) (buf2 : List UInt8) (size2 : Nat) (o2 : Outcome σ),
          size2 % 2 ^ 32 ≠ 0 → Write c2 fuel2 o.obj buf2 size2 = some o2 → o2.calls ≠ []))) := by
  refine ⟨fun fuel2 hle => Finish_mono c fuel fuel2 hle s o hF, ?_⟩
  obtain ⟨pre, ai, e, w, _, hne, hcase⟩ := Finish_spec c fuel s o hready hF
  rcases hcase with ⟨_, st, hcalls, hiff, hflag⟩ | ⟨hend, hcalls, _, hflag⟩
  · left
    refine ⟨pre ++ [CodecCall.compress BZ_FINISH ai e w], st, by simp [hcalls], ?_, hflag, ?_⟩
    · intro hst
      rw [hiff.mpr hst] at hret
      exact Bool.noConfusion hret
    · intro c2 fuel2 ops
      obtain ⟨s2, hrun, _, _⟩ := run_unset c2 fuel2 ops o.obj hflag
      exact ⟨s2, hrun⟩
  · right
    exact ⟨pre, ai, e, w, hcalls, hne, hend, hflag,
      fun c2 fuel2 o2 h2 => Finish_calls_codec c2 fuel2 o.obj o2 hflag h2,
      fun c2 fuel2 buf2 size2 o2 hsize h2 =>
        Write_calls_codec c2 fuel2 o.obj buf2 size2 o2 hflag hsize h2⟩

/-- Witness for the amended C3: `Finish` on `smallReady` with `flakyCodec`
returns failure. -/
theorem C3_Finish_failure_release_error_inert_drain_error_not_witness :
    smallReady.bz_strm_initialized_ = true ∧
    Finish flakyCodec 1 smallReady = some smallFailedFinish ∧
    smallFailedFinish.ret = false ∧
    (∀ fuel2, 1 ≤ fuel2 → Finish flakyCodec fuel2 smallReady = some smallFailedFinish) ∧
    ((∃ pre st, smallFailedFinish.calls = pre ++ [CodecCall.compressEnd st] ∧ st ≠ BZ_OK ∧
        smallFailedFinish.obj.bz_strm_initialized_ = false ∧
        ∀ (c2 : Codec Nat) (fuel2 : Nat) (ops : List Op), ∃ s2,
          run c2 fuel2 smallFailedFinish.obj ops
            = some (ops.map (inertRet (stream smallFailedFinish.obj)), s2, [])) ∨
     (∃ pre ai e w, smallFailedFinish.calls = pre ++ [CodecCall.compress BZ_FINISH ai e w] ∧
        e ≠ BZ_FINISH_OK ∧ e ≠ BZ_STREAM_END ∧
        smallFailedFinish.obj.bz_strm_initialized_ = true ∧
        (∀ (c2 : Codec Nat) (fuel2 : Nat) (o2 : Outcome Nat),
          Finish c2 fuel2 smallFailedFinish.obj = some o2 → o2.calls ≠ []) ∧
        (∀ (c2 : Codec Nat) (fuel2 : Nat) (buf2 : List UInt8) (size2 : Nat) (o2 : Outcome Nat),
          size2 % 2 ^ 32 ≠ 0 → Write c2 fuel2 smallFailedFinish.obj buf2 size2 = some o2 →
          o2.calls ≠ []))) :=
  ⟨rfl, rfl, rfl,
    C3_Finish_failure_release_error_inert_drain_error_not flakyCodec 1 smallReady
      smallFailedFinish rfl rfl rfl⟩

/-- C9, as the code has it: `Write` stores `size` in the 32-bit field
`avail_in`, which keeps `size` modulo 2^32.  On an object whose session flag
is set, a `Write` whose size is a multiple of 2^32 (4294967296 for `k = 1`)
therefore presents no byte at all: it returns success at once, with `avail_in`
zero and without any library call; and for every size the first library call
of a `Write` is handed `size % 2^32` as `avail_in`. -/
theorem C9_Write_keeps_low_32_bits_of_size {σ : Type} (c : Codec σ) (fuel : Nat)
    (s : BZ2Compressor σ) (buf : List UInt8) (k : Nat) :
    Write c fuel { s with bz_strm_initialized_ := true } buf (k * 2 ^ 32) =
      some ⟨true,
        { s with bz_strm_initialized_ := true,
                 bz_strm_ := { s.bz_strm_ with next_in := buf, avail_in := 0 } },
        []⟩ ∧
    (∀ (size : Nat) (o : Outcome σ),
      Write c fuel { s with bz_strm_initialized_ := true } buf size = some o →
      ∀ call ∈ o.calls.head?, ∃ st w, call = CodecCall.compress BZ_RUN (size % 2 ^ 32) st w) := by
  constructor
  · unfold Write
    simp only [Bool.not_true, Bool.false_eq_true, if_false, Nat.mul_mod_left]
    cases fuel <;> simp [WriteLoop]
  · intro size o h call hcall
    unfold Write at h
    simp only [Bool.not_true, Bool.false_eq_true, if_false] at h
    obtain ⟨h0, h1⟩ := WriteLoop_head c fuel _ o h
    by_cases hz : size % 2 ^ 32 = 0
    · rw [h0 hz] at hcall
      simp at hcall
    · obtain ⟨st, w, rest, hcalls⟩ := h1 hz
      rw [hcalls] at hcall
      simp at hcall
      exact ⟨st, w, hcall.symm⟩

/-- C9 at the failing input: with `copyCodec`, a `Write` of size 2^32 on
`smallReady` returns success without a library call, and a `Write` of size
2^32 + 1 hands the library one byte and returns success after copying only
that byte. -/
theorem C9_Write_of_4294967296_bytes_presents_none :
    (∀ buf : List UInt8,
      (Write copyCodec 5 smallReady buf 4294967296).map (fun o => (o.ret, o.calls, stream o.obj))
        = some (true, [], [])) ∧
    (Write copyCodec 5 smallReady [1, 2, 3] 4294967297).map
        (fun o => (o.ret, o.calls, stream o.obj))
      = some (true, [CodecCall.compress BZ_RUN 1 BZ_RUN_OK [1]], [1]) := by
  constructor
  · intro buf
    rfl
  · rfl



/-- C8: no library output is lost or reordered.  With a library that accounts
for its output (`Conforms`) and an object whose scratch buffer size fits the
32-bit `avail_out`: when a sequence of `Write` calls followed by `Finish`
returns success from every call, `GetCompressedData` then returns what the
object held at the start followed by the bytes the library emitted into the
scratch buffer in each of its calls, concatenated in the order of the calls;
for the object the constructor builds that is exactly the emitted bytes.  And
a `Write` that returns success returns with `avail_in` at zero, every library
call it made having answered `BZ_RUN_OK`. -/
theorem C8_no_codec_output_lost_or_reordered {σ : Type} (c : Codec σ) (hc : Conforms c)
    (fuel : Nat) (s : BZ2Compressor σ) (writes : List (List UInt8 × Nat))
    (rs : List Ret) (s2 : BZ2Compressor σ) (calls : List CodecCall)
    (hbuf : s.comp_buffer_.length < 2 ^ 32)
    (hrun : run c fuel s (writes.map (fun w => Op.write w.1 w.2) ++ [Op.finish])
      = some (rs, s2, calls))
    (hok : ∀ r ∈ rs, r = Ret.bool true) :
    (GetCompressedData s2).1 = stream s ++ (calls.map CodecCall.emitted).flatten ∧
    (s = (construct c).1 →
      (GetCompressedData s2).1 = (calls.map CodecCall.emitted).flatten) ∧
    (∀ (fuel2 : Nat) (s0 : BZ2Compressor σ) (buf : List UInt8) (size : Nat) (o : Outcome σ),
      Write c fuel2 s0 buf size = some o → o.ret = true →
      o.obj.bz_strm_.avail_in = 0 ∧ ∀ call ∈ o.calls, call.status = BZ_RUN_OK) := by
  have hmain : (GetCompressedData s2).1 = stream s ++ (calls.map CodecCall.emitted).flatten := by
    rw [GetCompressedData_fst]
    exact run_writes_finish_emitted c hc fuel writes s rs s2 calls hbuf hrun hok
  refine ⟨hmain, ?_, fun fuel2 s0 buf size o h hret =>
    Write_success_consumed c fuel2 s0 buf size o h hret⟩
  intro hs
  rw [hmain, hs]
  have hstream : stream (construct c).1 = [] := by
    unfold construct
    dsimp only
    split <;> rfl
  rw [hstream, List.nil_append]

/-- Witness for C8: `copyCodec` accounts for its output; writing `[1, 2, 3]`
and `[4]` to `smallReady` (scratch buffer of two bytes) and finishing returns
success three times, and the compressed data is the bytes emitted in the five
library calls, in order. -/
theorem C8_no_codec_output_lost_or_reordered_witness :
    Conforms copyCodec ∧ smallReady.comp_buffer_.length < 2 ^ 32 ∧
    run copyCodec 5 smallReady
      ([([1, 2, 3], 3), ([4], 1)].map (fun w => Op.write w.1 w.2) ++ [Op.finish])
      = some smallCopied ∧
    (∀ r ∈ smallCopied.1, r = Ret.bool true) ∧
    (GetCompressedData smallCopied.2.1).1 = [1, 2, 3, 4, 255] ∧
    (GetCompressedData smallCopied.2.1).1
      = stream smallReady ++ (smallCopied.2.2.map CodecCall.emitted).flatten :=
  ⟨conforms_copyCodec, by decide, rfl, by decide, rfl,
    (C8_no_codec_output_lost_or_reordered copyCodec conforms_copyCodec 5 smallReady
      [([1, 2, 3], 3), ([4], 1)] smallCopied.1 smallCopied.2.1 smallCopied.2.2
      (by decide) rfl (by decide)).1⟩

/-- C16: a `Write` of size zero on an object whose session flag is set returns
success without a library call; it appends no chunk and leaves the result
buffer, the chunk list, the scratch buffer and the session flag as they were
(only the input pointer and the zero input count are stored in `bz_strm_`). -/
theorem C16_zero_size_Write_is_a_no_op {σ : Type} (c : Codec σ) (fuel : Nat)
    (s : BZ2Compressor σ) (buf : List UInt8) (hready : s.bz_strm_initialized_ = true) :
    Write c fuel s buf 0 =
      some ⟨true, { s with bz_strm_ := { s.bz_strm_ with next_in := buf, avail_in := 0 } }, []⟩ ∧
    ∀ o, Write c fuel s buf 0 = some o →
      o.ret = true ∧ o.calls = [] ∧ o.obj.comp_chunks_ = s.comp_chunks_ ∧
      o.obj.comp_data_ = s.comp_data_ ∧ o.obj.comp_buffer_ = s.comp_buffer_ ∧
      o.obj.bz_strm_initialized_ = true := by
  have h : Write c fuel s buf 0 =
      some ⟨true, { s with bz_strm_ := { s.bz_strm_ with next_in := buf, avail_in := 0 } },
        []⟩ := by
    unfold Write
    simp only [hready, Bool.not_true, Bool.false_eq_true, if_false, Nat.zero_mod]
    cases fuel <;> simp [WriteLoop]
  refine ⟨h, ?_⟩
  intro o ho
  rw [h] at ho
  simp at ho
  subst ho
  exact ⟨rfl, rfl, rfl, rfl, rfl, hready⟩

/-- Witness for C16: a `Write` of size zero on `smallReady`. -/
theorem C16_zero_size_Write_is_a_no_op_witness :
    smallReady.bz_strm_initialized_ = true ∧
    Write copyCodec 0 smallReady [7] 0 =
      some ⟨true,
        { smallReady with
          bz_strm_ := { smallReady.bz_strm_ with next_in := [7], avail_in := 0 } }, []⟩ ∧
    ∀ o, Write copyCodec 0 smallReady [7] 0 = some o →
      o.ret = true ∧ o.calls = [] ∧ o.obj.comp_chunks_ = smallReady.comp_chunks_ ∧
      o.obj.comp_data_ = smallReady.comp_data_ ∧ o.obj.comp_buffer_ = smallReady.comp_buffer_ ∧
      o.obj.bz_strm_initialized_ = true :=
  ⟨rfl, C16_zero_size_Write_is_a_no_op copyCodec 0 smallReady [7] rfl⟩

/-! ## Releases of the session -/

theorem releases_append (a b : List CodecCall) :
    releases (a ++ b) = releases a + releases b := by
  simp [releases, List.countP_append]

theorem releases_eq_zero (calls : List CodecCall)
    (h : ∀ call ∈ calls, call.isEnd = false) : releases calls = 0 := by
  unfold releases
  rw [List.countP_eq_zero]
  intro call hcall
  simp [h call hcall]

theorem WriteLoop_no_release {σ : Type} (c : Codec σ) (fuel : Nat) :
    ∀ (s : BZ2Compressor σ) (o : Outcome σ), WriteLoop c fuel s = some o →
      ∀ call ∈ o.calls, call.isEnd = false := by
  induction fuel with
  | zero =>
    intro s o h
    unfold WriteLoop at h
    split at h
    · simp at h; subst h; simp
    · simp at h
  | succ n ih =>
    intro s o h
    unfold WriteLoop at h
    split at h
    · simp at h; subst h; simp
    · dsimp only at h
      split at h
      · simp at h; subst h
        intro call hcall
        simp at hcall
        rw [hcall]; rfl
      · split at h
        · simp at h
        · rename_i o2 heq
          simp at h; subst h
          intro call hcall
          rcases List.mem_cons.mp hcall with hc | hc
          · rw [hc]; rfl
          · exact ih _ _ heq call hc

/-- `Write` makes no release and leaves the session flag as it was. -/
theorem Write_owed {σ : Type} (c : Codec σ) (fuel : Nat) (s : BZ2Compressor σ)
    (buf : List UInt8) (size : Nat) (o : Outcome σ) (h : Write c fuel s buf size = some o) :
    releases o.calls = 0 ∧ owed o.obj = owed s := by
  unfold Write at h
  split at h
  · simp at h; subst h; exact ⟨rfl, rfl⟩
  · have h1 := WriteLoop_no_release c fuel _ o h
    have h2 := (WriteLoop_spec c fuel _ o h).1
    refine ⟨releases_eq_zero _ h1, ?_⟩
    unfold owed
    rw [h2]

/-- `Finish` makes a release exactly when it clears a set session flag: the
releases it makes and the one the object owes afterwards add up to what the
object owed before. -/
theorem Finish_owed {σ : Type} (c : Codec σ) (fuel : Nat) (s : BZ2Compressor σ)
    (o : Outcome σ) (h : Finish c fuel s = some o) :
    releases o.calls + owed o.obj = owed s := by
  cases hflag : s.bz_strm_initialized_ with
  | false =>
    rw [Finish_unset c fuel s hflag] at h
    simp at h; subst h
    simp [releases]
  | true =>
    obtain ⟨pre, ai, e, w, hpre, _, hcase⟩ := Finish_spec c fuel s o hflag h
    have hpre0 : releases pre = 0 := by
      apply releases_eq_zero
      intro call hcall
      obtain ⟨ai2, w2, hc⟩ := hpre call hcall
      rw [hc]; rfl
    rcases hcase with ⟨_, st, hcalls, _, hclear⟩ | ⟨_, hcalls, _, hkeep⟩
    · rw [hcalls, releases_append, hpre0]
      simp [releases, owed, hclear, hflag, CodecCall.isEnd]
    · rw [hcalls, releases_append, hpre0]
      simp [releases, owed, hkeep, hflag, CodecCall.isEnd]

theorem step_owed {σ : Type} (c : Codec σ) (fuel : Nat) (s : BZ2Compressor σ) (op : Op)
    (r : Ret) (s2 : BZ2Compressor σ) (calls : List CodecCall)
    (h : step c fuel s op = some (r, s2, calls)) :
    releases calls + owed s2 = owed s := by
  cases op with
  | write buf size =>
    simp only [step, Option.map_eq_some'] at h
    obtain ⟨o, ho, heq⟩ := h
    simp at heq
    obtain ⟨h1, h2⟩ := Write_owed c fuel s buf size o ho
    rw [← heq.2.1, ← heq.2.2, h1, h2, Nat.zero_add]
  | finish =>
    simp only [step, Option.map_eq_some'] at h
    obtain ⟨o, ho, heq⟩ := h
    simp at heq
    rw [← heq.2.1, ← heq.2.2]
    exact Finish_owed c fuel s o ho
  | getData =>
    simp [step] at h
    rw [← h.2.1, h.2.2]
    simp [releases, owed, flag_GetCompressedData]

theorem run_owed {σ : Type} (c : Codec σ) (fuel : Nat) (ops : List Op) :
    ∀ (s : BZ2Compressor σ) (rs : List Ret) (s2 : BZ2Compressor σ) (calls : List CodecCall),
      run c fuel s ops = some (rs, s2, calls) → releases calls + owed s2 = owed s := by
  induction ops with
  | nil =>
    intro s rs s2 calls h
    simp [run] at h
    rw [← h.2.1, h.2.2]
    simp [releases]
  | cons op ops ih =>
    intro s rs s2 calls h
    unfold run at h
    split at h
    · simp at h
    · rename_i r s1 k1 hstep
      split at h
      · simp at h
      · rename_i rs2 s3 k2 hrun
        simp at h
        rw [← h.2.1, ← h.2.2, releases_append]
        have h1 := step_owed c fuel s op r s1 k1 hstep
        have h2 := ih _ _ _ _ hrun
        omega

theorem destruct_owed {σ : Type} (c : Codec σ) (s : BZ2Compressor σ) :
    releases (destruct c s) = owed s := by
  unfold destruct owed
  cases s.bz_strm_initialized_ <;> simp [releases, CodecCall.isEnd]

theorem construct_owed {σ : Type} (c : Codec σ) :
    releases (construct c).2 = 0 ∧
    owed (construct c).1 =
      if (c.BZ2_bzCompressInit { next_in := [], avail_in := 0, avail_out := 0, state := none }
        kCompressionLevel 0 0).1 = BZ_OK then 1 else 0 := by
  unfold construct owed
  dsimp only
  refine ⟨by simp [releases, CodecCall.isEnd], ?_⟩
  by_cases hinit : (c.BZ2_bzCompressInit
      { next_in := [], avail_in := 0, avail_out := 0, state := none } kCompressionLevel 0 0).1
      = BZ_OK
  · rw [if_neg (not_not.mpr hinit), if_pos hinit]
    rfl
  · rw [if_pos hinit, if_neg hinit]
    rfl

/-- The object the constructor builds with `copyCodec`. -/
theorem construct_copy :
    (construct copyCodec).1 =
      { bz_strm_ := { next_in := [], avail_in := 0, avail_out := 0, state := some 0 }
        bz_strm_initialized_ := true
        comp_buffer_ := resize [] (1024 * 1024)
        comp_chunks_ := []
        comp_data_ := [] } := by
  rfl

theorem run_copy_write_get_finish (b : List UInt8) (hb : b.length = 1024 * 1024) :
    run copyCodec 1
        { bz_strm_ := { next_in := [], avail_in := 0, avail_out := 0, state := some 0 }
          bz_strm_initialized_ := true
          comp_buffer_ := b
          comp_chunks_ := []
          comp_data_ := [] }
        [Op.write [1, 2, 3] 3, Op.getData, Op.finish] =
      some ([Ret.bool true, Ret.data [1, 2, 3], Ret.bool true],
        { bz_strm_ := { next_in := [], avail_in := 0, avail_out := 1048575, state := none }
          bz_strm_initialized_ := false
          comp_buffer_ := store (store b [1, 2, 3]) [255]
          comp_chunks_ := [[255]]
          comp_data_ := [1, 2, 3] },
        [CodecCall.compress BZ_RUN 3 BZ_RUN_OK [1, 2, 3],
         CodecCall.compress BZ_FINISH 0 BZ_STREAM_END [255],
         CodecCall.compressEnd BZ_OK]) := by
  have h3 : (store b [1, 2, 3]).take 3 = [1, 2, 3] :=
    take_store b [1, 2, 3] (by simp [hb])
  have h1 : (store (store b [1, 2, 3]) [255]).take 1 = [255] :=
    take_store (store b [1, 2, 3]) [255] (by simp [length_store, hb])
  simp [run, step, Write, WriteLoop, Finish, FinishLoop, callCompress, appendChunk, copyCodec,
    GetCompressedData, length_store, hb, output_bytes, h3, h1, BZ_RUN, BZ_RUN_OK, BZ_FINISH,
    BZ_FINISH_OK, BZ_STREAM_END, BZ_OK]

/-- The run of `constructedCopied`. -/
theorem run_constructed_copy :
    run copyCodec 1 (construct copyCodec).1 [Op.write [1, 2, 3] 3, Op.getData, Op.finish]
      = some constructedCopied := by
  rw [construct_copy]
  exact run_copy_write_get_finish _ (length_resize _ _)



/-! ## Properties kept by every call -/

theorem WriteLoop_invariant {σ : Type} (c : Codec σ) (P : BZ2Compressor σ → Prop)
    (hcall : ∀ s a, P s → P (callCompress c s a).2.1)
    (hstep : ∀ s a, P s → P (appendChunk (callCompress c s a).2.1)) (fuel : Nat) :
    ∀ (s : BZ2Compressor σ) (o : Outcome σ), P s → WriteLoop c fuel s = some o → P o.obj := by
  induction fuel with
  | zero =>
    intro s o hP h
    unfold WriteLoop at h
    split at h
    · simp at h; subst h; exact hP
    · simp at h
  | succ n ih =>
    intro s o hP h
    unfold WriteLoop at h
    split at h
    · simp at h; subst h; exact hP
    · dsimp only at h
      split at h
      · simp at h; subst h; exact hcall s BZ_RUN hP
      · split at h
        · simp at h
        · rename_i o2 heq
          simp at h; subst h
          exact ih _ o2 (hstep s BZ_RUN hP) heq

theorem FinishLoop_invariant {σ : Type} (c : Codec σ) (P : BZ2Compressor σ → Prop)
    (hstep : ∀ s a, P s → P (appendChunk (callCompress c s a).2.1)) (fuel : Nat) :
    ∀ (bz_err : Int) (s : BZ2Compressor σ) (e : Int) (s2 : BZ2Compressor σ)
      (calls : List CodecCall), P s → FinishLoop c fuel bz_err s = some (e, s2, calls) →
      P s2 := by
  induction fuel with
  | zero =>
    intro bz_err s e s2 calls hP h
    unfold FinishLoop at h
    split at h
    · simp at h
    · simp at h; rw [← h.2.1]; exact hP
  | succ n ih =>
    intro bz_err s e s2 calls hP h
    unfold FinishLoop at h
    split at h
    · dsimp only at h
      split at h
      · simp at h
      · rename_i e1 s3 calls1 heq
        simp at h
        rw [← h.2.1]
        exact ih _ _ _ _ _ (hstep s BZ_FINISH hP) heq
    · simp at h; rw [← h.2.1]; exact hP

theorem Write_invariant {σ : Type} (c : Codec σ) (P : BZ2Compressor σ → Prop)
    (hcall : ∀ s a, P s → P (callCompress c s a).2.1)
    (hstep : ∀ s a, P s → P (appendChunk (callCompress c s a).2.1))
    (hset : ∀ (s : BZ2Compressor σ) strm flag, P s →
      P { s with bz_strm_ := strm, bz_strm_initialized_ := flag })
    (fuel : Nat) (s : BZ2Compressor σ) (buf : List UInt8) (size : Nat) (o : Outcome σ)
    (hP : P s) (h : Write c fuel s buf size = some o) : P o.obj := by
  unfold Write at h
  split at h
  · simp at h; subst h; exact hP
  · exact WriteLoop_invariant c P hcall hstep fuel _ o (hset s _ _ hP) h

theorem Finish_invariant {σ : Type} (c : Codec σ) (P : BZ2Compressor σ → Prop)
    (hstep : ∀ s a, P s → P (appendChunk (callCompress c s a).2.1))
    (hset : ∀ (s : BZ2Compressor σ) strm flag, P s →
      P { s with bz_strm_ := strm, bz_strm_initialized_ := flag })
    (fuel : Nat) (s : BZ2Compressor σ) (o : Outcome σ)
    (hP : P s) (h : Finish c fuel s = some o) : P o.obj := by
  unfold Finish at h
  split at h
  · simp at h; subst h; exact hP
  · split at h
    · simp at h
    · rename_i e s2 calls heq
      have h2 : P s2 := FinishLoop_invariant c P hstep fuel _ _ _ _ _ (hset s _ _ hP) heq
      split at h
      · simp at h; subst h; exact h2
      · dsimp only at h
        split at h <;> (simp at h; subst h; exact hset s2 _ _ h2)

theorem run_invariant {σ : Type} (c : Codec σ) (P : BZ2Compressor σ → Prop)
    (hcall : ∀ s a, P s → P (callCompress c s a).2.1)
    (hstep : ∀ s a, P s → P (appendChunk (callCompress c s a).2.1))
    (hset : ∀ (s : BZ2Compressor σ) strm flag, P s →
      P { s with bz_strm_ := strm, bz_strm_initialized_ := flag })
    (hget : ∀ s, P s → P (GetCompressedData s).2)
    (fuel : Nat) (ops : List Op) :
    ∀ (s : BZ2Compressor σ) (rs : List Ret) (s2 : BZ2Compressor σ) (calls : List CodecCall),
      P s → run c fuel s ops = some (rs, s2, calls) → P s2 := by
  induction ops with
  | nil =>
    intro s rs s2 calls hP h
    simp [run] at h
    rw [← h.2.1]; exact hP
  | cons op ops ih =>
    intro s rs s2 calls hP h
    unfold run at h
    split at h
    · simp at h
    · rename_i r s1 k1 hstep1
      split at h
      · simp at h
      · rename_i rs2 s3 k2 hrun
        simp at h
        rw [← h.2.1]
        refine ih _ _ _ _ ?_ hrun
        cases op with
        | write buf size =>
          simp only [step, Option.map_eq_some'] at hstep1
          obtain ⟨o, ho, heq⟩ := hstep1
          simp at heq
          rw [← heq.2.1]
          exact Write_invariant c P hcall hstep hset fuel s buf size o hP ho
        | finish =>
          simp only [step, Option.map_eq_some'] at hstep1
          obtain ⟨o, ho, heq⟩ := hstep1
          simp at heq
          rw [← heq.2.1]
          exact Finish_invariant c P hstep hset fuel s o hP ho
        | getData =>
          simp [step] at hstep1
          rw [← hstep1.2.1]
          exact hget s hP

/-! ## The scratch buffer and the chunks -/

theorem noOverreport_copyCodec : NoOverreport copyCodec := by
  intro strm action
  simp only [copyCodec]
  split
  · split
    · simp
    · simp
  · simp

/-- No sequence of calls changes the size of the scratch buffer. -/
theorem run_length {σ : Type} (c : Codec σ) (fuel : Nat) (ops : List Op)
    (s : BZ2Compressor σ) (rs : List Ret) (s2 : BZ2Compressor σ) (calls : List CodecCall)
    (h : run c fuel s ops = some (rs, s2, calls)) :
    s2.comp_buffer_.length = s.comp_buffer_.length := by
  refine run_invariant c (fun t => t.comp_buffer_.length = s.comp_buffer_.length)
    ?_ ?_ ?_ ?_ fuel ops s rs s2 calls rfl h
  · intro t a ht
    rw [length_callCompress]; exact ht
  · intro t a ht
    rw [length_appendChunk, length_callCompress]; exact ht
  · intro t strm flag ht
    exact ht
  · intro t ht
    rw [GetCompressedData_snd]; exact ht

/-- With a library that never reports more free output space than it was
handed, a library call followed by the `emplace_back` keeps the chunks
non-empty and within the scratch buffer. -/
theorem chunksWithin_appendChunk_callCompress {σ : Type} (c : Codec σ) (hc : NoOverreport c)
    (n : Nat) (hn : n < 2 ^ 32) (s : BZ2Compressor σ) (a : Int) (hs : ChunksWithin n s) :
    ChunksWithin n (appendChunk (callCompress c s a).2.1) := by
  obtain ⟨hlen, hchunks⟩ := hs
  have hmod : s.comp_buffer_.length % 2 ^ 32 = s.comp_buffer_.length :=
    Nat.mod_eq_of_lt (by omega)
  have hle := hc { s.bz_strm_ with avail_out := s.comp_buffer_.length % 2 ^ 32 } a
  simp only [hmod] at hle
  refine ⟨by rw [length_appendChunk, length_callCompress]; exact hlen, ?_⟩
  unfold appendChunk callCompress
  simp only [hmod, length_store]
  generalize c.BZ2_bzCompress { s.bz_strm_ with avail_out := s.comp_buffer_.length } a = r
    at hle ⊢
  have hout : output_bytes s.comp_buffer_.length r.strm.avail_out
      = s.comp_buffer_.length - r.strm.avail_out :=
    output_bytes_eq _ _ hle (by omega)
  rw [hout]
  split
  · rename_i hne
    intro chunk hchunk
    simp only [List.mem_append, List.mem_singleton] at hchunk
    rcases hchunk with hold | hnew
    · exact hchunks chunk hold
    · have hl : chunk.length = s.comp_buffer_.length - r.strm.avail_out := by
        rw [hnew, List.length_take, length_store]
        omega
      refine ⟨?_, by omega⟩
      intro hnil
      rw [hnil] at hl
      simp at hl
      omega
  · exact hchunks

theorem run_chunksWithin {σ : Type} (c : Codec σ) (hc : NoOverreport c) (n : Nat)
    (hn : n < 2 ^ 32) (fuel : Nat) (ops : List Op) (s : BZ2Compressor σ) (rs : List Ret)
    (s2 : BZ2Compressor σ) (calls : List CodecCall) (hs : ChunksWithin n s)
    (h : run c fuel s ops = some (rs, s2, calls)) : ChunksWithin n s2 := by
  refine run_invariant c (ChunksWithin n) ?_ ?_ ?_ ?_ fuel ops s rs s2 calls hs h
  · intro t a ht
    exact ⟨by rw [length_callCompress]; exact ht.1, ht.2⟩
  · intro t a ht
    exact chunksWithin_appendChunk_callCompress c hc n hn t a ht
  · intro t strm flag ht
    exact ht
  · intro t ht
    rw [GetCompressedData_snd]
    exact ⟨ht.1, by simp⟩

/-- The scratch buffer has 1048576 bytes after construction, whatever the
library's initialization answered, and the chunk list is empty. -/
theorem construct_chunksWithin {σ : Type} (c : Codec σ) :
    ChunksWithin 1048576 (construct c).1 := by
  unfold construct
  dsimp only
  split
  · exact ⟨length_resize _ _, by simp [declaredMembers]⟩
  · exact ⟨length_resize _ _, by simp [declaredMembers]⟩

/-- C15: the scratch buffer has 1048576 bytes after construction, whether or
not the library's initialization succeeded, and no sequence of calls on any
object changes its size; and with a library that never reports more free
output space than it was handed, in every state reached from the constructed
object by `Write`, `Finish` and `GetCompressedData` calls every chunk of the
chunk list is non-empty and at most 1048576 bytes long. -/
theorem C15_chunks_non_empty_and_within_scratch_buffer {σ : Type} (c : Codec σ)
    (hc : NoOverreport c) (fuel : Nat) (ops : List Op) (rs : List Ret)
    (s2 : BZ2Compressor σ) (calls : List CodecCall)
    (hrun : run c fuel (construct c).1 ops = some (rs, s2, calls)) :
    (construct c).1.comp_buffer_.length = 1048576 ∧
    (∀ (c2 : Codec σ) (fuel2 : Nat) (ops2 : List Op) (s : BZ2Compressor σ) (rs2 : List Ret)
        (s3 : BZ2Compressor σ) (calls2 : List CodecCall),
        run c2 fuel2 s ops2 = some (rs2, s3, calls2) →
        s3.comp_buffer_.length = s.comp_buffer_.length) ∧
    s2.comp_buffer_.length = 1048576 ∧
    ∀ chunk ∈ s2.comp_chunks_, chunk ≠ [] ∧ chunk.length ≤ 1048576 := by
  have h := run_chunksWithin c hc 1048576 (by norm_num) fuel ops _ rs s2 calls
    (construct_chunksWithin c) hrun
  exact ⟨(construct_chunksWithin c).1,
    fun c2 fuel2 ops2 s rs2 s3 calls2 h2 => run_length c2 fuel2 ops2 s rs2 s3 calls2 h2,
    h.1, h.2⟩

/-- Witness for C15: `copyCodec` never reports more free output space than it
was handed; after a `Write`, a `GetCompressedData` and a `Finish` on the object
constructed with it, the chunk list holds the one-byte chunk `[255]` and the
scratch buffer still has 1048576 bytes. -/
theorem C15_chunks_non_empty_and_within_scratch_buffer_witness :
    NoOverreport copyCodec ∧
    run copyCodec 1 (construct copyCodec).1 [Op.write [1, 2, 3] 3, Op.getData, Op.finish]
      = some constructedCopied ∧
    constructedCopied.2.1.comp_chunks_ = [[255]] ∧
    constructedCopied.2.1.comp_buffer_.length = 1048576 ∧
    ∀ chunk ∈ constructedCopied.2.1.comp_chunks_, chunk ≠ [] ∧ chunk.length ≤ 1048576 :=
  ⟨noOverreport_copyCodec, run_constructed_copy, rfl,
    (C15_chunks_non_empty_and_within_scratch_buffer copyCodec noOverreport_copyCodec 1
      [Op.write [1, 2, 3] 3, Op.getData, Op.finish]
      constructedCopied.1 constructedCopied.2.1 constructedCopied.2.2
      run_constructed_copy).2.2⟩

/-! ## `GetCompressedData` is not observed by the other calls -/

theorem flat_eq_iff {σ : Type} (s t : BZ2Compressor σ) :
    flat s = flat t ↔
      s.bz_strm_ = t.bz_strm_ ∧ s.bz_strm_initialized_ = t.bz_strm_initialized_ ∧
      s.comp_buffer_ = t.comp_buffer_ ∧ stream s = stream t := by
  cases s
  cases t
  simp [flat, stream]

theorem flat_GetCompressedData {σ : Type} (s : BZ2Compressor σ) :
    flat (GetCompressedData s).2 = flat s := by
  rw [flat_eq_iff, GetCompressedData_snd]
  exact ⟨rfl, rfl, rfl, by simp [stream]⟩

theorem flat_appendChunk {σ : Type} (s t : BZ2Compressor σ) (h : flat s = flat t) :
    flat (appendChunk s) = flat (appendChunk t) := by
  rw [flat_eq_iff] at h ⊢
  obtain ⟨h1, h2, h3, h4⟩ := h
  have hn : output_bytes s.comp_buffer_.length s.bz_strm_.avail_out
      = output_bytes t.comp_buffer_.length t.bz_strm_.avail_out := by rw [h1, h3]
  unfold appendChunk
  dsimp only
  rw [hn]
  split
  · refine ⟨h1, h2, h3, ?_⟩
    simp only [stream] at h4 ⊢
    rw [List.flatten_append, List.flatten_append, ← List.append_assoc, ← List.append_assoc, h4,
      h3]
  · exact ⟨h1, h2, h3, h4⟩

theorem flat_callCompress {σ : Type} (c : Codec σ) (s t : BZ2Compressor σ) (a : Int)
    (h : flat s = flat t) :
    (callCompress c s a).1 = (callCompress c t a).1 ∧
    (callCompress c s a).2.2 = (callCompress c t a).2.2 ∧
    flat (callCompress c s a).2.1 = flat (callCompress c t a).2.1 := by
  rw [flat_eq_iff] at h
  obtain ⟨h1, h2, h3, h4⟩ := h
  unfold callCompress
  dsimp only
  rw [h1, h3]
  refine ⟨rfl, rfl, ?_⟩
  rw [flat_eq_iff]
  exact ⟨rfl, h2, rfl, h4⟩

theorem WriteLoop_flat {σ : Type} (c : Codec σ) (fuel : Nat) :
    ∀ (s t : BZ2Compressor σ), flat s = flat t →
      (WriteLoop c fuel s).map (fun o => (o.ret, flat o.obj, o.calls)) =
      (WriteLoop c fuel t).map (fun o => (o.ret, flat o.obj, o.calls)) := by
  induction fuel with
  | zero =>
    intro s t h
    have h1 : s.bz_strm_ = t.bz_strm_ := ((flat_eq_iff s t).mp h).1
    unfold WriteLoop
    rw [h1]
    split <;> simp [h]
  | succ n ih =>
    intro s t h
    have h1 : s.bz_strm_ = t.bz_strm_ := ((flat_eq_iff s t).mp h).1
    obtain ⟨hst, hcall, hobj⟩ := flat_callCompress c s t BZ_RUN h
    have hrec := ih _ _ (flat_appendChunk _ _ hobj)
    unfold WriteLoop
    rw [h1]
    split
    · simp [h]
    · dsimp only
      rw [hst, hcall]
      split
      · simp [hobj]
      · cases hs : WriteLoop c n (appendChunk (callCompress c s BZ_RUN).2.1) <;>
          cases ht : WriteLoop c n (appendChunk (callCompress c t BZ_RUN).2.1) <;>
          simp [hs, ht] at hrec ⊢
        exact hrec

theorem FinishLoop_flat {σ : Type} (c : Codec σ) (fuel : Nat) :
    ∀ (bz_err : Int) (s t : BZ2Compressor σ), flat s = flat t →
      (FinishLoop c fuel bz_err s).map (fun r => (r.1, flat r.2.1, r.2.2)) =
      (FinishLoop c fuel bz_err t).map (fun r => (r.1, flat r.2.1, r.2.2)) := by
  induction fuel with
  | zero =>
    intro bz_err s t h
    unfold FinishLoop
    split <;> simp [h]
  | succ n ih =>
    intro bz_err s t h
    obtain ⟨hst, hcall, hobj⟩ := flat_callCompress c s t BZ_FINISH h
    have hrec := ih (callCompress c t BZ_FINISH).1 _ _ (flat_appendChunk _ _ hobj)
    unfold FinishLoop
    split
    · dsimp only
      rw [hst, hcall]
      cases hs : FinishLoop c n (callCompress c t BZ_FINISH).1
          (appendChunk (callCompress c s BZ_FINISH).2.1) <;>
        cases ht : FinishLoop c n (callCompress c t BZ_FINISH).1
          (appendChunk (callCompress c t BZ_FINISH).2.1) <;>
        simp [hs, ht] at hrec ⊢
      exact hrec
    · simp [h]

theorem Write_set {σ : Type} (c : Codec σ) (fuel : Nat) (s : BZ2Compressor σ)
    (buf : List UInt8) (size : Nat) (h : s.bz_strm_initialized_ = true) :
    Write c fuel s buf size =
      WriteLoop c fuel
        { s with bz_strm_ := { s.bz_strm_ with next_in := buf, avail_in := size % 2 ^ 32 } } := by
  unfold Write
  rw [if_neg (by simp [h])]

theorem Finish_set {σ : Type} (c : Codec σ) (fuel : Nat) (s : BZ2Compressor σ)
    (h : s.bz_strm_initialized_ = true) :
    Finish c fuel s =
      match FinishLoop c fuel BZ_FINISH_OK
          { s with bz_strm_ := { s.bz_strm_ with next_in := [], avail_in := 0 } } with
      | none => none
      | some (bz_err, s2, calls) =>
        if bz_err ≠ BZ_STREAM_END then some ⟨false, s2, calls⟩
        else
          let r := c.BZ2_bzCompressEnd s2.bz_strm_
          let s3 := { s2 with bz_strm_ := r.2, bz_strm_initialized_ := false }
          if r.1 ≠ BZ_OK then some ⟨false, s3, calls ++ [CodecCall.compressEnd r.1]⟩
          else some ⟨true, s3, calls ++ [CodecCall.compressEnd r.1]⟩ := by
  unfold Finish
  rw [if_neg (by simp [h])]

theorem Write_flat {σ : Type} (c : Codec σ) (fuel : Nat) (s t : BZ2Compressor σ)
    (buf : List UInt8) (size : Nat) (h : flat s = flat t) :
    (Write c fuel s buf size).map (fun o => (o.ret, flat o.obj, o.calls)) =
    (Write c fuel t buf size).map (fun o => (o.ret, flat o.obj, o.calls)) := by
  obtain ⟨h1, h2, h3, h4⟩ := (flat_eq_iff s t).mp h
  cases hft : t.bz_strm_initialized_ with
  | false =>
    rw [Write_unset c fuel s buf size (h2.trans hft), Write_unset c fuel t buf size hft]
    simp [h]
  | true =>
    rw [Write_set c fuel s buf size (h2.trans hft), Write_set c fuel t buf size hft]
    apply WriteLoop_flat
    rw [flat_eq_iff]
    exact ⟨by simp [h1], h2, h3, h4⟩

theorem Finish_flat {σ : Type} (c : Codec σ) (fuel : Nat) (s t : BZ2Compressor σ)
    (h : flat s = flat t) :
    (Finish c fuel s).map (fun o => (o.ret, flat o.obj, o.calls)) =
    (Finish c fuel t).map (fun o => (o.ret, flat o.obj, o.calls)) := by
  obtain ⟨h1, h2, h3, h4⟩ := (flat_eq_iff s t).mp h
  cases hft : t.bz_strm_initialized_ with
  | false =>
    rw [Finish_unset c fuel s (h2.trans hft), Finish_unset c fuel t hft]
    simp [h]
  | true =>
    have hloop := FinishLoop_flat c fuel BZ_FINISH_OK
      { s with bz_strm_ := { s.bz_strm_ with next_in := [], avail_in := 0 } }
      { t with bz_strm_ := { t.bz_strm_ with next_in := [], avail_in := 0 } }
      (by rw [flat_eq_iff]; exact ⟨by simp [h1], h2, h3, h4⟩)
    rw [Finish_set c fuel s (h2.trans hft), Finish_set c fuel t hft]
    cases hs : FinishLoop c fuel BZ_FINISH_OK
        { s with bz_strm_ := { s.bz_strm_ with next_in := [], avail_in := 0 } } with
    | none =>
      cases ht : FinishLoop c fuel BZ_FINISH_OK
          { t with bz_strm_ := { t.bz_strm_ with next_in := [], avail_in := 0 } } with
      | none => simp
      | some rt => simp [hs, ht] at hloop
    | some rs =>
      cases ht : FinishLoop c fuel BZ_FINISH_OK
          { t with bz_strm_ := { t.bz_strm_ with next_in := [], avail_in := 0 } } with
      | none => simp [hs, ht] at hloop
      | some rt =>
        obtain ⟨e, s2, calls⟩ := rs
        obtain ⟨e2, t2, calls2⟩ := rt
        simp [hs, ht] at hloop
        obtain ⟨he, hobj, hcalls⟩ := hloop
        subst he hcalls
        obtain ⟨g1, g2, g3, g4⟩ := (flat_eq_iff s2 t2).mp hobj
        dsimp only
        rw [g1]
        split
        · simp [hobj]
        · split <;> (simp [flat_eq_iff, g3, stream]; simpa [stream] using g4)

/-- Leaving the `GetCompressedData` calls out of a sequence changes nothing in
what the `Write` and `Finish` calls return, in the library calls made and in
the object at the end once its chunks are flattened; and the sequence returns
if and only if the shortened one does. -/
theorem run_flat {σ : Type} (c : Codec σ) (fuel : Nat) (ops : List Op) :
    ∀ (s t : BZ2Compressor σ), flat s = flat t →
      (run c fuel s ops).map (fun r => (boolRets r.1, flat r.2.1, r.2.2)) =
      (run c fuel t (dropGets ops)).map (fun r => (boolRets r.1, flat r.2.1, r.2.2)) := by
  induction ops with
  | nil =>
    intro s t h
    simp [run, dropGets, boolRets, h]
  | cons op ops ih =>
    intro s t h
    cases op with
    | getData =>
      have hrec := ih (GetCompressedData s).2 t (by rw [flat_GetCompressedData]; exact h)
      have hdrop : dropGets (Op.getData :: ops) = dropGets ops := by
        simp [dropGets, Op.isGet]
      rw [hdrop, ← hrec]
      simp only [run, step]
      cases hr : run c fuel (GetCompressedData s).2 ops with
      | none => simp
      | some r => simp [boolRets, Ret.isData]
    | write buf size =>
      have hdrop : dropGets (Op.write buf size :: ops) = Op.write buf size :: dropGets ops := by
        simp [dropGets, Op.isGet]
      have hw := Write_flat c fuel s t buf size h
      rw [hdrop]
      simp only [run, step]
      cases hs : Write c fuel s buf size with
      | none =>
        cases ht : Write c fuel t buf size with
        | none => simp
        | some ot => simp [hs, ht] at hw
      | some os =>
        cases ht : Write c fuel t buf size with
        | none => simp [hs, ht] at hw
        | some ot =>
          simp [hs, ht] at hw
          obtain ⟨hret, hobj, hcalls⟩ := hw
          have hrec := ih os.obj ot.obj hobj
          simp only [Option.map_some']
          cases hr1 : run c fuel os.obj ops <;> cases hr2 : run c fuel ot.obj (dropGets ops) <;>
            simp [hr1, hr2] at hrec ⊢
          simp [boolRets, Ret.isData, hret, hcalls]
          exact hrec
    | finish =>
      have hdrop : dropGets (Op.finish :: ops) = Op.finish :: dropGets ops := by
        simp [dropGets, Op.isGet]
      have hw := Finish_flat c fuel s t h
      rw [hdrop]
      simp only [run, step]
      cases hs : Finish c fuel s with
      | none =>
        cases ht : Finish c fuel t with
        | none => simp
        | some ot => simp [hs, ht] at hw
      | some os =>
        cases ht : Finish c fuel t with
        | none => simp [hs, ht] at hw
        | some ot =>
          simp [hs, ht] at hw
          obtain ⟨hret, hobj, hcalls⟩ := hw
          have hrec := ih os.obj ot.obj hobj
          simp only [Option.map_some']
          cases hr1 : run c fuel os.obj ops <;> cases hr2 : run c fuel ot.obj (dropGets ops) <;>
            simp [hr1, hr2] at hrec ⊢
          simp [boolRets, Ret.isData, hret, hcalls]
          exact hrec

/-- Each value a sequence of calls returns is of the kind of its call: a
vector for `GetCompressedData`, a `bool` for `Write` and `Finish`. -/
theorem run_rets_kind {σ : Type} (c : Codec σ) (fuel : Nat) (ops : List Op) :
    ∀ (s : BZ2Compressor σ) (rs : List Ret) (s2 : BZ2Compressor σ) (calls : List CodecCall),
      run c fuel s ops = some (rs, s2, calls) → rs.map Ret.isData = ops.map Op.isGet := by
  induction ops with
  | nil =>
    intro s rs s2 calls h
    simp [run] at h
    simp [h.1]
  | cons op ops ih =>
    intro s rs s2 calls h
    unfold run at h
    split at h
    · simp at h
    · rename_i r s1 k1 hstep
      split at h
      · simp at h
      · rename_i rs2 s3 k2 hrun
        simp at h
        rw [← h.1, List.map_cons, List.map_cons, ih _ _ _ _ hrun]
        congr 1
        cases op with
        | write buf size =>
          simp only [step, Option.map_eq_some'] at hstep
          obtain ⟨o, _, heq⟩ := hstep
          simp at heq
          rw [← heq.1]; rfl
        | finish =>
          simp only [step, Option.map_eq_some'] at hstep
          obtain ⟨o, _, heq⟩ := hstep
          simp at heq
          rw [← heq.1]; rfl
        | getData =>
          simp [step] at hstep
          rw [← hstep.1]; rfl

theorem boolRets_eq_self (rs : List Ret) (h : ∀ b ∈ rs.map Ret.isData, b = false) :
    boolRets rs = rs := by
  unfold boolRets
  rw [List.filter_eq_self]
  intro r hr
  have := h r.isData (List.mem_map_of_mem _ hr)
  simp [this]

/-- C17: `GetCompressedData` is observationally transparent.  For every object
and every sequence of `Write`, `Finish` and `GetCompressedData` calls, the
sequence and the same sequence without its `GetCompressedData` calls agree on
whether they return, on the values the `Write` and `Finish` calls return, on
the library calls made, and on the vector a final `GetCompressedData` returns;
the shortened sequence returns `bool` values only. -/
theorem C17_GetCompressedData_is_transparent {σ : Type} (c : Codec σ) (fuel : Nat)
    (s : BZ2Compressor σ) (ops : List Op) :
    (run c fuel s ops).map observed = (run c fuel s (dropGets ops)).map observed ∧
    (∀ op ∈ dropGets ops, op.isGet = false) ∧
    (∀ r, run c fuel s (dropGets ops) = some r → boolRets r.1 = r.1) := by
  have hget : ∀ op ∈ dropGets ops, op.isGet = false := by
    intro op hop
    simp only [dropGets, List.mem_filter] at hop
    simpa using hop.2
  refine ⟨?_, hget, ?_⟩
  · have h := run_flat c fuel ops s s rfl
    have hobs : (observed : List Ret × BZ2Compressor σ × List CodecCall → _) =
        (fun p : List Ret × BZ2Compressor σ × List CodecCall => (p.1, p.2.2, p.2.1.comp_data_))
          ∘ (fun r => (boolRets r.1, flat r.2.1, r.2.2)) := by
      funext r
      simp [observed, GetCompressedData_fst, flat]
    rw [hobs, ← Option.map_map, ← Option.map_map, h]
  · intro r hr
    obtain ⟨rs, s2, calls⟩ := r
    have hk := run_rets_kind c fuel (dropGets ops) s rs s2 calls hr
    apply boolRets_eq_self
    intro b hb
    rw [hk] at hb
    obtain ⟨op, hop, hb2⟩ := List.mem_map.mp hb
    rw [← hb2]
    exact hget op hop

/-- C17 on an example: with `copyCodec` on `smallReady`, two writes and a
finish with `GetCompressedData` calls in between, and the same calls without
them, return the same values from `Write` and `Finish`, make the same library
calls and end with the same data. -/
theorem C17_GetCompressedData_is_transparent_example :
    (run copyCodec 5 smallReady
        [Op.getData, Op.write [1, 2, 3] 3, Op.getData, Op.getData, Op.write [4] 1, Op.finish,
         Op.getData]).map observed =
      some ([Ret.bool true, Ret.bool true, Ret.bool true], smallCopied.2.2, [1, 2, 3, 4, 255]) ∧
    (run copyCodec 5 smallReady [Op.write [1, 2, 3] 3, Op.write [4] 1, Op.finish]).map observed =
      some ([Ret.bool true, Ret.bool true, Ret.bool true], smallCopied.2.2, [1, 2, 3, 4, 255]) :=
  ⟨rfl, rfl⟩

/-! ## The output of a failing call -/

theorem conforms_leakyCodec : Conforms leakyCodec := by
  intro strm action
  simp only [leakyCodec]
  split
  · rename_i h0
    simp [h0]
  · simp
    omega

/-- `Write` does not touch the result buffer. -/
theorem Write_data {σ : Type} (c : Codec σ) (fuel : Nat) (s : BZ2Compressor σ)
    (buf : List UInt8) (size : Nat) (o : Outcome σ) (h : Write c fuel s buf size = some o) :
    o.obj.comp_data_ = s.comp_data_ := by
  refine Write_invariant c (fun t => t.comp_data_ = s.comp_data_) ?_ ?_ ?_ fuel s buf size o
    rfl h
  · intro t a ht
    exact ht
  · intro t a ht
    unfold appendChunk
    dsimp only
    split <;> exact ht
  · intro t strm flag ht
    exact ht

/-- `Finish` does not touch the result buffer. -/
theorem Finish_data {σ : Type} (c : Codec σ) (fuel : Nat) (s : BZ2Compressor σ)
    (o : Outcome σ) (h : Finish c fuel s = some o) :
    o.obj.comp_data_ = s.comp_data_ := by
  refine Finish_invariant c (fun t => t.comp_data_ = s.comp_data_) ?_ ?_ fuel s o rfl h
  · intro t a ht
    unfold appendChunk
    dsimp only
    split <;> exact ht
  · intro t strm flag ht
    exact ht

/-- With a library that accounts for its output, a `Write` loop that returns
failure has added to the stream the bytes emitted in its library calls except
the last one, the call that failed. -/
theorem WriteLoop_failed_emitted {σ : Type} (c : Codec σ) (hc : Conforms c) (fuel : Nat) :
    ∀ (s : BZ2Compressor σ) (o : Outcome σ), s.comp_buffer_.length < 2 ^ 32 →
      WriteLoop c fuel s = some o → o.ret = false →
      ∃ pre last, o.calls = pre ++ [last] ∧ last.status ≠ BZ_RUN_OK ∧
        stream o.obj = stream s ++ (pre.map CodecCall.emitted).flatten := by
  induction fuel with
  | zero =>
    intro s o _ h hret
    unfold WriteLoop at h
    split at h
    · simp at h; subst h; simp at hret
    · simp at h
  | succ n ih =>
    intro s o hbuf h hret
    unfold WriteLoop at h
    split at h
    · simp at h; subst h; simp at hret
    · dsimp only at h
      split at h
      · rename_i herr
        simp at h; subst h
        refine ⟨[], (callCompress c s BZ_RUN).2.2, rfl, ?_, by simp [stream_callCompress]⟩
        rw [status_callCompress]; exact herr
      · split at h
        · simp at h
        · rename_i o2 heq
          simp at h; subst h
          have hlen : (appendChunk (callCompress c s BZ_RUN).2.1).comp_buffer_.length < 2 ^ 32 := by
            rw [length_appendChunk, length_callCompress]; exact hbuf
          obtain ⟨pre, last, hcalls, hlast, hstream⟩ := ih _ o2 hlen heq hret
          rw [stream_appendChunk_callCompress c hc s hbuf] at hstream
          refine ⟨(callCompress c s BZ_RUN).2.2 :: pre, last, by simp [hcalls], hlast, ?_⟩
          simp [hstream, List.append_assoc]

theorem chunks_of_stream {σ : Type} (s t : BZ2Compressor σ) (extra : List UInt8)
    (hdata : t.comp_data_ = s.comp_data_) (hstream : stream t = stream s ++ extra) :
    t.comp_chunks_.flatten = s.comp_chunks_.flatten ++ extra := by
  simp only [stream, hdata, List.append_assoc] at hstream
  exact List.append_cancel_left hstream

/-- C18: the output of a failing library call is treated differently in
`Write` and in `Finish`.  With a library that accounts for its output and an
object whose session flag is set: a `Write` that returns failure made a last
library call that answered a status other than `BZ_RUN_OK`, and the chunk list
then holds, after what it held before, the bytes emitted in the calls before
that one only: the bytes the failing call left in the scratch buffer are not
appended.  A `Finish` in which a finalizing call answers an error status
returns failure, that call is its last library call, and the chunk list then
holds, after what it held before, the bytes emitted in all its calls, those of
the failing call included. -/
theorem C18_failing_call_output_dropped_by_Write_kept_by_Finish {σ : Type} (c : Codec σ)
    (hc : Conforms c) (fuel : Nat) (s : BZ2Compressor σ)
    (hbuf : s.comp_buffer_.length < 2 ^ 32) (hready : s.bz_strm_initialized_ = true) :
    (∀ (buf : List UInt8) (size : Nat) (o : Outcome σ),
      Write c fuel s buf size = some o → o.ret = false →
      ∃ pre last, o.calls = pre ++ [last] ∧ last.status ≠ BZ_RUN_OK ∧
        o.obj.comp_chunks_.flatten
          = s.comp_chunks_.flatten ++ (pre.map CodecCall.emitted).flatten) ∧
    (∀ (o : Outcome σ), Finish c fuel s = some o →
      (∃ call ∈ o.calls, call.isEnd = false ∧ call.status ≠ BZ_FINISH_OK ∧
        call.status ≠ BZ_STREAM_END) →
      o.ret = false ∧
      ∃ pre ai e w, o.calls = pre ++ [CodecCall.compress BZ_FINISH ai e w] ∧
        e ≠ BZ_FINISH_OK ∧ e ≠ BZ_STREAM_END ∧
        o.obj.comp_chunks_.flatten
          = s.comp_chunks_.flatten ++ (pre.map CodecCall.emitted).flatten ++ w) := by
  constructor
  · intro buf size o hW hret
    have hdata := Write_data c fuel s buf size o hW
    rw [Write_set c fuel s buf size hready] at hW
    obtain ⟨pre, last, hcalls, hlast, hstream⟩ :=
      WriteLoop_failed_emitted c hc fuel _ o (by exact hbuf) hW hret
    exact ⟨pre, last, hcalls, hlast, chunks_of_stream s o.obj _ hdata hstream⟩
  · intro o hF herr
    have hdata := Finish_data c fuel s o hF
    have hstream := Finish_emitted c hc fuel s o hbuf hF
    obtain ⟨pre, ai, e, w, hpre, hne, hcase⟩ := Finish_spec c fuel s o hready hF
    rcases hcase with ⟨hend, st, hcalls, _, _⟩ | ⟨hend, hcalls, hret, _⟩
    · exfalso
      obtain ⟨call, hmem, hnotEnd, hs1, hs2⟩ := herr
      rw [hcalls] at hmem
      simp only [List.mem_append, List.mem_cons, List.mem_singleton, List.not_mem_nil,
        or_false] at hmem
      rcases hmem with hin | hin | hin
      · obtain ⟨ai2, w2, hc2⟩ := hpre call hin
        rw [hc2] at hs1
        exact hs1 rfl
      · rw [hin] at hs2
        exact hs2 hend
      · rw [hin] at hnotEnd
        simp [CodecCall.isEnd] at hnotEnd
    · refine ⟨hret, pre, ai, e, w, hcalls, hne, hend, ?_⟩
      have h2 := chunks_of_stream s o.obj _ hdata hstream
      rw [h2, hcalls]
      simp [CodecCall.emitted, List.append_assoc]

/-- Witness for C18: `leakyCodec` accounts for its output and fails every call
after storing the byte 9.  On `smallReady`, the failed `Write` leaves the chunk
list empty, the failed `Finish` leaves `[[9]]` in it. -/
theorem C18_failing_call_output_dropped_by_Write_kept_by_Finish_witness :
    Conforms leakyCodec ∧ smallReady.comp_buffer_.length < 2 ^ 32 ∧
    smallReady.bz_strm_initialized_ = true ∧
    Write leakyCodec 1 smallReady [1] 1 = some smallLeakedWrite ∧
    smallLeakedWrite.obj.comp_chunks_ = [] ∧
    Finish leakyCodec 1 smallReady = some smallLeakedFinish ∧
    smallLeakedFinish.obj.comp_chunks_ = [[9]] ∧
    (∃ pre last, smallLeakedWrite.calls = pre ++ [last] ∧ last.status ≠ BZ_RUN_OK ∧
      smallLeakedWrite.obj.comp_chunks_.flatten
        = smallReady.comp_chunks_.flatten ++ (pre.map CodecCall.emitted).flatten) ∧
    (smallLeakedFinish.ret = false ∧
      ∃ pre ai e w, smallLeakedFinish.calls = pre ++ [CodecCall.compress BZ_FINISH ai e w] ∧
        e ≠ BZ_FINISH_OK ∧ e ≠ BZ_STREAM_END ∧
        smallLeakedFinish.obj.comp_chunks_.flatten
          = smallReady.comp_chunks_.flatten ++ (pre.map CodecCall.emitted).flatten ++ w) :=
  ⟨conforms_leakyCodec, by decide, rfl, rfl, rfl, rfl, rfl,
    (C18_failing_call_output_dropped_by_Write_kept_by_Finish leakyCodec conforms_leakyCodec 1
      smallReady (by decide) rfl).1 [1] 1 smallLeakedWrite rfl rfl,
    (C18_failing_call_output_dropped_by_Write_kept_by_Finish leakyCodec conforms_leakyCodec 1
      smallReady (by decide) rfl).2 smallLeakedFinish rfl
      ⟨CodecCall.compress BZ_FINISH 0 BZ_SEQUENCE_ERROR [9], by simp [smallLeakedFinish],
        rfl, by decide, by decide⟩⟩

/-! ## Sizes that are multiples of 2^32, zero among them -/

/-- On an object whose session flag is set, a `Write` whose size is a multiple
of 2^32 stores the input pointer and a zero input count, makes no library call
and returns success. -/
theorem Write_multiple {σ : Type} (c : Codec σ) (fuel : Nat) (s : BZ2Compressor σ)
    (buf : List UInt8) (k : Nat) (h : s.bz_strm_initialized_ = true) :
    Write c fuel s buf (k * 2 ^ 32) =
      some ⟨true, { s with bz_strm_ := { s.bz_strm_ with next_in := buf, avail_in := 0 } },
        []⟩ := by
  rw [Write_set c fuel s buf _ h]
  simp only [Nat.mul_mod_left]
  cases fuel <;> simp [WriteLoop]

/-- `Finish` overwrites the input pointer and the input count before it calls
the library: what a `Write` stored there does not matter to it. -/
theorem Finish_reset {σ : Type} (c : Codec σ) (fuel : Nat) (s : BZ2Compressor σ)
    (buf : List UInt8) (n : Nat) (h : s.bz_strm_initialized_ = true) :
    Finish c fuel { s with bz_strm_ := { s.bz_strm_ with next_in := buf, avail_in := n } }
      = Finish c fuel s := by
  rw [Finish_set c fuel s h, Finish_set c fuel _ (by exact h)]

theorem run_cons_multiple {σ : Type} (c : Codec σ) (fuel : Nat) (s : BZ2Compressor σ)
    (buf : List UInt8) (k : Nat) (ops : List Op) (h : s.bz_strm_initialized_ = true) :
    run c fuel s (Op.write buf (k * 2 ^ 32) :: ops) =
      (run c fuel { s with bz_strm_ := { s.bz_strm_ with next_in := buf, avail_in := 0 } }
        ops).map fun r => (Ret.bool true :: r.1, r.2.1, r.2.2) := by
  simp only [run, step, Write_multiple c fuel s buf k h, Option.map_some']
  cases run c fuel { s with bz_strm_ := { s.bz_strm_ with next_in := buf, avail_in := 0 } }
    ops <;> simp

/-- `Write` calls whose sizes are multiples of 2^32 followed by `Finish` give
what `Finish` alone gives, after one success per `Write`. -/
theorem run_multiples_finish {σ : Type} (c : Codec σ) (fuel : Nat)
    (writes : List (List UInt8 × Nat)) :
    ∀ (s : BZ2Compressor σ), s.bz_strm_initialized_ = true →
      run c fuel s (writes.map (fun w => Op.write w.1 (w.2 * 2 ^ 32)) ++ [Op.finish]) =
        (Finish c fuel s).map fun o =>
          (List.replicate writes.length (Ret.bool true) ++ [Ret.bool o.ret], o.obj, o.calls) := by
  induction writes with
  | nil =>
    intro s _
    simp only [List.map_nil, List.nil_append, run, step]
    cases Finish c fuel s <;> simp
  | cons w writes ih =>
    intro s h
    rw [List.map_cons, List.cons_append, run_cons_multiple c fuel s w.1 w.2 _ h,
      ih _ (by exact h), Finish_reset c fuel s w.1 0 h]
    cases Finish c fuel s <;> simp [List.replicate_succ]

theorem run_copy_zero_zero_finish (b : List UInt8) (hb : b.length = 1024 * 1024) :
    run copyCodec 1
        { bz_strm_ := { next_in := [], avail_in := 0, avail_out := 0, state := some 0 }
          bz_strm_initialized_ := true
          comp_buffer_ := b
          comp_chunks_ := []
          comp_data_ := [] }
        ([[1, 2], []].map (fun buf => Op.write buf 0) ++ [Op.finish]) =
      some ([Ret.bool true, Ret.bool true, Ret.bool true],
        { bz_strm_ := { next_in := [], avail_in := 0, avail_out := 1048575, state := none }
          bz_strm_initialized_ := false
          comp_buffer_ := store b [255]
          comp_chunks_ := [[255]]
          comp_data_ := [] },
        [CodecCall.compress BZ_FINISH 0 BZ_STREAM_END [255], CodecCall.compressEnd BZ_OK]) := by
  have h1 : (store b [255]).take 1 = [255] := take_store b [255] (by simp [hb])
  simp [run, step, Write, WriteLoop, Finish, FinishLoop, callCompress, appendChunk, copyCodec,
    length_store, hb, output_bytes, h1, BZ_RUN, BZ_RUN_OK, BZ_FINISH,
    BZ_FINISH_OK, BZ_STREAM_END, BZ_OK]

/-- The run of `constructedEmpty`. -/
theorem run_constructed_empty :
    run copyCodec 1 (construct copyCodec).1
        ([[1, 2], []].map (fun buf => Op.write buf 0) ++ [Op.finish])
      = some constructedEmpty := by
  rw [construct_copy]
  exact run_copy_zero_zero_finish _ (length_resize _ _)

/-- C14: compressing zero bytes.  On the constructed object, when the
library's initialization answered `BZ_OK` and the library accounts for its
output: after any number of `Write` calls of size zero, each of which returns
success without a library call, a `Finish` that returns has made at least one
finalizing call, and compress calls with `BZ_FINISH` only; `GetCompressedData`
then returns exactly the bytes the library emitted in those calls, in order,
which is a non-empty sequence whenever the library emitted any byte. -/
theorem C14_Finish_on_empty_input {σ : Type} (c : Codec σ) (hc : Conforms c)
    (hinit : (c.BZ2_bzCompressInit { next_in := [], avail_in := 0, avail_out := 0, state := none }
      kCompressionLevel 0 0).1 = BZ_OK)
    (fuel : Nat) (bufs : List (List UInt8)) (rs : List Ret) (s2 : BZ2Compressor σ)
    (calls : List CodecCall)
    (hrun : run c fuel (construct c).1 (bufs.map (fun buf => Op.write buf 0) ++ [Op.finish])
      = some (rs, s2, calls)) :
    (∃ call ∈ calls, ∃ ai e w, call = CodecCall.compress BZ_FINISH ai e w) ∧
    (∀ call ∈ calls, call.isEnd = true ∨ ∃ ai e w, call = CodecCall.compress BZ_FINISH ai e w) ∧
    rs.dropLast = List.replicate bufs.length (Ret.bool true) ∧
    (GetCompressedData s2).1 = (calls.map CodecCall.emitted).flatten ∧
    ((calls.map CodecCall.emitted).flatten ≠ [] → (GetCompressedData s2).1 ≠ []) := by
  obtain ⟨hflag, hlen, hstream⟩ := construct_ok c hinit
  have hops : bufs.map (fun buf => Op.write buf 0)
      = (bufs.map (fun buf => (buf, 0))).map (fun w => Op.write w.1 (w.2 * 2 ^ 32)) := by
    simp [List.map_map, Function.comp]
  rw [hops, run_multiples_finish c fuel _ _ hflag] at hrun
  cases hF : Finish c fuel (construct c).1 with
  | none => simp [hF] at hrun
  | some o =>
    simp [hF] at hrun
    obtain ⟨hrs, hs2, hcalls⟩ := hrun
    subst hrs hs2 hcalls
    have hem := Finish_emitted c hc fuel _ o (by rw [hlen]; norm_num) hF
    rw [hstream, List.nil_append] at hem
    have hdata : (GetCompressedData o.obj).1 = (o.calls.map CodecCall.emitted).flatten := by
      rw [GetCompressedData_fst]; exact hem
    obtain ⟨pre, ai, e, w, hpre, _, hcase⟩ := Finish_spec c fuel _ o hflag hF
    have hshape : ∃ tail, o.calls = pre ++ CodecCall.compress BZ_FINISH ai e w :: tail ∧
        ∀ call ∈ tail, call.isEnd = true := by
      rcases hcase with ⟨_, st, hc1, _, _⟩ | ⟨_, hc1, _, _⟩
      · exact ⟨[CodecCall.compressEnd st], hc1, by simp [CodecCall.isEnd]⟩
      · exact ⟨[], hc1, by simp⟩
    obtain ⟨tail, hcalls, htail⟩ := hshape
    refine ⟨⟨CodecCall.compress BZ_FINISH ai e w, by simp [hcalls], ai, e, w, rfl⟩, ?_, ?_,
      hdata, fun hne => by rw [hdata]; exact hne⟩
    · intro call hcall
      rw [hcalls] at hcall
      simp only [List.mem_append, List.mem_cons] at hcall
      rcases hcall with hin | hin | hin
      · obtain ⟨ai2, w2, hc2⟩ := hpre call hin
        exact Or.inr ⟨ai2, BZ_FINISH_OK, w2, hc2⟩
      · exact Or.inr ⟨ai, e, w, hin⟩
      · exact Or.inl (htail call hin)
    · simp

/-- Witness for C14: on the object constructed with `copyCodec`, two `Write`
calls of size zero and `Finish` return success, and the compressed data is the
one byte emitted in the finalizing call. -/
theorem C14_Finish_on_empty_input_witness :
    Conforms copyCodec ∧
    (copyCodec.BZ2_bzCompressInit { next_in := [], avail_in := 0, avail_out := 0, state := none }
      kCompressionLevel 0 0).1 = BZ_OK ∧
    run copyCodec 1 (construct copyCodec).1
        ([[1, 2], []].map (fun buf => Op.write buf 0) ++ [Op.finish])
      = some constructedEmpty ∧
    (GetCompressedData constructedEmpty.2.1).1 = [255] ∧
    (∃ call ∈ constructedEmpty.2.2, ∃ ai e w, call = CodecCall.compress BZ_FINISH ai e w) ∧
    (∀ call ∈ constructedEmpty.2.2,
      call.isEnd = true ∨ ∃ ai e w, call = CodecCall.compress BZ_FINISH ai e w) ∧
    constructedEmpty.1.dropLast = List.replicate [[1, 2], ([] : List UInt8)].length (Ret.bool true) ∧
    (GetCompressedData constructedEmpty.2.1).1
      = (constructedEmpty.2.2.map CodecCall.emitted).flatten ∧
    ((constructedEmpty.2.2.map CodecCall.emitted).flatten ≠ [] →
      (GetCompressedData constructedEmpty.2.1).1 ≠ []) :=
  ⟨conforms_copyCodec, rfl, run_constructed_empty, rfl,
    C14_Finish_on_empty_input copyCodec conforms_copyCodec rfl 1 [[1, 2], []]
      constructedEmpty.1 constructedEmpty.2.1 constructedEmpty.2.2 run_constructed_empty⟩

/-! ## Sizes of 2^32 bytes and more -/

theorem take_one_store (b : List UInt8) (x : UInt8) (h : 0 < b.length) :
    (store b [x]).take 1 = [x] :=
  take_store b [x] h

/-- The object the constructor builds with `countCodec`. -/
theorem construct_count :
    (construct countCodec).1 =
      { bz_strm_ := { next_in := [], avail_in := 0, avail_out := 0, state := some 0 }
        bz_strm_initialized_ := true
        comp_buffer_ := resize [] (1024 * 1024)
        comp_chunks_ := []
        comp_data_ := [] } := by
  rfl

/-- With `countCodec`, one `Write` of 4294967296 bytes followed by `Finish`
gives the data of an empty input. -/
theorem run_count_whole (b : List UInt8) (hb : b.length = 1024 * 1024) (input : List UInt8) :
    (run countCodec 1
        { bz_strm_ := { next_in := [], avail_in := 0, avail_out := 0, state := some 0 }
          bz_strm_initialized_ := true
          comp_buffer_ := b
          comp_chunks_ := []
          comp_data_ := [] }
        [Op.write input 4294967296, Op.finish, Op.getData]).map (fun r => (r.1, r.2.2)) =
      some ([Ret.bool true, Ret.bool true, Ret.data [0]],
        [CodecCall.compress BZ_FINISH 0 BZ_STREAM_END [0], CodecCall.compressEnd BZ_OK]) := by
  simp [run, step, Write, WriteLoop, Finish, FinishLoop, callCompress, appendChunk, countCodec,
    GetCompressedData, length_store, hb, output_bytes, take_one_store, BZ_RUN, BZ_RUN_OK,
    BZ_FINISH, BZ_FINISH_OK, BZ_STREAM_END, BZ_OK]

/-- With `countCodec`, two `Write` calls of together 4294967296 bytes, each
shorter than 2^32, followed by `Finish` give the data of a non-empty input. -/
theorem run_count_split (b : List UInt8) (hb : b.length = 1024 * 1024)
    (input1 input2 : List UInt8) (n1 n2 : Nat) (h1 : 0 < n1) (h1b : n1 < 2 ^ 32)
    (h2 : 0 < n2) (h2b : n2 < 2 ^ 32) :
    (run countCodec 1
        { bz_strm_ := { next_in := [], avail_in := 0, avail_out := 0, state := some 0 }
          bz_strm_initialized_ := true
          comp_buffer_ := b
          comp_chunks_ := []
          comp_data_ := [] }
        [Op.write input1 n1, Op.write input2 n2, Op.finish, Op.getData]).map
          (fun r => (r.1, r.2.2)) =
      some ([Ret.bool true, Ret.bool true, Ret.bool true, Ret.data [1]],
        [CodecCall.compress BZ_RUN n1 BZ_RUN_OK [],
         CodecCall.compress BZ_RUN n2 BZ_RUN_OK [],
         CodecCall.compress BZ_FINISH 0 BZ_STREAM_END [1],
         CodecCall.compressEnd BZ_OK]) := by
  have e1 : n1 % 4294967296 = n1 := Nat.mod_eq_of_lt (by omega)
  have e2 : n2 % 4294967296 = n2 := Nat.mod_eq_of_lt (by omega)
  have z1 : n1 ≠ 0 := by omega
  have z2 : n2 ≠ 0 := by omega
  simp [run, step, Write, WriteLoop, Finish, FinishLoop, callCompress, appendChunk, countCodec,
    GetCompressedData, length_store, hb, output_bytes, take_one_store, BZ_RUN, BZ_RUN_OK,
    BZ_FINISH, BZ_FINISH_OK, BZ_STREAM_END, BZ_OK, e1, e2, z1, z2]

theorem run_copy_whole (b : List UInt8) (hb : b.length = 1024 * 1024) (input : List UInt8) :
    (run copyCodec 1
        { bz_strm_ := { next_in := [], avail_in := 0, avail_out := 0, state := some 0 }
          bz_strm_initialized_ := true
          comp_buffer_ := b
          comp_chunks_ := []
          comp_data_ := [] }
        [Op.write input 4294967296, Op.finish, Op.getData]).map (fun r => (r.1, r.2.2)) =
      some ([Ret.bool true, Ret.bool true, Ret.data [255]],
        [CodecCall.compress BZ_FINISH 0 BZ_STREAM_END [255], CodecCall.compressEnd BZ_OK]) := by
  simp [run, step, Write, WriteLoop, Finish, FinishLoop, callCompress, appendChunk, copyCodec,
    GetCompressedData, length_store, hb, output_bytes, take_one_store, BZ_RUN, BZ_RUN_OK,
    BZ_FINISH, BZ_FINISH_OK, BZ_STREAM_END, BZ_OK]

theorem run_copy_none (b : List UInt8) (hb : b.length = 1024 * 1024) :
    (run copyCodec 1
        { bz_strm_ := { next_in := [], avail_in := 0, avail_out := 0, state := some 0 }
          bz_strm_initialized_ := true
          comp_buffer_ := b
          comp_chunks_ := []
          comp_data_ := [] }
        [Op.finish, Op.getData]).map (fun r => (r.1, r.2.2)) =
      some ([Ret.bool true, Ret.data [255]],
        [CodecCall.compress BZ_FINISH 0 BZ_STREAM_END [255], CodecCall.compressEnd BZ_OK]) := by
  simp [run, step, Finish, FinishLoop, callCompress, appendChunk, copyCodec,
    GetCompressedData, length_store, hb, output_bytes, take_one_store, BZ_RUN, BZ_RUN_OK,
    BZ_FINISH, BZ_FINISH_OK, BZ_STREAM_END, BZ_OK]

theorem run_copy_small (b : List UInt8) (hb : b.length = 1024 * 1024) :
    (run copyCodec 1
        { bz_strm_ := { next_in := [], avail_in := 0, avail_out := 0, state := some 0 }
          bz_strm_initialized_ := true
          comp_buffer_ := b
          comp_chunks_ := []
          comp_data_ := [] }
        [Op.write [1, 2, 3] 3, Op.finish, Op.getData]).map (fun r => (r.1, r.2.2)) =
      some ([Ret.bool true, Ret.bool true, Ret.data [1, 2, 3, 255]],
        [CodecCall.compress BZ_RUN 3 BZ_RUN_OK [1, 2, 3],
         CodecCall.compress BZ_FINISH 0 BZ_STREAM_END [255], CodecCall.compressEnd BZ_OK]) := by
  have h3 : (store b [1, 2, 3]).take 3 = [1, 2, 3] :=
    take_store b [1, 2, 3] (by simp [hb])
  simp [run, step, Write, WriteLoop, Finish, FinishLoop, callCompress, appendChunk, copyCodec,
    GetCompressedData, length_store, hb, output_bytes, take_one_store, h3, BZ_RUN, BZ_RUN_OK,
    BZ_FINISH, BZ_FINISH_OK, BZ_STREAM_END, BZ_OK]

/-- C11 at a failing input, with `countCodec`, whose output depends on the
whole input only.  The 4294967296 bytes `7, 7, ...` are cut in three ways.
Written as two pieces of 2147483648 bytes, or as a piece of one byte and a
piece of 4294967295 bytes, they give the data `[1]` of a non-empty input.
Written as one piece, `Write(buf, 4294967296)`, they give the data `[0]` of an
empty input: that `Write` returns success without any library call. -/
theorem C11_one_piece_of_4294967296_bytes_is_compressed_as_nothing :
    List.replicate 2147483648 (7 : UInt8) ++ List.replicate 2147483648 7
      = List.replicate 4294967296 7 ∧
    List.replicate 1 (7 : UInt8) ++ List.replicate 4294967295 7
      = List.replicate 4294967296 7 ∧
    (run countCodec 1 (construct countCodec).1
        [Op.write (List.replicate 2147483648 7) 2147483648,
         Op.write (List.replicate 2147483648 7) 2147483648,
         Op.finish, Op.getData]).map (fun r => (r.1, r.2.2)) =
      some ([Ret.bool true, Ret.bool true, Ret.bool true, Ret.data [1]],
        [CodecCall.compress BZ_RUN 2147483648 BZ_RUN_OK [],
         CodecCall.compress BZ_RUN 2147483648 BZ_RUN_OK [],
         CodecCall.compress BZ_FINISH 0 BZ_STREAM_END [1],
         CodecCall.compressEnd BZ_OK]) ∧
    (run countCodec 1 (construct countCodec).1
        [Op.write (List.replicate 1 7) 1,
         Op.write (List.replicate 4294967295 7) 4294967295,
         Op.finish, Op.getData]).map (fun r => (r.1, r.2.2)) =
      some ([Ret.bool true, Ret.bool true, Ret.bool true, Ret.data [1]],
        [CodecCall.compress BZ_RUN 1 BZ_RUN_OK [],
         CodecCall.compress BZ_RUN 4294967295 BZ_RUN_OK [],
         CodecCall.compress BZ_FINISH 0 BZ_STREAM_END [1],
         CodecCall.compressEnd BZ_OK]) ∧
    (run countCodec 1 (construct countCodec).1
        [Op.write (List.replicate 4294967296 7) 4294967296,
         Op.finish, Op.getData]).map (fun r => (r.1, r.2.2)) =
      some ([Ret.bool true, Ret.bool true, Ret.data [0]],
        [CodecCall.compress BZ_FINISH 0 BZ_STREAM_END [0], CodecCall.compressEnd BZ_OK]) := by
  rw [construct_count]
  refine ⟨?_, ?_, ?_, ?_, ?_⟩
  · rw [List.append_replicate_replicate]
  · rw [List.append_replicate_replicate]
  · exact run_count_split _ (length_resize _ _) _ _ 2147483648 2147483648
      (by norm_num) (by norm_num) (by norm_num) (by norm_num)
  · exact run_count_split _ (length_resize _ _) _ _ 1 4294967295
      (by norm_num) (by norm_num) (by norm_num) (by norm_num)
  · exact run_count_whole _ (length_resize _ _) _

/-- C13 at a failing input, with `copyCodec` and its decoder `copyDecode`.
For the input `[1, 2, 3]` the round trip holds.  For the input of 4294967296
bytes `7, 7, ...` written with one `Write(buf, 4294967296)`, `Write` and
`Finish` return success and the data is `[255]`, the data of the empty input,
made without one compress call with `BZ_RUN`; decoding it gives the empty
sequence, not the input. -/
theorem C13_round_trip_fails_for_one_Write_of_4294967296_bytes :
    (run copyCodec 1 (construct copyCodec).1
        [Op.write [1, 2, 3] 3, Op.finish, Op.getData]).map (fun r => (r.1, r.2.2)) =
      some ([Ret.bool true, Ret.bool true, Ret.data [1, 2, 3, 255]],
        [CodecCall.compress BZ_RUN 3 BZ_RUN_OK [1, 2, 3],
         CodecCall.compress BZ_FINISH 0 BZ_STREAM_END [255], CodecCall.compressEnd BZ_OK]) ∧
    copyDecode [1, 2, 3, 255] = [1, 2, 3] ∧
    (run copyCodec 1 (construct copyCodec).1
        [Op.write (List.replicate 4294967296 7) 4294967296, Op.finish, Op.getData]).map
          (fun r => (r.1, r.2.2)) =
      some ([Ret.bool true, Ret.bool true, Ret.data [255]],
        [CodecCall.compress BZ_FINISH 0 BZ_STREAM_END [255], CodecCall.compressEnd BZ_OK]) ∧
    (run copyCodec 1 (construct copyCodec).1 [Op.finish, Op.getData]).map
          (fun r => (r.1, r.2.2)) =
      some ([Ret.bool true, Ret.data [255]],
        [CodecCall.compress BZ_FINISH 0 BZ_STREAM_END [255], CodecCall.compressEnd BZ_OK]) ∧
    copyDecode [255] = [] ∧
    (List.replicate 4294967296 (7 : UInt8)).length = 4294967296 ∧
    copyDecode [255] ≠ List.replicate 4294967296 7 := by
  rw [construct_copy]
  refine ⟨run_copy_small _ (length_resize _ _), rfl, run_copy_whole _ (length_resize _ _) _,
    run_copy_none _ (length_resize _ _), rfl, List.length_replicate _ _, ?_⟩
  intro h
  have hlen := congrArg List.length h
  rw [List.length_replicate] at hlen
  exact absurd hlen (by decide)

/-! ## Pieces shorter than 2^32 bytes, with a library that encodes a stream -/

theorem streams_copyCodec :
    Streams copyCodec (fun input => input ++ [255]) (fun _ i p => p = i) := by
  refine ⟨fun _ _ _ _ _ => rfl, ?_, ?_, ?_⟩
  · intro strm i p hR _
    refine ⟨min (min strm.avail_in strm.avail_out) strm.next_in.length, ?_, ?_, ?_, ?_⟩
    · omega
    · simp [copyCodec, BZ_RUN, BZ_FINISH]
    · simp [copyCodec, BZ_RUN, BZ_FINISH]
    · simp [copyCodec, BZ_RUN, BZ_FINISH, hR]
  · intro strm i p hR h0 hst
    simp only [copyCodec, if_true] at hst ⊢
    split at hst
    · rename_i hz
      rw [if_pos hz]
      simp [h0, hR]
    · simp [BZ_STREAM_END, BZ_FINISH_OK] at hst
  · intro strm i p hR _ hst
    simp only [copyCodec, if_true] at hst ⊢
    split at hst
    · simp [BZ_STREAM_END, BZ_FINISH_OK] at hst
    · rename_i hz
      rw [if_neg hz]
      simp [hR]

/-- With a library that encodes a stream, a `Write` loop that returns success
has made the library take exactly the `avail_in` first bytes of `next_in`. -/
theorem WriteLoop_streams {σ : Type} (c : Codec σ) (enc : List UInt8 → List UInt8)
    (R : Option σ → List UInt8 → List UInt8 → Prop) (hS : Streams c enc R) (fuel : Nat) :
    ∀ (s : BZ2Compressor σ) (o : Outcome σ) (i p : List UInt8),
      R s.bz_strm_.state i p → WriteLoop c fuel s = some o → o.ret = true →
      R o.obj.bz_strm_.state (i ++ s.bz_strm_.next_in.take s.bz_strm_.avail_in)
        (p ++ (o.calls.map CodecCall.emitted).flatten) := by
  induction fuel with
  | zero =>
    intro s o i p hR h _
    unfold WriteLoop at h
    split at h
    · rename_i h0
      simp at h; subst h
      simpa [h0] using hR
    · simp at h
  | succ n ih =>
    intro s o i p hR h hret
    unfold WriteLoop at h
    split at h
    · rename_i h0
      simp at h; subst h
      simpa [h0] using hR
    · dsimp only at h
      split at h
      · simp at h; subst h; simp at hret
      · rename_i hst
        split at h
        · simp at h
        · rename_i o2 heq
          simp at h; subst h
          obtain ⟨k, hk, hin, hnext, hR2⟩ :=
            hS.run { s.bz_strm_ with avail_out := s.comp_buffer_.length % 2 ^ 32 } i p hR
              (not_not.mp hst)
          have hrec := ih (appendChunk (callCompress c s BZ_RUN).2.1) o2 _ _
            (by
              have e : (appendChunk (callCompress c s BZ_RUN).2.1).bz_strm_
                  = (c.BZ2_bzCompress
                      { s.bz_strm_ with avail_out := s.comp_buffer_.length % 2 ^ 32 }
                      BZ_RUN).strm := by
                unfold appendChunk
                dsimp only
                split <;> rfl
              rw [e]; exact hR2)
            heq hret
          have e : (appendChunk (callCompress c s BZ_RUN).2.1).bz_strm_
              = (c.BZ2_bzCompress
                  { s.bz_strm_ with avail_out := s.comp_buffer_.length % 2 ^ 32 }
                  BZ_RUN).strm := by
            unfold appendChunk
            dsimp only
            split <;> rfl
          rw [e, hin, hnext] at hrec
          have htake : s.bz_strm_.next_in.take s.bz_strm_.avail_in
              = s.bz_strm_.next_in.take k
                ++ (s.bz_strm_.next_in.drop k).take (s.bz_strm_.avail_in - k) := by
            have hsum : s.bz_strm_.avail_in = k + (s.bz_strm_.avail_in - k) := by
              simp only at hk
              omega
            conv_lhs => rw [hsum]
            exact List.take_add _ _ _
          rw [htake]
          simpa [CodecCall.emitted, callCompress, List.append_assoc] using hrec

theorem bz_strm_appendChunk {σ : Type} (s : BZ2Compressor σ) :
    (appendChunk s).bz_strm_ = s.bz_strm_ := by
  unfold appendChunk
  dsimp only
  split <;> rfl

/-- With a library that encodes a stream, a `Finish` loop that ends on
`BZ_STREAM_END` has brought the output emitted so far to `enc` of the input
taken. -/
theorem FinishLoop_streams {σ : Type} (c : Codec σ) (enc : List UInt8 → List UInt8)
    (R : Option σ → List UInt8 → List UInt8 → Prop) (hS : Streams c enc R) (fuel : Nat) :
    ∀ (s : BZ2Compressor σ) (e : Int) (s2 : BZ2Compressor σ) (calls : List CodecCall)
      (i p : List UInt8),
      R s.bz_strm_.state i p → s.bz_strm_.avail_in = 0 →
      FinishLoop c fuel BZ_FINISH_OK s = some (e, s2, calls) → e = BZ_STREAM_END →
      p ++ (calls.map CodecCall.emitted).flatten = enc i := by
  induction fuel with
  | zero =>
    intro s e s2 calls i p _ _ h _
    simp [FinishLoop] at h
  | succ n ih =>
    intro s e s2 calls i p hR h0 h hend
    unfold FinishLoop at h
    rw [if_pos rfl] at h
    dsimp only at h
    split at h
    · simp at h
    · rename_i e1 s3 calls1 heq
      simp at h
      obtain ⟨he, _, hcalls⟩ := h
      subst he hcalls
      by_cases hst : (callCompress c s BZ_FINISH).1 = BZ_FINISH_OK
      · obtain ⟨hin, hR2⟩ :=
          hS.finish_ok { s.bz_strm_ with avail_out := s.comp_buffer_.length % 2 ^ 32 } i p hR h0
            hst
        rw [hst] at heq
        have hrec := ih (appendChunk (callCompress c s BZ_FINISH).2.1) e1 s3 calls1 _ _
          (by rw [bz_strm_appendChunk]; exact hR2)
          (by rw [bz_strm_appendChunk]; exact hin) heq hend
        simpa [CodecCall.emitted, callCompress, List.append_assoc] using hrec
      · have hnow : e1 = (callCompress c s BZ_FINISH).1 ∧ calls1 = [] := by
          cases n with
          | zero =>
            simp [FinishLoop, hst] at heq
            exact ⟨heq.1.symm, heq.2.2⟩
          | succ m =>
            unfold FinishLoop at heq
            rw [if_neg hst] at heq
            simp at heq
            exact ⟨heq.1.symm, heq.2.2⟩
        obtain ⟨he1, hc1⟩ := hnow
        subst hc1
        have hfin := hS.finish_end
          { s.bz_strm_ with avail_out := s.comp_buffer_.length % 2 ^ 32 } i p hR h0
          (by rw [← hend, he1]; rfl)
        simpa [CodecCall.emitted, callCompress] using hfin

theorem Finish_streams {σ : Type} (c : Codec σ) (enc : List UInt8 → List UInt8)
    (R : Option σ → List UInt8 → List UInt8 → Prop) (hS : Streams c enc R) (fuel : Nat)
    (s : BZ2Compressor σ) (o : Outcome σ) (i p : List UInt8)
    (hR : R s.bz_strm_.state i p) (hF : Finish c fuel s = some o) (hret : o.ret = true) :
    p ++ (o.calls.map CodecCall.emitted).flatten = enc i := by
  have hflag : s.bz_strm_initialized_ = true := by
    cases hf : s.bz_strm_initialized_ with
    | true => rfl
    | false =>
      rw [Finish_unset c fuel s hf] at hF
      simp at hF; subst hF
      simp at hret
  rw [Finish_set c fuel s hflag] at hF
  split at hF
  · simp at hF
  · rename_i e s2 calls heq
    split at hF
    · simp at hF; subst hF; simp at hret
    · rename_i hend
      have hmain := FinishLoop_streams c enc R hS fuel _ e s2 calls i p (by exact hR) rfl heq
        (not_not.mp hend)
      dsimp only at hF
      split at hF <;>
        (simp at hF; subst hF; simpa [CodecCall.emitted] using hmain)

theorem Write_streams {σ : Type} (c : Codec σ) (enc : List UInt8 → List UInt8)
    (R : Option σ → List UInt8 → List UInt8 → Prop) (hS : Streams c enc R) (fuel : Nat)
    (s : BZ2Compressor σ) (piece : List UInt8) (o : Outcome σ) (i p : List UInt8)
    (hlen : piece.length < 2 ^ 32) (hR : R s.bz_strm_.state i p)
    (hW : Write c fuel s piece piece.length = some o) (hret : o.ret = true) :
    R o.obj.bz_strm_.state (i ++ piece) (p ++ (o.calls.map CodecCall.emitted).flatten) := by
  have hflag : s.bz_strm_initialized_ = true := by
    cases hf : s.bz_strm_initialized_ with
    | true => rfl
    | false =>
      rw [Write_unset c fuel s piece piece.length hf] at hW
      simp at hW; subst hW
      simp at hret
  rw [Write_set c fuel s piece piece.length hflag] at hW
  have h := WriteLoop_streams c enc R hS fuel _ o i p (by exact hR) hW hret
  have hmod : piece.length % 2 ^ 32 = piece.length := Nat.mod_eq_of_lt hlen
  simp only [hmod, List.take_length] at h
  exact h

/-- With a library that encodes a stream: when `Write` calls of pieces shorter
than 2^32 bytes (each with its length as size) followed by `Finish` all return
success, the output emitted so far has been brought to `enc` of the input
taken before followed by the pieces. -/
theorem run_streams {σ : Type} (c : Codec σ) (enc : List UInt8 → List UInt8)
    (R : Option σ → List UInt8 → List UInt8 → Prop) (hS : Streams c enc R) (fuel : Nat)
    (pieces : List (List UInt8)) :
    ∀ (s : BZ2Compressor σ) (rs : List Ret) (s2 : BZ2Compressor σ) (calls : List CodecCall)
      (i p : List UInt8),
      (∀ piece ∈ pieces, piece.length < 2 ^ 32) → R s.bz_strm_.state i p →
      run c fuel s (pieces.map (fun x => Op.write x x.length) ++ [Op.finish])
        = some (rs, s2, calls) →
      (∀ r ∈ rs, r = Ret.bool true) →
      p ++ (calls.map CodecCall.emitted).flatten = enc (i ++ pieces.flatten) := by
  induction pieces with
  | nil =>
    intro s rs s2 calls i p _ hR hrun hok
    simp only [List.map_nil, List.nil_append, run, step] at hrun
    cases hF : Finish c fuel s with
    | none => simp [hF] at hrun
    | some o =>
      simp [hF] at hrun
      obtain ⟨hrs, _, hcalls⟩ := hrun
      have hret : o.ret = true := by
        have := hok (Ret.bool o.ret) (by rw [← hrs]; simp)
        simpa using this
      rw [← hcalls]
      simpa using Finish_streams c enc R hS fuel s o i p hR hF hret
  | cons x pieces ih =>
    intro s rs s2 calls i p hsz hR hrun hok
    simp only [List.map_cons, List.cons_append, run, step] at hrun
    cases hW : Write c fuel s x x.length with
    | none => simp [hW] at hrun
    | some o =>
      simp only [hW, Option.map_some'] at hrun
      cases hrest : run c fuel o.obj (pieces.map (fun x => Op.write x x.length) ++ [Op.finish]) with
      | none => simp [hrest] at hrun
      | some res =>
        obtain ⟨rs3, s3, calls3⟩ := res
        simp [hrest] at hrun
        obtain ⟨hrs, hs, hcalls⟩ := hrun
        subst hrs hs hcalls
        have hret : o.ret = true := by
          have := hok (Ret.bool o.ret) (List.mem_cons_self _ _)
          simpa using this
        have hR2 := Write_streams c enc R hS fuel s x o i p
          (hsz x (List.mem_cons_self _ _)) hR hW hret
        have h3 := ih o.obj rs3 s3 calls3 _ _
          (fun piece hp => hsz piece (List.mem_cons_of_mem _ hp)) hR2 hrest
          (fun r hr => hok r (List.mem_cons_of_mem _ hr))
        simpa [List.append_assoc] using h3

theorem construct_strm {σ : Type} (c : Codec σ) :
    (construct c).1.bz_strm_ =
      (c.BZ2_bzCompressInit { next_in := [], avail_in := 0, avail_out := 0, state := none }
        kCompressionLevel 0 0).2 := by
  unfold construct
  dsimp only
  split <;> rfl

/-- Pieces shorter than 2^32 bytes, with a library that encodes a stream with
`enc` and accounts for its output: when the `Write` calls of the pieces (each
with its length as size) and the `Finish` after them all return success on
the constructed object, `GetCompressedData` returns `enc` of the pieces
concatenated. -/
theorem short_pieces_data {σ : Type} (c : Codec σ) (enc : List UInt8 → List UInt8)
    (R : Option σ → List UInt8 → List UInt8 → Prop) (hS : Streams c enc R) (hc : Conforms c)
    (hinit : (c.BZ2_bzCompressInit { next_in := [], avail_in := 0, avail_out := 0, state := none }
      kCompressionLevel 0 0).1 = BZ_OK)
    (fuel : Nat) (pieces : List (List UInt8)) (rs : List Ret) (s2 : BZ2Compressor σ)
    (calls : List CodecCall)
    (hsz : ∀ piece ∈ pieces, piece.length < 2 ^ 32)
    (hrun : run c fuel (construct c).1 (pieces.map (fun x => Op.write x x.length) ++ [Op.finish])
      = some (rs, s2, calls))
    (hok : ∀ r ∈ rs, r = Ret.bool true) :
    (GetCompressedData s2).1 = enc pieces.flatten := by
  obtain ⟨_, hlen, hstream⟩ := construct_ok c hinit
  have hR : R (construct c).1.bz_strm_.state [] [] := by
    rw [construct_strm]
    exact hS.init _ _ _ _ hinit
  have h1 := run_streams c enc R hS fuel pieces _ rs s2 calls [] [] hsz hR hrun hok
  have hops : pieces.map (fun x => Op.write x x.length)
      = (pieces.map (fun x => (x, x.length))).map (fun w => Op.write w.1 w.2) := by
    simp [List.map_map, Function.comp]
  rw [hops] at hrun
  have h2 := run_writes_finish_emitted c hc fuel _ _ rs s2 calls
    (by rw [hlen]; norm_num) hrun hok
  rw [GetCompressedData_fst, h2, hstream]
  simpa using h1

/-- Chunking invariance for pieces shorter than 2^32 bytes, under the
hypotheses of `short_pieces_data`: two ways of cutting the same bytes into
such pieces give the same compressed data. -/
theorem short_pieces_chunking_invariance {σ : Type} (c : Codec σ)
    (enc : List UInt8 → List UInt8) (R : Option σ → List UInt8 → List UInt8 → Prop)
    (hS : Streams c enc R) (hc : Conforms c)
    (hinit : (c.BZ2_bzCompressInit { next_in := [], avail_in := 0, avail_out := 0, state := none }
      kCompressionLevel 0 0).1 = BZ_OK)
    (fuel1 fuel2 : Nat) (pieces1 pieces2 : List (List UInt8))
    (hsame : pieces1.flatten = pieces2.flatten)
    (rs1 rs2 : List Ret) (s1 s2 : BZ2Compressor σ) (calls1 calls2 : List CodecCall)
    (hsz1 : ∀ piece ∈ pieces1, piece.length < 2 ^ 32)
    (hsz2 : ∀ piece ∈ pieces2, piece.length < 2 ^ 32)
    (hrun1 : run c fuel1 (construct c).1
      (pieces1.map (fun x => Op.write x x.length) ++ [Op.finish]) = some (rs1, s1, calls1))
    (hrun2 : run c fuel2 (construct c).1
      (pieces2.map (fun x => Op.write x x.length) ++ [Op.finish]) = some (rs2, s2, calls2))
    (hok1 : ∀ r ∈ rs1, r = Ret.bool true) (hok2 : ∀ r ∈ rs2, r = Ret.bool true) :
    (GetCompressedData s1).1 = (GetCompressedData s2).1 := by
  rw [short_pieces_data c enc R hS hc hinit fuel1 pieces1 rs1 s1 calls1 hsz1 hrun1 hok1,
    short_pieces_data c enc R hS hc hinit fuel2 pieces2 rs2 s2 calls2 hsz2 hrun2 hok2, hsame]

/-- Round trip for pieces shorter than 2^32 bytes, under the hypotheses of
`short_pieces_data`: a decoder that inverts `enc` recovers the input from the
compressed data. -/
theorem short_pieces_round_trip {σ : Type} (c : Codec σ) (enc dec : List UInt8 → List UInt8)
    (R : Option σ → List UInt8 → List UInt8 → Prop) (hS : Streams c enc R) (hc : Conforms c)
    (hdec : ∀ input, dec (enc input) = input)
    (hinit : (c.BZ2_bzCompressInit { next_in := [], avail_in := 0, avail_out := 0, state := none }
      kCompressionLevel 0 0).1 = BZ_OK)
    (fuel : Nat) (pieces : List (List UInt8)) (rs : List Ret) (s2 : BZ2Compressor σ)
    (calls : List CodecCall)
    (hsz : ∀ piece ∈ pieces, piece.length < 2 ^ 32)
    (hrun : run c fuel (construct c).1 (pieces.map (fun x => Op.write x x.length) ++ [Op.finish])
      = some (rs, s2, calls))
    (hok : ∀ r ∈ rs, r = Ret.bool true) :
    dec (GetCompressedData s2).1 = pieces.flatten := by
  rw [short_pieces_data c enc R hS hc hinit fuel pieces rs s2 calls hsz hrun hok, hdec]

theorem run_copy_pieces (b : List UInt8) (hb : b.length = 1024 * 1024) :
    run copyCodec 1
        { bz_strm_ := { next_in := [], avail_in := 0, avail_out := 0, state := some 0 }
          bz_strm_initialized_ := true
          comp_buffer_ := b
          comp_chunks_ := []
          comp_data_ := [] }
        ([[1, 2, 3], [4]].map (fun x => Op.write x x.length) ++ [Op.finish]) =
      some ([Ret.bool true, Ret.bool true, Ret.bool true],
        { bz_strm_ := { next_in := [], avail_in := 0, avail_out := 1048575, state := none }
          bz_strm_initialized_ := false
          comp_buffer_ := store (store (store b [1, 2, 3]) [4]) [255]
          comp_chunks_ := [[1, 2, 3], [4], [255]]
          comp_data_ := [] },
        [CodecCall.compress BZ_RUN 3 BZ_RUN_OK [1, 2, 3],
         CodecCall.compress BZ_RUN 1 BZ_RUN_OK [4],
         CodecCall.compress BZ_FINISH 0 BZ_STREAM_END [255],
         CodecCall.compressEnd BZ_OK]) := by
  have h3 : (store b [1, 2, 3]).take 3 = [1, 2, 3] :=
    take_store b [1, 2, 3] (by simp [hb])
  simp [run, step, Write, WriteLoop, Finish, FinishLoop, callCompress, appendChunk, copyCodec,
    length_store, hb, output_bytes, h3, take_one_store, BZ_RUN, BZ_RUN_OK, BZ_FINISH,
    BZ_FINISH_OK, BZ_STREAM_END, BZ_OK]

/-- The hypotheses of `short_pieces_data` hold for `copyCodec` with the pieces
`[1, 2, 3]` and `[4]`: the data is `[1, 2, 3, 4]` followed by the trailer. -/
theorem short_pieces_data_witness :
    Streams copyCodec (fun input => input ++ [255]) (fun _ i p => p = i) ∧
    Conforms copyCodec ∧
    run copyCodec 1 (construct copyCodec).1
        ([[1, 2, 3], [4]].map (fun x => Op.write x x.length) ++ [Op.finish])
      = some constructedPieces ∧
    (GetCompressedData constructedPieces.2.1).1 = [[1, 2, 3], [4]].flatten ++ [255] := by
  have hrun : run copyCodec 1 (construct copyCodec).1
      ([[1, 2, 3], [4]].map (fun x => Op.write x x.length) ++ [Op.finish])
      = some constructedPieces := by
    rw [construct_copy]
    exact run_copy_pieces _ (length_resize _ _)
  exact ⟨streams_copyCodec, conforms_copyCodec, hrun,
    short_pieces_data copyCodec (fun input => input ++ [255]) (fun _ i p => p = i)
      streams_copyCodec conforms_copyCodec rfl 1 [[1, 2, 3], [4]]
      constructedPieces.1 constructedPieces.2.1 constructedPieces.2.2
      (by decide) hrun (by decide)⟩

/-! ## The loops return -/

/-- A `Write` loop returns failure as soon as a call answers a status other
than `BZ_RUN_OK`: when the rounds before round `k` found input pending and were
answered `BZ_RUN_OK`, and round `k` finds input pending and is answered another
status, then with any bound above `k` the loop returns failure with the object
as that call left it (no chunk appended for it) after `k + 1` library calls. -/
theorem WriteLoop_rounds_error {σ : Type} (c : Codec σ) (k : Nat) :
    ∀ (fuel : Nat) (s : BZ2Compressor σ), k < fuel →
      (∀ j < k, (afterRounds c BZ_RUN j s).bz_strm_.avail_in ≠ 0 ∧
        answer c BZ_RUN j s = BZ_RUN_OK) →
      (afterRounds c BZ_RUN k s).bz_strm_.avail_in ≠ 0 →
      answer c BZ_RUN k s ≠ BZ_RUN_OK →
      WriteLoop c fuel s =
        some ⟨false, (callCompress c (afterRounds c BZ_RUN k s) BZ_RUN).2.1,
          roundCalls c BZ_RUN (k + 1) s⟩ := by
  induction k with
  | zero =>
    intro fuel s hfuel _ hpend herr
    obtain ⟨f, rfl⟩ : ∃ f, fuel = f + 1 := ⟨fuel - 1, by omega⟩
    simp only [afterRounds, answer] at hpend herr
    unfold WriteLoop
    rw [if_neg hpend]
    dsimp only
    rw [if_pos herr]
    rfl
  | succ k ih =>
    intro fuel s hfuel hprev hpend herr
    obtain ⟨f, rfl⟩ : ∃ f, fuel = f + 1 := ⟨fuel - 1, by omega⟩
    have h0 := hprev 0 (by omega)
    simp only [afterRounds, answer] at h0
    have hrec := ih f (appendChunk (callCompress c s BZ_RUN).2.1) (by omega)
      (fun j hj => hprev (j + 1) (by omega)) hpend herr
    unfold WriteLoop
    rw [if_neg h0.1]
    dsimp only
    rw [if_neg (not_not.mpr h0.2), hrec]
    rfl

/-- A `Write` loop returns success once the input count is zero: when the
rounds before round `k` found input pending and were answered `BZ_RUN_OK` and
after them `avail_in` is zero, then with any bound of at least `k` the loop
returns success after `k` library calls. -/
theorem WriteLoop_rounds_success {σ : Type} (c : Codec σ) (k : Nat) :
    ∀ (fuel : Nat) (s : BZ2Compressor σ), k ≤ fuel →
      (∀ j < k, (afterRounds c BZ_RUN j s).bz_strm_.avail_in ≠ 0 ∧
        answer c BZ_RUN j s = BZ_RUN_OK) →
      (afterRounds c BZ_RUN k s).bz_strm_.avail_in = 0 →
      WriteLoop c fuel s = some ⟨true, afterRounds c BZ_RUN k s, roundCalls c BZ_RUN k s⟩ := by
  induction k with
  | zero =>
    intro fuel s _ _ hdone
    simp only [afterRounds] at hdone
    cases fuel <;> (unfold WriteLoop; rw [if_pos hdone]; rfl)
  | succ k ih =>
    intro fuel s hfuel hprev hdone
    obtain ⟨f, rfl⟩ : ∃ f, fuel = f + 1 := ⟨fuel - 1, by omega⟩
    have h0 := hprev 0 (by omega)
    simp only [afterRounds, answer] at h0
    have hrec := ih f (appendChunk (callCompress c s BZ_RUN).2.1) (by omega)
      (fun j hj => hprev (j + 1) (by omega)) hdone
    unfold WriteLoop
    rw [if_neg h0.1]
    dsimp only
    rw [if_neg (not_not.mpr h0.2), hrec]
    rfl

/-- A `Finish` loop returns as soon as a finalizing call answers a status other
than `BZ_FINISH_OK`: when the rounds before round `k` were answered
`BZ_FINISH_OK` and round `k` is answered another status, then with any bound
above `k` the loop ends with that status after `k + 1` rounds. -/
theorem FinishLoop_rounds {σ : Type} (c : Codec σ) (k : Nat) :
    ∀ (fuel : Nat) (s : BZ2Compressor σ), k < fuel →
      (∀ j < k, answer c BZ_FINISH j s = BZ_FINISH_OK) →
      answer c BZ_FINISH k s ≠ BZ_FINISH_OK →
      FinishLoop c fuel BZ_FINISH_OK s =
        some (answer c BZ_FINISH k s, afterRounds c BZ_FINISH (k + 1) s,
          roundCalls c BZ_FINISH (k + 1) s) := by
  induction k with
  | zero =>
    intro fuel s hfuel _ hlast
    obtain ⟨f, rfl⟩ : ∃ f, fuel = f + 1 := ⟨fuel - 1, by omega⟩
    simp only [afterRounds, answer] at hlast
    unfold FinishLoop
    rw [if_pos rfl]
    dsimp only
    have hnext : FinishLoop c f (callCompress c s BZ_FINISH).1
        (appendChunk (callCompress c s BZ_FINISH).2.1)
        = some ((callCompress c s BZ_FINISH).1, appendChunk (callCompress c s BZ_FINISH).2.1,
            []) := by
      cases f <;> (unfold FinishLoop; rw [if_neg hlast])
    rw [hnext]
    rfl
  | succ k ih =>
    intro fuel s hfuel hprev hlast
    obtain ⟨f, rfl⟩ : ∃ f, fuel = f + 1 := ⟨fuel - 1, by omega⟩
    have h0 := hprev 0 (by omega)
    simp only [afterRounds, answer] at h0
    have hrec := ih f (appendChunk (callCompress c s BZ_FINISH).2.1) (by omega)
      (fun j hj => hprev (j + 1) (by omega)) hlast
    unfold FinishLoop
    rw [if_pos rfl]
    dsimp only
    rw [h0, hrec]
    rfl

/-- A `Finish` loop is still running while every finalizing call is answered
`BZ_FINISH_OK`: a bound of `fuel` rounds all answered so is used up. -/
theorem FinishLoop_rounds_none {σ : Type} (c : Codec σ) (fuel : Nat) :
    ∀ (s : BZ2Compressor σ), (∀ j < fuel, answer c BZ_FINISH j s = BZ_FINISH_OK) →
      FinishLoop c fuel BZ_FINISH_OK s = none := by
  induction fuel with
  | zero =>
    intro s _
    simp [FinishLoop]
  | succ f ih =>
    intro s hall
    have h0 := hall 0 (by omega)
    simp only [afterRounds, answer] at h0
    have hrec := ih (appendChunk (callCompress c s BZ_FINISH).2.1)
      (fun j hj => hall (j + 1) (by omega))
    unfold FinishLoop
    rw [if_pos rfl]
    dsimp only
    rw [h0, hrec]

theorem Write_entry {σ : Type} (c : Codec σ) (fuel : Nat) (s : BZ2Compressor σ)
    (buf : List UInt8) (size : Nat) (h : s.bz_strm_initialized_ = true) :
    Write c fuel s buf size = WriteLoop c fuel (writeEntry s buf size) :=
  Write_set c fuel s buf size h

/-- A result of `Write` does not depend on the bound that let it return. -/
theorem Write_unique {σ : Type} (c : Codec σ) (fuel fuel2 : Nat) (s : BZ2Compressor σ)
    (buf : List UInt8) (size : Nat) (o o2 : Outcome σ)
    (h : Write c fuel s buf size = some o) (h2 : Write c fuel2 s buf size = some o2) :
    o2 = o := by
  have e1 := Write_mono c fuel (max fuel fuel2) (Nat.le_max_left _ _) s buf size o h
  have e2 := Write_mono c fuel2 (max fuel fuel2) (Nat.le_max_right _ _) s buf size o2 h2
  rw [e1] at e2
  exact (Option.some.inj e2).symm

/-- A result of `Finish` does not depend on the bound that let it return. -/
theorem Finish_unique {σ : Type} (c : Codec σ) (fuel fuel2 : Nat) (s : BZ2Compressor σ)
    (o o2 : Outcome σ) (h : Finish c fuel s = some o) (h2 : Finish c fuel2 s = some o2) :
    o2 = o := by
  have e1 := Finish_mono c fuel (max fuel fuel2) (Nat.le_max_left _ _) s o h
  have e2 := Finish_mono c fuel2 (max fuel fuel2) (Nat.le_max_right _ _) s o2 h2
  rw [e1] at e2
  exact (Option.some.inj e2).symm

/-- `Finish` returns failure when the drain ends on a status that is neither
`BZ_FINISH_OK` nor `BZ_STREAM_END`, without releasing the session. -/
theorem Finish_rounds_error {σ : Type} (c : Codec σ) (fuel k : Nat) (s : BZ2Compressor σ)
    (hready : s.bz_strm_initialized_ = true) (hfuel : k < fuel)
    (hprev : ∀ j < k, answer c BZ_FINISH j (finishEntry s) = BZ_FINISH_OK)
    (hlast : answer c BZ_FINISH k (finishEntry s) ≠ BZ_FINISH_OK)
    (hend : answer c BZ_FINISH k (finishEntry s) ≠ BZ_STREAM_END) :
    Finish c fuel s =
      some ⟨false, afterRounds c BZ_FINISH (k + 1) (finishEntry s),
        roundCalls c BZ_FINISH (k + 1) (finishEntry s)⟩ := by
  have hloop := FinishLoop_rounds c k fuel (finishEntry s) hfuel hprev hlast
  rw [Finish_set c fuel s hready]
  have e : FinishLoop c fuel BZ_FINISH_OK
      { s with bz_strm_ := { s.bz_strm_ with next_in := [], avail_in := 0 } }
      = some (answer c BZ_FINISH k (finishEntry s),
          afterRounds c BZ_FINISH (k + 1) (finishEntry s),
          roundCalls c BZ_FINISH (k + 1) (finishEntry s)) := hloop
  rw [e]
  dsimp only
  rw [if_pos hend]

/-- `Finish` releases the session when the drain ends on `BZ_STREAM_END`, and
returns success exactly when the release answers `BZ_OK`. -/
theorem Finish_rounds_end {σ : Type} (c : Codec σ) (fuel k : Nat) (s : BZ2Compressor σ)
    (hready : s.bz_strm_initialized_ = true) (hfuel : k < fuel)
    (hprev : ∀ j < k, answer c BZ_FINISH j (finishEntry s) = BZ_FINISH_OK)
    (hend : answer c BZ_FINISH k (finishEntry s) = BZ_STREAM_END) :
    Finish c fuel s =
      some ⟨decide ((c.BZ2_bzCompressEnd
            (afterRounds c BZ_FINISH (k + 1) (finishEntry s)).bz_strm_).1 = BZ_OK),
        { afterRounds c BZ_FINISH (k + 1) (finishEntry s) with
          bz_strm_ := (c.BZ2_bzCompressEnd
            (afterRounds c BZ_FINISH (k + 1) (finishEntry s)).bz_strm_).2,
          bz_strm_initialized_ := false },
        roundCalls c BZ_FINISH (k + 1) (finishEntry s) ++
          [CodecCall.compressEnd (c.BZ2_bzCompressEnd
            (afterRounds c BZ_FINISH (k + 1) (finishEntry s)).bz_strm_).1]⟩ := by
  have hlast : answer c BZ_FINISH k (finishEntry s) ≠ BZ_FINISH_OK := by
    rw [hend]; decide
  have hloop := FinishLoop_rounds c k fuel (finishEntry s) hfuel hprev hlast
  rw [Finish_set c fuel s hready]
  have e : FinishLoop c fuel BZ_FINISH_OK
      { s with bz_strm_ := { s.bz_strm_ with next_in := [], avail_in := 0 } }
      = some (answer c BZ_FINISH k (finishEntry s),
          afterRounds c BZ_FINISH (k + 1) (finishEntry s),
          roundCalls c BZ_FINISH (k + 1) (finishEntry s)) := hloop
  rw [e]
  dsimp only
  rw [if_neg (not_not.mpr hend)]
  by_cases hrel : (c.BZ2_bzCompressEnd
      (afterRounds c BZ_FINISH (k + 1) (finishEntry s)).bz_strm_).1 = BZ_OK
  · rw [if_neg (not_not.mpr hrel)]
    simp [hrel]
  · rw [if_pos hrel]
    simp [hrel]

/-- `Finish` has not returned while every finalizing call is answered
`BZ_FINISH_OK`. -/
theorem Finish_rounds_none {σ : Type} (c : Codec σ) (fuel : Nat) (s : BZ2Compressor σ)
    (hready : s.bz_strm_initialized_ = true)
    (hall : ∀ j < fuel, answer c BZ_FINISH j (finishEntry s) = BZ_FINISH_OK) :
    Finish c fuel s = none := by
  have hloop := FinishLoop_rounds_none c fuel (finishEntry s) hall
  rw [Finish_set c fuel s hready]
  have e : FinishLoop c fuel BZ_FINISH_OK
      { s with bz_strm_ := { s.bz_strm_ with next_in := [], avail_in := 0 } } = none := hloop
  rw [e]

/-- The calls of the rounds of a loop are compress calls with the loop's
action, and their statuses are the answers of the rounds. -/
theorem roundCalls_spec {σ : Type} (c : Codec σ) (action : Int) (k : Nat) :
    ∀ (s : BZ2Compressor σ),
      (roundCalls c action k s).length = k ∧
      (∀ call ∈ roundCalls c action k s, ∃ ai st w, call = CodecCall.compress action ai st w) ∧
      ∀ j < k, (roundCalls c action k s)[j]?.map CodecCall.status
        = some (answer c action j s) := by
  induction k with
  | zero =>
    intro s
    simp [roundCalls]
  | succ k ih =>
    intro s
    obtain ⟨hlen, hkind, hstat⟩ := ih (appendChunk (callCompress c s action).2.1)
    refine ⟨by simp [roundCalls, hlen], ?_, ?_⟩
    · intro call hcall
      simp only [roundCalls, List.mem_cons] at hcall
      rcases hcall with hc | hc
      · exact ⟨_, _, _, hc⟩
      · exact hkind call hc
    · intro j hj
      cases j with
      | zero => simp [roundCalls, answer, afterRounds, callCompress, CodecCall.status]
      | succ j =>
        have := hstat j (by omega)
        simpa [roundCalls, answer, afterRounds] using this

/-- C10: `Finish` on an object whose session flag is set treats the library as
terminated only on `BZ_STREAM_END`.  When the finalizing calls of rounds
`0 .. k-1` are answered `BZ_FINISH_OK` and the call of round `k` is answered
another status `e`: with a bound of `k` rounds or fewer `Finish` has not
returned (it keeps calling while the answer is `BZ_FINISH_OK`); with any larger
bound it returns, always the same outcome, after exactly `k + 1` finalizing
calls (compress calls with `BZ_FINISH`, with the statuses just named),
followed by the release of the session if and only if `e` is `BZ_STREAM_END`.
It returns success if and only if `e` is `BZ_STREAM_END` and the release
answers `BZ_OK`; with every other status it returns failure. -/
theorem C10_Finish_terminates_only_on_stream_end {σ : Type} (c : Codec σ) (fuel k : Nat)
    (s : BZ2Compressor σ) (hready : s.bz_strm_initialized_ = true)
    (hprev : ∀ j < k, answer c BZ_FINISH j (finishEntry s) = BZ_FINISH_OK)
    (hlast : answer c BZ_FINISH k (finishEntry s) ≠ BZ_FINISH_OK)
    (hfuel : k < fuel) :
    (∀ fuel0, fuel0 ≤ k → Finish c fuel0 s = none) ∧
    ∃ o, Finish c fuel s = some o ∧
      (∀ (fuel2 : Nat) (o2 : Outcome σ), Finish c fuel2 s = some o2 → o2 = o) ∧
      o.calls = roundCalls c BZ_FINISH (k + 1) (finishEntry s) ++
        (if answer c BZ_FINISH k (finishEntry s) = BZ_STREAM_END then
          [CodecCall.compressEnd (c.BZ2_bzCompressEnd
            (afterRounds c BZ_FINISH (k + 1) (finishEntry s)).bz_strm_).1]
         else []) ∧
      (roundCalls c BZ_FINISH (k + 1) (finishEntry s)).length = k + 1 ∧
      (∀ call ∈ roundCalls c BZ_FINISH (k + 1) (finishEntry s),
        ∃ ai st w, call = CodecCall.compress BZ_FINISH ai st w) ∧
      (∀ j < k + 1, (roundCalls c BZ_FINISH (k + 1) (finishEntry s))[j]?.map CodecCall.status
        = some (answer c BZ_FINISH j (finishEntry s))) ∧
      (o.ret = true ↔
        answer c BZ_FINISH k (finishEntry s) = BZ_STREAM_END ∧
        (c.BZ2_bzCompressEnd
          (afterRounds c BZ_FINISH (k + 1) (finishEntry s)).bz_strm_).1 = BZ_OK) ∧
      (o.ret = false ↔
        ¬(answer c BZ_FINISH k (finishEntry s) = BZ_STREAM_END ∧
          (c.BZ2_bzCompressEnd
            (afterRounds c BZ_FINISH (k + 1) (finishEntry s)).bz_strm_).1 = BZ_OK)) := by
  obtain ⟨hlen, hkind, hstat⟩ := roundCalls_spec c BZ_FINISH (k + 1) (finishEntry s)
  refine ⟨fun fuel0 h0 => Finish_rounds_none c fuel0 s hready
    (fun j hj => hprev j (by omega)), ?_⟩
  by_cases hend : answer c BZ_FINISH k (finishEntry s) = BZ_STREAM_END
  · have hF := Finish_rounds_end c fuel k s hready hfuel hprev hend
    refine ⟨_, hF, fun fuel2 o2 h2 => Finish_unique c fuel fuel2 s _ o2 hF h2, ?_, hlen,
      hkind, hstat, ?_, ?_⟩
    · rw [if_pos hend]
    · simp [hend]
    · simp [hend]
  · have hF := Finish_rounds_error c fuel k s hready hfuel hprev hlast hend
    refine ⟨_, hF, fun fuel2 o2 h2 => Finish_unique c fuel fuel2 s _ o2 hF h2, ?_, hlen,
      hkind, hstat, ?_, ?_⟩
    · rw [if_neg hend]; simp
    · simp [hend]
    · simp [hend]

/-- Witness for C10: with `drainCodec` on `smallReady` the finalizing call of
round 0 is answered `BZ_FINISH_OK` and that of round 1 `BZ_STREAM_END`; with a
bound of 2 `Finish` returns `smallDrained`: two finalizing calls, the release,
success.  And with `secondCallFailsCodec` on the object of `smallSecondFailed`
the finalizing call of round 0 is answered `BZ_PARAM_ERROR`: `Finish` returns
failure after that one call, without a release. -/
theorem C10_Finish_terminates_only_on_stream_end_witness :
    answer secondCallFailsCodec BZ_FINISH 0 (finishEntry smallSecondFailed.obj)
      = BZ_PARAM_ERROR ∧
    Finish secondCallFailsCodec 1 smallSecondFailed.obj = some smallParamFailedFinish ∧
    (∃ o, Finish secondCallFailsCodec 1 smallSecondFailed.obj = some o ∧ o.ret = false) ∧
    smallReady.bz_strm_initialized_ = true ∧
    (∀ j < 1, answer drainCodec BZ_FINISH j (finishEntry smallReady) = BZ_FINISH_OK) ∧
    answer drainCodec BZ_FINISH 1 (finishEntry smallReady) = BZ_STREAM_END ∧
    Finish drainCodec 2 smallReady = some smallDrained ∧
    Finish drainCodec 1 smallReady = none ∧
    ((∀ fuel0, fuel0 ≤ 1 → Finish drainCodec fuel0 smallReady = none) ∧
    ∃ o, Finish drainCodec 2 smallReady = some o ∧
      (∀ (fuel2 : Nat) (o2 : Outcome Nat), Finish drainCodec fuel2 smallReady = some o2 →
        o2 = o) ∧
      o.calls = roundCalls drainCodec BZ_FINISH (1 + 1) (finishEntry smallReady) ++
        (if answer drainCodec BZ_FINISH 1 (finishEntry smallReady) = BZ_STREAM_END then
          [CodecCall.compressEnd (drainCodec.BZ2_bzCompressEnd
            (afterRounds drainCodec BZ_FINISH (1 + 1) (finishEntry smallReady)).bz_strm_).1]
         else []) ∧
      (roundCalls drainCodec BZ_FINISH (1 + 1) (finishEntry smallReady)).length = 1 + 1 ∧
      (∀ call ∈ roundCalls drainCodec BZ_FINISH (1 + 1) (finishEntry smallReady),
        ∃ ai st w, call = CodecCall.compress BZ_FINISH ai st w) ∧
      (∀ j < 1 + 1,
        (roundCalls drainCodec BZ_FINISH (1 + 1) (finishEntry smallReady))[j]?.map
          CodecCall.status
        = some (answer drainCodec BZ_FINISH j (finishEntry smallReady))) ∧
      (o.ret = true ↔
        answer drainCodec BZ_FINISH 1 (finishEntry smallReady) = BZ_STREAM_END ∧
        (drainCodec.BZ2_bzCompressEnd
          (afterRounds drainCodec BZ_FINISH (1 + 1) (finishEntry smallReady)).bz_strm_).1
          = BZ_OK) ∧
      (o.ret = false ↔
        ¬(answer drainCodec BZ_FINISH 1 (finishEntry smallReady) = BZ_STREAM_END ∧
          (drainCodec.BZ2_bzCompressEnd
            (afterRounds drainCodec BZ_FINISH (1 + 1) (finishEntry smallReady)).bz_strm_).1
            = BZ_OK))) :=
  ⟨by decide, rfl,
    (C10_Finish_terminates_only_on_stream_end secondCallFailsCodec 1 0 smallSecondFailed.obj
      rfl (by decide) (by decide) (by decide)).2.imp
      (fun o h => ⟨h.1, h.2.2.2.2.2.2.2.mpr (by decide)⟩),
    rfl, by decide, by decide, rfl, rfl,
    C10_Finish_terminates_only_on_stream_end drainCodec 2 1 smallReady rfl (by decide)
      (by decide) (by decide)⟩

theorem flag_afterRounds {σ : Type} (c : Codec σ) (action : Int) (k : Nat) :
    ∀ (s : BZ2Compressor σ),
      (afterRounds c action k s).bz_strm_initialized_ = s.bz_strm_initialized_ := by
  induction k with
  | zero => intro s; rfl
  | succ k ih =>
    intro s
    simp only [afterRounds]
    rw [ih, flag_appendChunk, flag_callCompress]

/-- `Write` on an object whose session flag is set returns failure as soon as
a call answers a status other than `BZ_RUN_OK`. -/
theorem Write_rounds_error {σ : Type} (c : Codec σ) (fuel k : Nat) (s : BZ2Compressor σ)
    (buf : List UInt8) (size : Nat) (hready : s.bz_strm_initialized_ = true)
    (hfuel : k < fuel)
    (hprev : ∀ j < k, (afterRounds c BZ_RUN j (writeEntry s buf size)).bz_strm_.avail_in ≠ 0 ∧
      answer c BZ_RUN j (writeEntry s buf size) = BZ_RUN_OK)
    (hpend : (afterRounds c BZ_RUN k (writeEntry s buf size)).bz_strm_.avail_in ≠ 0)
    (herr : answer c BZ_RUN k (writeEntry s buf size) ≠ BZ_RUN_OK) :
    Write c fuel s buf size =
      some ⟨false, (callCompress c (afterRounds c BZ_RUN k (writeEntry s buf size)) BZ_RUN).2.1,
        roundCalls c BZ_RUN (k + 1) (writeEntry s buf size)⟩ := by
  rw [Write_entry c fuel s buf size hready]
  exact WriteLoop_rounds_error c k fuel _ hfuel hprev hpend herr

/-- C2, amended: for every object whose session flag is set, when the library
answers a status other than `BZ_RUN_OK` during a `Write` (in round `k` of its
loop, the rounds before having been answered `BZ_RUN_OK`), `Write` returns
failure: with every bound above `k` it returns, always the same outcome, right
after that call, the object being as the call left it, with no chunk appended
for it.  The session flag stays set: the session is not made inert.  A later
`Finish`, or a later `Write` of a size whose low 32 bits are not zero, calls
the library again and returns what its answers determine; it returns success
when the library then answers without error. -/
theorem C2_Write_error_returns_failure_flag_stays_set {σ : Type} (c : Codec σ) (fuel k : Nat)
    (s : BZ2Compressor σ) (buf : List UInt8) (size : Nat)
    (hready : s.bz_strm_initialized_ = true)
    (hprev : ∀ j < k, (afterRounds c BZ_RUN j (writeEntry s buf size)).bz_strm_.avail_in ≠ 0 ∧
      answer c BZ_RUN j (writeEntry s buf size) = BZ_RUN_OK)
    (hpend : (afterRounds c BZ_RUN k (writeEntry s buf size)).bz_strm_.avail_in ≠ 0)
    (herr : answer c BZ_RUN k (writeEntry s buf size) ≠ BZ_RUN_OK)
    (hfuel : k < fuel) :
    ∃ o, Write c fuel s buf size = some o ∧
      (∀ (fuel2 : Nat) (o2 : Outcome σ), Write c fuel2 s buf size = some o2 → o2 = o) ∧
      o.ret = false ∧
      o.obj = (callCompress c (afterRounds c BZ_RUN k (writeEntry s buf size)) BZ_RUN).2.1 ∧
      o.obj.comp_chunks_ = (afterRounds c BZ_RUN k (writeEntry s buf size)).comp_chunks_ ∧
      o.calls = roundCalls c BZ_RUN (k + 1) (writeEntry s buf size) ∧
      o.calls.length = k + 1 ∧
      o.obj.bz_strm_initialized_ = true ∧
      (∀ (c2 : Codec σ) (fuel2 : Nat) (o2 : Outcome σ),
        Finish c2 fuel2 o.obj = some o2 → o2.calls ≠ []) ∧
      (∀ (c2 : Codec σ) (fuel2 : Nat) (buf2 : List UInt8) (size2 : Nat) (o2 : Outcome σ),
        size2 % 2 ^ 32 ≠ 0 → Write c2 fuel2 o.obj buf2 size2 = some o2 → o2.calls ≠ []) ∧
      (∀ (c2 : Codec σ) (fuel2 : Nat), 0 < fuel2 →
        answer c2 BZ_FINISH 0 (finishEntry o.obj) = BZ_STREAM_END →
        (c2.BZ2_bzCompressEnd
          (afterRounds c2 BZ_FINISH 1 (finishEntry o.obj)).bz_strm_).1 = BZ_OK →
        ∃ o2, Finish c2 fuel2 o.obj = some o2 ∧ o2.ret = true ∧ o2.calls ≠ []) ∧
      (∀ (c2 : Codec σ) (fuel2 : Nat) (buf2 : List UInt8) (size2 : Nat), 0 < fuel2 →
        size2 % 2 ^ 32 ≠ 0 →
        answer c2 BZ_RUN 0 (writeEntry o.obj buf2 size2) = BZ_RUN_OK →
        (afterRounds c2 BZ_RUN 1 (writeEntry o.obj buf2 size2)).bz_strm_.avail_in = 0 →
        ∃ o2, Write c2 fuel2 o.obj buf2 size2 = some o2 ∧ o2.ret = true ∧ o2.calls ≠ []) := by
  have hW := Write_rounds_error c fuel k s buf size hready hfuel hprev hpend herr
  have hflag : (callCompress c (afterRounds c BZ_RUN k (writeEntry s buf size))
      BZ_RUN).2.1.bz_strm_initialized_ = true := by
    rw [flag_callCompress, flag_afterRounds]
    exact hready
  refine ⟨_, hW, fun fuel2 o2 h2 => Write_unique c fuel fuel2 s buf size _ o2 hW h2, rfl, rfl,
    rfl, rfl, (roundCalls_spec c BZ_RUN (k + 1) _).1, hflag,
    fun c2 fuel2 o2 h2 => Finish_calls_codec c2 fuel2 _ o2 hflag h2,
    fun c2 fuel2 buf2 size2 o2 hsize h2 =>
      Write_calls_codec c2 fuel2 _ buf2 size2 o2 hflag hsize h2, ?_, ?_⟩
  · intro c2 fuel2 hpos hend hrel
    have hF := Finish_rounds_end c2 fuel2 0 _ hflag hpos (fun j hj => absurd hj (by omega)) hend
    refine ⟨_, hF, by simp [hrel], by simp⟩
  · intro c2 fuel2 buf2 size2 hpos hsize hok hdone
    have hW2 := WriteLoop_rounds_success c2 1 fuel2 (writeEntry _ buf2 size2) (by omega)
      (fun j hj => by
        have hj0 : j = 0 := by omega
        subst hj0
        exact ⟨hsize, hok⟩) hdone
    rw [← Write_entry c2 fuel2 _ buf2 size2 hflag] at hW2
    refine ⟨_, hW2, rfl, by simp [roundCalls]⟩

/-- Witness for the amended C2: with `secondCallFailsCodec`, a `Write` of three
bytes on `smallReady` is answered `BZ_RUN_OK` in round 0 and `BZ_PARAM_ERROR`
in round 1; with a bound of 2 it returns `smallSecondFailed`: failure, the
chunk of round 0 only, the session flag still set. -/
theorem C2_Write_error_returns_failure_flag_stays_set_witness :
    smallReady.bz_strm_initialized_ = true ∧
    (∀ j < 1,
      (afterRounds secondCallFailsCodec BZ_RUN j
        (writeEntry smallReady [1, 2, 3] 3)).bz_strm_.avail_in ≠ 0 ∧
      answer secondCallFailsCodec BZ_RUN j (writeEntry smallReady [1, 2, 3] 3) = BZ_RUN_OK) ∧
    (afterRounds secondCallFailsCodec BZ_RUN 1
      (writeEntry smallReady [1, 2, 3] 3)).bz_strm_.avail_in ≠ 0 ∧
    answer secondCallFailsCodec BZ_RUN 1 (writeEntry smallReady [1, 2, 3] 3) = BZ_PARAM_ERROR ∧
    Write secondCallFailsCodec 2 smallReady [1, 2, 3] 3 = some smallSecondFailed ∧
    (∃ o, Write secondCallFailsCodec 2 smallReady [1, 2, 3] 3 = some o ∧
      (∀ (fuel2 : Nat) (o2 : Outcome Nat),
        Write secondCallFailsCodec fuel2 smallReady [1, 2, 3] 3 = some o2 → o2 = o) ∧
      o.ret = false ∧ o.calls.length = 1 + 1 ∧ o.obj.bz_strm_initialized_ = true) := by
  obtain ⟨o, h1, h2, h3, _, _, _, h7, h8, _⟩ :=
    C2_Write_error_returns_failure_flag_stays_set secondCallFailsCodec 2 1 smallReady
      [1, 2, 3] 3 rfl (by decide) (by decide) (by decide) (by decide)
  exact ⟨rfl, by decide, by decide, by decide, rfl, o, h1, h2, h3, h7, h8⟩

/-- The object the constructor builds with `badEndCodec`. -/
theorem construct_badEnd :
    (construct badEndCodec).1 =
      { bz_strm_ := { next_in := [], avail_in := 0, avail_out := 0, state := some 0 }
        bz_strm_initialized_ := true
        comp_buffer_ := resize [] (1024 * 1024)
        comp_chunks_ := []
        comp_data_ := [] } := by
  rfl

theorem run_badEnd_write_finish (b : List UInt8) (hb : b.length = 1024 * 1024) :
    run badEndCodec 1
        { bz_strm_ := { next_in := [], avail_in := 0, avail_out := 0, state := some 0 }
          bz_strm_initialized_ := true
          comp_buffer_ := b
          comp_chunks_ := []
          comp_data_ := [] }
        [Op.write [1, 2, 3] 3, Op.finish] =
      some ([Ret.bool true, Ret.bool false],
        { bz_strm_ := { next_in := [], avail_in := 0, avail_out := 1048575, state := none }
          bz_strm_initialized_ := false
          comp_buffer_ := store (store b [1, 2, 3]) [255]
          comp_chunks_ := [[1, 2, 3], [255]]
          comp_data_ := [] },
        [CodecCall.compress BZ_RUN 3 BZ_RUN_OK [1, 2, 3],
         CodecCall.compress BZ_FINISH 0 BZ_STREAM_END [255],
         CodecCall.compressEnd BZ_PARAM_ERROR]) := by
  have h3 : (store b [1, 2, 3]).take 3 = [1, 2, 3] :=
    take_store b [1, 2, 3] (by simp [hb])
  simp [run, step, Write, WriteLoop, Finish, FinishLoop, callCompress, appendChunk, badEndCodec,
    copyCodec, length_store, hb, output_bytes, h3, take_one_store, BZ_RUN, BZ_RUN_OK,
    BZ_FINISH, BZ_FINISH_OK, BZ_STREAM_END, BZ_OK, BZ_PARAM_ERROR]

/-- The run of `constructedBadEnd`. -/
theorem run_constructed_badEnd :
    run badEndCodec 1 (construct badEndCodec).1 [Op.write [1, 2, 3] 3, Op.finish]
      = some constructedBadEnd := by
  rw [construct_badEnd]
  exact run_badEnd_write_finish _ (length_resize _ _)

/-- Where a returning `Finish` makes the release: it makes at most one, and it
makes one exactly when its drain ended with `BZ_STREAM_END`, the release being
then its last library call, whatever the release answers. -/
theorem Finish_release_place {σ : Type} (c : Codec σ) (fuel : Nat) (s : BZ2Compressor σ)
    (o : Outcome σ) (h : Finish c fuel s = some o) :
    releases o.calls ≤ 1 ∧
    (releases o.calls = 1 ↔
      ∃ pre ai w st, o.calls = pre ++
        [CodecCall.compress BZ_FINISH ai BZ_STREAM_END w, CodecCall.compressEnd st]) := by
  cases hflag : s.bz_strm_initialized_ with
  | false =>
    rw [Finish_unset c fuel s hflag] at h
    simp at h; subst h
    simp [releases]
  | true =>
    obtain ⟨pre, ai, e, w, hpre, _, hcase⟩ := Finish_spec c fuel s o hflag h
    have hpre0 : releases pre = 0 := by
      apply releases_eq_zero
      intro call hcall
      obtain ⟨ai2, w2, hc⟩ := hpre call hcall
      rw [hc]; rfl
    rcases hcase with ⟨hend, st, hcalls, _, _⟩ | ⟨hend, hcalls, _, _⟩
    · have hone : releases o.calls = 1 := by
        rw [hcalls, releases_append, hpre0]
        simp [releases, CodecCall.isEnd]
      refine ⟨by omega, fun _ => ⟨pre, ai, w, st, ?_⟩, fun _ => hone⟩
      rw [hcalls, hend]
    · have hzero : releases o.calls = 0 := by
        rw [hcalls, releases_append, hpre0]
        simp [releases, CodecCall.isEnd]
      refine ⟨by omega, fun h1 => by omega, ?_⟩
      rintro ⟨pre2, ai2, w2, st2, h2⟩
      rw [hcalls] at h2
      have hlast := congrArg List.getLast? h2
      simp at hlast

/-- C12, as stated, fails in its clause about where the release happens: on
the object constructed with `badEndCodec` (initialization answers `BZ_OK`), a
`Write` and a `Finish` are made; the drain ends with `BZ_STREAM_END`, the
release is called inside that `Finish` and answers `BZ_PARAM_ERROR`, so
`Finish` returns failure.  No `Finish` returned success, and the destructor
makes no library call: the one release happened neither inside a successful
`Finish` nor in the destructor. -/
theorem C12_release_inside_a_Finish_that_fails :
    (badEndCodec.BZ2_bzCompressInit
      { next_in := [], avail_in := 0, avail_out := 0, state := none }
      kCompressionLevel 0 0).1 = BZ_OK ∧
    run badEndCodec 1 (construct badEndCodec).1 [Op.write [1, 2, 3] 3, Op.finish]
      = some constructedBadEnd ∧
    constructedBadEnd.1 = [Ret.bool true, Ret.bool false] ∧
    constructedBadEnd.2.2 =
      [CodecCall.compress BZ_RUN 3 BZ_RUN_OK [1, 2, 3],
       CodecCall.compress BZ_FINISH 0 BZ_STREAM_END [255],
       CodecCall.compressEnd BZ_PARAM_ERROR] ∧
    releases constructedBadEnd.2.2 = 1 ∧
    destruct badEndCodec constructedBadEnd.2.1 = [] :=
  ⟨rfl, run_constructed_badEnd, rfl, rfl, by decide, by decide⟩

/-- C12, amended: the session is released exactly once when the constructor
initialized it and never when initialization failed.  For every sequence of
`Write`, `Finish` and `GetCompressedData` calls on the constructed object
followed by its destruction, the number of `BZ2_bzCompressEnd` calls made in
total (constructor, calls, destructor) is one if `BZ2_bzCompressInit` answered
`BZ_OK` and zero otherwise.  The release is made inside the `Finish` whose
drain ended with `BZ_STREAM_END`, as its last library call and whether or not
the release answers `BZ_OK` (so also inside a `Finish` that then returns
failure), or else in the destructor: the destructor makes the call exactly
when no call of the sequence made it; `Write` never makes it (nor does
`GetCompressedData`, which calls no library function); a `Finish` makes it at
most once, and a `Finish` that returns success has made it. -/
theorem C12_session_released_exactly_once {σ : Type} (c : Codec σ) (fuel : Nat)
    (ops : List Op) (rs : List Ret) (s2 : BZ2Compressor σ) (calls : List CodecCall)
    (hrun : run c fuel (construct c).1 ops = some (rs, s2, calls)) :
    releases ((construct c).2 ++ calls ++ destruct c s2) =
      (if (c.BZ2_bzCompressInit { next_in := [], avail_in := 0, avail_out := 0, state := none }
        kCompressionLevel 0 0).1 = BZ_OK then 1 else 0) ∧
    releases calls + releases (destruct c s2) = owed (construct c).1 ∧
    (∀ (fuel2 : Nat) (s : BZ2Compressor σ) (buf : List UInt8) (size : Nat) (o : Outcome σ),
      Write c fuel2 s buf size = some o → releases o.calls = 0) ∧
    (∀ (fuel2 : Nat) (s : BZ2Compressor σ) (o : Outcome σ),
      Finish c fuel2 s = some o → o.ret = true → releases o.calls = 1) ∧
    (∀ (fuel2 : Nat) (s : BZ2Compressor σ) (o : Outcome σ),
      Finish c fuel2 s = some o →
      releases o.calls ≤ 1 ∧
      (releases o.calls = 1 ↔
        ∃ pre ai w st, o.calls = pre ++
          [CodecCall.compress BZ_FINISH ai BZ_STREAM_END w, CodecCall.compressEnd st])) := by
  obtain ⟨h0, h1⟩ := construct_owed c
  have h2 := run_owed c fuel ops _ rs s2 calls hrun
  have h3 := destruct_owed c s2
  refine ⟨?_, by omega,
    fun fuel2 s buf size o hW => (Write_owed c fuel2 s buf size o hW).1, ?_,
    fun fuel2 s o hF => Finish_release_place c fuel2 s o hF⟩
  · rw [releases_append, releases_append, ← h1]
    omega
  · intro fuel2 s o hF hret
    have h4 := Finish_owed c fuel2 s o hF
    have h5 := Finish_success_flag c fuel2 s o hF hret
    have h6 : s.bz_strm_initialized_ = true := by
      cases hflag : s.bz_strm_initialized_ with
      | true => rfl
      | false =>
        rw [Finish_unset c fuel2 s hflag] at hF
        simp at hF; subst hF
        simp at hret
    simp [owed, h5, h6] at h4
    exact h4

/-- Witness for the amended C12: on the object constructed with `copyCodec`, a
`Write`, a `GetCompressedData` and a successful `Finish` followed by the
destructor make one release in all, inside `Finish`. -/
theorem C12_session_released_exactly_once_witness :
    run copyCodec 1 (construct copyCodec).1 [Op.write [1, 2, 3] 3, Op.getData, Op.finish]
      = some constructedCopied ∧
    releases constructedCopied.2.2 = 1 ∧
    destruct copyCodec constructedCopied.2.1 = [] ∧
    releases ((construct copyCodec).2 ++ constructedCopied.2.2
      ++ destruct copyCodec constructedCopied.2.1) =
      (if (copyCodec.BZ2_bzCompressInit
          { next_in := [], avail_in := 0, avail_out := 0, state := none }
          kCompressionLevel 0 0).1 = BZ_OK then 1 else 0) :=
  ⟨run_constructed_copy, by decide, by decide,
    (C12_session_released_exactly_once copyCodec 1
      [Op.write [1, 2, 3] 3, Op.getData, Op.finish]
      constructedCopied.1 constructedCopied.2.1 constructedCopied.2.2 run_constructed_copy).1⟩

end bsdiff
